import Mathlib

/-!
# raco: a generator-driven control-flow resolver

A shallow embedding of `src/index.js` and a verification of its specification.

JavaScript values are a first-order datatype; objects and functions supplied by the
user are opaque identifiers carrying the capabilities that the resolver probes with
`typeof`.  The closures that the resolver itself creates (`step`, `next`, the promise
and observable handlers, the promise settler, `noop`, wrappers) are constructors of
`Value`, named after the computation that owns them.  A coroutine is a state machine
`resume : σ → Resume → List Act × Outcome σ`; the list of `Act`s is what the coroutine
body calls synchronously on the continuation object it was handed before it yields,
returns or raises.  Every synchronous call chain is bounded by a fuel argument:
`none` means that the fuel ran out.
-/

namespace Raco

/-! ## Values -/

/-- What the resolver can find out about a user object with `typeof`
(lines 4-15) and with `isGeneratorFunction` (line 1, an external helper). -/
structure Shape where
  /-- `typeof val === 'function'` -/
  fn : Bool
  /-- `typeof val.then === 'function'` -/
  thenFn : Bool
  /-- the function is a generator function: with `fn`, `isGeneratorFunction(val)` -/
  genFn : Bool
  /-- `typeof val.next === 'function'` -/
  nextFn : Bool
  /-- `typeof val.throw === 'function'` -/
  throwFn : Bool
  /-- `typeof val.subscribe === 'function'` -/
  subscribeFn : Bool

/-- The four handler closures that `_yieldable` creates: lines 45, 47, 61 and 64. -/
inductive Handler where
  | fulfilled
  | rejected
  | emitted
  | failed

/-- JavaScript values. -/
inductive Value where
  | undefined
  | null
  | bool (b : Bool)
  | num (n : Int)
  | str (s : String)
  /-- `new Error(msg)` -/
  | error (msg : String)
  | arr (xs : List Value)
  /-- a user object or function -/
  | obj (sh : Shape) (id : Nat)
  /-- the `step` closure of computation `c` (line 108) -/
  | step (c : Nat)
  /-- the `next` closure of computation `c` (line 142) -/
  | next (c : Nat)
  /-- a handler closure created by `_yieldable` for computation `c` -/
  | handler (h : Handler) (c : Nat)
  /-- the callback of promise mode (line 201) of computation `c` -/
  | settle (c : Nat)
  /-- `noop` (line 16) -/
  | noop
  /-- the callback returned by the `k`-th `push` on parallel group `g` -/
  | slot (g k : Nat)
  /-- the function returned by `raco.wrap(genFn)` (line 238) -/
  | wrap (genFn : Value)

/-- Argument lists (`arguments`). -/
abbrev Args := List Value

/-- The `i`-th formal parameter: `undefined` when the argument is missing. -/
def arg (args : Args) (i : Nat) : Value := args.getD i Value.undefined

/-- JavaScript truthiness (`ToBoolean`). -/
def truthy : Value → Bool
  | Value.undefined => false
  | Value.null => false
  | Value.bool b => b
  | Value.num n => n != 0
  | Value.str s => s != ""
  | _ => true

/-- Line 4: `isFunction`. -/
def isFunction : Value → Bool
  | Value.obj sh _ => sh.fn
  | Value.step _ => true
  | Value.next _ => true
  | Value.handler _ _ => true
  | Value.settle _ => true
  | Value.noop => true
  | Value.slot _ _ => true
  | Value.wrap _ => true
  | _ => false

/-- Line 7: `isGenerator`. -/
def isGenerator : Value → Bool
  | Value.obj sh _ => sh.nextFn && sh.throwFn
  | _ => false

/-- Line 10: `isPromise`. -/
def isPromise : Value → Bool
  | Value.obj sh _ => sh.thenFn
  | _ => false

/-- Line 13: `isObservable`. -/
def isObservable : Value → Bool
  | Value.obj sh _ => sh.subscribeFn
  | _ => false

/-- Line 1: `isGeneratorFunction`, the external predicate, read off the shape; only a
function can be a generator function. -/
def isGeneratorFunction : Value → Bool
  | Value.obj sh _ => sh.fn && sh.genFn
  | _ => false

/-- The message of the error created on line 153. -/
def multipleCallbacks : Value := Value.error "Multiple callbacks within one iteration"

/-- Lines 48 and 65: `err || new Error()`. -/
def orError (err : Value) : Value := if truthy err then err else Value.error ""

/-! ## Coroutines -/

/-- How a coroutine is resumed: `iter.next(v)` or `iter.throw(e)`. -/
inductive Resume where
  | next (v : Value)
  | throw (e : Value)

/-- What the body of a coroutine calls, synchronously, while it runs. An exception of
one of these calls is not caught by the body: it ends the resumption. -/
inductive Act where
  /-- `next(...args)` -/
  | next (args : Args)
  /-- `next.push()` -/
  | push
  /-- `next.all()` -/
  | all
  /-- `next.any()` -/
  | any
  /-- `next.clear()` -/
  | clear
  /-- `f(...args)` for a function value it holds -/
  | call (f : Value) (args : Args)

/-- How a resumed coroutine body stops. -/
inductive Outcome (σ : Type) where
  | yield (v : Value) (s : σ)
  | ret (v : Value)
  | raise (e : Value)

/-- A generator object: suspended in state `s`, or completed. -/
inductive Iter (σ : Type) where
  | live (s : σ)
  | finished

/-- What `iter.next` / `iter.throw` give back to `step`. -/
inductive Result where
  /-- the object `{ value, done }` -/
  | ok (value : Value) (done : Bool)
  /-- an exception -/
  | thrown (e : Value)

/-- Factory options (lines 19-33). -/
structure Opts where
  /-- a `Promise` constructor is available (line 25) -/
  hasPromise : Bool
  /-- line 31 -/
  prependNextArg : Bool
  /-- line 33: the custom hook, as the synchronous invocations of the callback it is
  given and the value it returns -/
  yieldable : Option (Value → List Args × Bool)

/-- The user code a world runs against. -/
structure Env (σ : Type) where
  opts : Opts
  /-- one resumption of a coroutine body -/
  resume : σ → Resume → List Act × Outcome σ
  /-- `genFn.apply(self, args)` for the generator function `id` -/
  start : Nat → Args → σ
  /-- the generator object `id` -/
  inst : Nat → Iter σ
  /-- the settlements that the thenable `id` reports before `then` returns:
  `(true, v)` fulfils with `v`, `(false, r)` rejects with `r` -/
  thenSync : Nat → List (Bool × Value)
  /-- the invocations of its first argument that the user function `id` makes
  before it returns -/
  fnSync : Nat → List Args

/-- The semantics of generator objects: a completed generator answers `next` with
`{ value: undefined, done: true }` and rethrows what `throw` is given. -/
def Iter.resume {σ : Type} (env : Env σ) : Iter σ → Resume → List Act × Result × Iter σ
  | Iter.finished, Resume.next _ => ([], Result.ok Value.undefined true, Iter.finished)
  | Iter.finished, Resume.throw e => ([], Result.thrown e, Iter.finished)
  | Iter.live s, r =>
    match env.resume s r with
    | (acts, Outcome.yield v s') => (acts, Result.ok v false, Iter.live s')
    | (acts, Outcome.ret v) => (acts, Result.ok v true, Iter.finished)
    | (acts, Outcome.raise e) => (acts, Result.thrown e, Iter.finished)

/-! ## Computations and the world -/

/-- Modelled from the spec: the group object of the ordered-aggregation collaborator
(`parallels`, required on line 2 and absent from the source), following section 4.4:
slots in push order, each recording what it receives first. -/
structure Group where
  /-- what each slot received first, in push order -/
  slots : List (Option Args)
  /-- the first settlement of any slot -/
  first : Option Args
  /-- the first error that a slot received -/
  firstErr : Option Value
  /-- the continuation registered by `all` (`true`) or `any` (`false`) -/
  waiter : Option (Bool × Value)
  /-- the continuation has been invoked -/
  fired : Bool

/-- The variables of one `_raco` activation (lines 85-90 and 100). -/
structure Comp (σ : Type) where
  /-- `iter`; `none` is `null` -/
  iter : Option (Iter σ)
  done : Bool
  trycatch : Bool
  ticking : Bool
  /-- `parallel`: the identifier of the current group -/
  parallel : Option Nat
  callback : Value

/-- What can be observed of a run. -/
inductive Obs where
  /-- `step` of computation `c` resumed its coroutine -/
  | resumed (c : Nat) (r : Resume)
  /-- computation `c` invoked its outer callback -/
  | callback (c : Nat) (args : Args)
  /-- the user function `id` was invoked -/
  | invoked (id : Nat) (args : Args)
  /-- `val.then` was called on the thenable `id` for computation `c` -/
  | thenCalled (id c : Nat)
  /-- `val.subscribe` was called on the observable `id` for computation `c` -/
  | subscribed (id c : Nat)
  /-- `dispose.dispose()` -/
  | disposed (c : Nat)
  /-- the custom hook was consulted for computation `c` -/
  | hooked (c : Nat) (v : Value)
  /-- `resolve(val)` in promise mode -/
  | resolved (c : Nat) (v : Value)
  /-- `reject(err)` in promise mode -/
  | rejected (c : Nat) (e : Value)
  /-- a task queued with `process.nextTick` started to run -/
  | tick (c : Nat) (args : Args)
  /-- an exception left the outermost call -/
  | threw (e : Value)

/-- The state of the program. -/
structure World (σ : Type) where
  /-- the computations created so far -/
  comps : Nat → Option (Comp σ)
  /-- the number of computations created so far -/
  fresh : Nat
  /-- the `process.nextTick` queue: `(c, args)` is the task of lines 146-149 -/
  queue : List (Nat × Args)
  /-- the parallel groups created so far -/
  groups : Nat → Option Group
  /-- the number of groups created so far -/
  freshGroup : Nat
  /-- what has happened -/
  trace : List Obs
  /-- the exception that is unwinding the current call stack -/
  exc : Option Value

/-- The world before anything has run. -/
def World.empty {σ : Type} : World σ :=
  { comps := fun _ => none, fresh := 0, queue := [], groups := fun _ => none,
    freshGroup := 0, trace := [], exc := none }

/-- Record an observation. -/
def World.emit {σ : Type} (w : World σ) (o : Obs) : World σ :=
  { w with trace := w.trace ++ [o] }

/-- Assign the variables of computation `c`. -/
def World.setComp {σ : Type} (w : World σ) (c : Nat) (k : Comp σ) : World σ :=
  { w with comps := Function.update w.comps c (some k) }

/-- Assign the group `g`. -/
def World.setGroup {σ : Type} (w : World σ) (g : Nat) (grp : Group) : World σ :=
  { w with groups := Function.update w.groups g (some grp) }

/-- Start unwinding with the exception `e`. -/
def World.raise {σ : Type} (w : World σ) (e : Value) : World σ :=
  { w with exc := some e }

/-- The coroutine of computation `c`, if still referenced, is completed by the exception
that is leaving it; without a pending exception nothing changes. -/
def World.finishIter {σ : Type} (w : World σ) (c : Nat) : World σ :=
  match w.exc, w.comps c with
  | some _, some k =>
    if k.iter.isSome then w.setComp c { k with iter := some Iter.finished } else w
  | _, _ => w

/-- The exception of calling what is not a function. -/
def typeError : Value := Value.error "not a function"

/-- The identifier of a user object. -/
def Value.ident : Value → Nat
  | Value.obj _ id => id
  | _ => 0

/-- Modelled from the spec: what a group reports to the continuation registered with
`all` (`true`) or `any` (`false`), once it can (section 4.4): `all` fails with the
first error, or succeeds with every slot's value in push order once all have
settled; `any` reports the first settlement. -/
def Group.report (grp : Group) (isAll : Bool) : Option Args :=
  if isAll then
    match grp.firstErr with
    | some e => some [e]
    | none =>
      if grp.slots.all Option.isSome then
        some [Value.null, Value.arr (grp.slots.map fun s => arg (s.getD []) 1)]
      else none
  else grp.first

/-- Modelled from the spec: a slot of a group receives `args`; only the first
settlement of a slot is recorded. -/
def Group.settle (grp : Group) (k : Nat) (args : Args) : Group :=
  match grp.slots.getD k none with
  | some _ => grp
  | none =>
    { grp with
      slots := grp.slots.set k (some args)
      first := grp.first.orElse fun _ => some args
      firstErr := grp.firstErr.orElse fun _ =>
        if truthy (arg args 0) then some (arg args 0) else none }

/-! ## The resolver -/

mutual

/-- Invoking the function value `f` with `args`. The resolver's own closures run
their bodies; a user function is recorded and then makes its synchronous calls of
its first argument. -/
def call {σ : Type} (env : Env σ) : Nat → World σ → Value → Args → Option (World σ)
  | 0, _, _, _ => none
  | n + 1, w, f, args =>
    if w.exc.isSome then some w else
    match f with
    | Value.step c => step env n w c args
    | Value.next c => next env n w c args
    -- line 45: function (value) { cb(null, value) }
    | Value.handler Handler.fulfilled c => step env n w c [Value.null, arg args 0]
    -- line 47: function (err) { cb(err || new Error()) }
    | Value.handler Handler.rejected c => step env n w c [orError (arg args 0)]
    -- lines 61-63: cb(null, val); dispose.dispose()
    | Value.handler Handler.emitted c =>
      (step env n w c [Value.null, arg args 0]).map fun w1 =>
        if w1.exc.isSome then w1 else w1.emit (Obs.disposed c)
    -- lines 64-66: cb(err || new Error()); dispose.dispose()
    | Value.handler Handler.failed c =>
      (step env n w c [orError (arg args 0)]).map fun w1 =>
        if w1.exc.isSome then w1 else w1.emit (Obs.disposed c)
    -- lines 201-204: if (err) return reject(err); resolve(val)
    | Value.settle c =>
      some (w.emit (if truthy (arg args 0) then Obs.rejected c (arg args 0)
        else Obs.resolved c (arg args 1)))
    | Value.noop => some w
    | Value.slot g k => settleGroup env n w g fun grp => grp.settle k args
    -- lines 238-241
    | Value.wrap genFn => _raco env n w genFn args
    | Value.obj sh id =>
      if sh.fn then
        (env.fnSync id).foldlM (fun w1 a => call env n w1 (arg args 0) a)
          (w.emit (Obs.invoked id args))
      else some (w.raise typeError)
    | _ => some (w.raise typeError)
termination_by structural n => n

/-- Modelled from the spec: the group `g` changes by `upd` (a slot settles, or a
continuation is registered) and then reports to its continuation if it can and has
not done so yet (section 4.4). -/
def settleGroup {σ : Type} (env : Env σ) :
    Nat → World σ → Nat → (Group → Group) → Option (World σ)
  | 0, _, _, _ => none
  | n + 1, w, g, upd =>
    match w.groups g with
    | none => some w
    | some grp0 =>
      let grp := upd grp0
      match grp.waiter with
      | none => some (w.setGroup g grp)
      | some (isAll, k) =>
        if grp.fired then some (w.setGroup g grp) else
        match grp.report isAll with
        | none => some (w.setGroup g grp)
        | some a => call env n (w.setGroup g { grp with fired := true }) k a
termination_by structural n => n

/-- Lines 108-134: `step`, called with the argument list `args`. The calls that the
body makes while it runs do not re-enter the coroutine itself. -/
def step {σ : Type} (env : Env σ) : Nat → World σ → Nat → Args → Option (World σ)
  | 0, _, _, _ => none
  | n + 1, w, c, args =>
    if w.exc.isSome then some w else
    match w.comps c with
    | none => some w
    | some k =>
      match k.iter with
      | none =>
        -- lines 110-113
        if k.done then some w
        else call env n ((w.setComp c { k with done := true }).emit (Obs.callback c args))
          k.callback args
      | some it =>
        -- lines 119 and 126: state = err ? iter.throw(err) : iter.next(val)
        let r := if truthy (arg args 0) then Resume.throw (arg args 0)
          else Resume.next (arg args 1)
        match it.resume env r with
        | (acts, res, it1) =>
          let w1 := (w.setComp c { k with iter := some it1 }).emit (Obs.resumed c r)
          match acts.foldlM (fun w2 a => act env n w2 c a) w1 with
          | none => none
          | some w2 =>
            -- an exception of a call made by the body leaves the coroutine, which is
            -- thereby completed
            match (match w2.exc with
              | some e => Result.thrown e
              | none => res) with
            | Result.thrown e =>
              match (w2.finishIter c).comps c with
              | none => some (w2.finishIter c)
              | some k2 =>
                if k2.trycatch then
                  -- lines 120-124: done = true; return callback.call(self, err)
                  call env n
                    (({ w2.finishIter c with exc := none }.setComp c
                      { k2 with done := true }).emit (Obs.callback c [e]))
                    k2.callback [e]
                else some ((w2.finishIter c).raise e)
            | Result.ok value dn =>
              -- line 128: if (state && state.done) iter = null
              let w3 := if dn then
                  match w2.comps c with
                  | none => w2
                  | some k2 => w2.setComp c { k2 with iter := none }
                else w2
              -- line 130
              match _yieldable env n w3 c value with
              | none => none
              | some (w4, isYieldable) =>
                -- line 132: if (!isYieldable && !iter) next(null, state.value)
                match w4.comps c with
                | none => some w4
                | some k4 =>
                  if !isYieldable && k4.iter.isNone then
                    next env n w4 c [Value.null, value]
                  else some w4
termination_by structural n => n

/-- Lines 142-158: `next`, called with the argument list `args`. -/
def next {σ : Type} (env : Env σ) : Nat → World σ → Nat → Args → Option (World σ)
  | 0, _, _, _ => none
  | n + 1, w, c, args =>
    if w.exc.isSome then some w else
    match w.comps c with
    | none => some w
    | some k =>
      if !k.ticking then
        -- lines 145-149
        some { w.setComp c { k with ticking := true } with queue := w.queue ++ [(c, args)] }
      else if k.iter.isSome then
        -- lines 152-153
        step env n (w.setComp c { k with iter := none }) c [multipleCallbacks]
      else
        -- line 156
        some (w.setComp c { k with iter := none })
termination_by structural n => n

/-- One call that the coroutine body of computation `c` makes: `next` itself or
one of lines 163-193. -/
def act {σ : Type} (env : Env σ) : Nat → World σ → Nat → Act → Option (World σ)
  | 0, _, _, _ => none
  | n + 1, w, c, a =>
    if w.exc.isSome then some w else
    match w.comps c with
    | none => some w
    | some k =>
      match a with
      | Act.next args => next env n w c args
      -- line 164
      | Act.clear => some (w.setComp c { k with parallel := none })
      -- lines 173-174: parallel = parallel || parallels(); return parallel.push()
      | Act.push =>
        match k.parallel with
        | none =>
          some { (w.setComp c { k with parallel := some w.freshGroup }).setGroup w.freshGroup
                  { slots := [none], first := none, firstErr := none, waiter := none,
                    fired := false } with
                 freshGroup := w.freshGroup + 1 }
        | some g =>
          match w.groups g with
          | none => some w
          | some grp => some (w.setGroup g { grp with slots := grp.slots ++ [none] })
      -- lines 181-183
      | Act.all =>
        match k.parallel with
        | none => next env n w c [Value.null, Value.arr []]
        | some g =>
          (settleGroup env n w g fun grp => { grp with waiter := some (true, Value.next c) }).map
            fun w1 =>
              if w1.exc.isSome then w1 else
              match w1.comps c with
              | none => w1
              | some k1 => w1.setComp c { k1 with parallel := none }
      -- lines 190-192
      | Act.any =>
        match k.parallel with
        | none => next env n w c [Value.null, Value.null]
        | some g =>
          (settleGroup env n w g fun grp => { grp with waiter := some (false, Value.next c) }).map
            fun w1 =>
              if w1.exc.isSome then w1 else
              match w1.comps c with
              | none => w1
              | some k1 => w1.setComp c { k1 with parallel := none }
      | Act.call f args => call env n w f args
termination_by structural n => n

/-- Lines 42-75: `_yieldable(val, step)` within computation `c`; the result is the
new world and the acknowledgement that the function returns. A thenable may report
inside `then`; an observable reports after `subscribe` has returned, when `dispose`
is assigned. -/
def _yieldable {σ : Type} (env : Env σ) :
    Nat → World σ → Nat → Value → Option (World σ × Bool)
  | 0, _, _, _ => none
  | n + 1, w, c, val =>
    if w.exc.isSome then some (w, false) else
    if isPromise val then
      -- lines 45-50
      ((env.thenSync val.ident).foldlM
        (fun w1 s => call env n w1
          (Value.handler (if s.1 then Handler.fulfilled else Handler.rejected) c) [s.2])
        (w.emit (Obs.thenCalled val.ident c))).map fun w1 => (w1, true)
    else if isGeneratorFunction val || isGenerator val then
      -- lines 53-54
      (raco env n w val [Value.step c]).map fun w1 => (w1, true)
    else if isFunction val then
      -- lines 57-58
      (call env n w val [Value.step c]).map fun w1 => (w1, true)
    else if isObservable val then
      -- lines 61-68
      some (w.emit (Obs.subscribed val.ident c), true)
    else
      match env.opts.yieldable with
      -- line 70
      | some hook =>
        ((hook val).1.foldlM (fun w1 a => call env n w1 (Value.step c) a)
          (w.emit (Obs.hooked c val))).map fun w1 => (w1, (hook val).2)
      -- line 73
      | none => some (w, false)
termination_by structural n => n

/-- Lines 84-214: `_raco(genFn, args)`. The coroutine that `genFn` denotes is looked
up under its identifier; a `genFn` that is neither a generator object nor a function
raises on line 100. -/
def _raco {σ : Type} (env : Env σ) : Nat → World σ → Value → Args → Option (World σ)
  | 0, _, _, _ => none
  | n + 1, w, genFn, args0 =>
    if w.exc.isSome then some w else
    let c := w.fresh
    -- line 93: if (isFunction(args[args.length - 1])) callback = args.pop()
    let hasCallback := isFunction (args0.getLast?.getD Value.undefined)
    let callback := if hasCallback then args0.getLast?.getD Value.undefined else Value.null
    let args1 := if hasCallback then args0.dropLast else args0
    -- lines 94-98
    let args := if env.opts.prependNextArg then Value.next c :: args1
      else args1 ++ [Value.next c]
    -- line 100: var iter = isGenerator(genFn) ? genFn : genFn.apply(self, args)
    if !isGenerator genFn && !isFunction genFn then some (w.raise typeError) else
    let it := if isGenerator genFn then env.inst genFn.ident
      else Iter.live (env.start genFn.ident args)
    let k : Comp σ :=
      { iter := some it, done := false, trycatch := true, ticking := false,
        parallel := none, callback := callback }
    let w1 := { w with fresh := c + 1 }
    if hasCallback then
      -- line 197
      step env n (w1.setComp c k) c []
    else if env.opts.hasPromise then
      -- lines 200-206: an exception inside the executor rejects the promise
      (step env n (w1.setComp c { k with callback := Value.settle c }) c []).map fun w2 =>
        match w2.exc with
        | some e => { w2 with exc := none }.emit (Obs.rejected c e)
        | none => w2
    else
      -- lines 210-212
      step env n (w1.setComp c { k with trycatch := false, callback := Value.noop }) c []
termination_by structural n => n

/-- Lines 224-228: `raco(genFn, ...args)`; with anything but a coroutine it builds
a new factory and runs nothing. -/
def raco {σ : Type} (env : Env σ) : Nat → World σ → Value → Args → Option (World σ)
  | 0, _, _, _ => none
  | n + 1, w, genFn, args =>
    if w.exc.isSome then some w else
    if !isGeneratorFunction genFn && !isGenerator genFn then some w
    else _raco env n w genFn args

termination_by structural n => n
end

/-! ## Runs -/

/-- What the outside world does: it calls the resolver, it calls a function value
that it was handed (a resolver reporting to its continuation, a slot being
settled), or the runtime runs the oldest queued task. -/
inductive Event where
  | raco (genFn : Value) (args : Args)
  | call (f : Value) (args : Args)
  | tick

/-- An exception that unwinds the whole call stack is observed and gone. -/
def surface {σ : Type} (w : World σ) : World σ :=
  match w.exc with
  | some e => { w with exc := none }.emit (Obs.threw e)
  | none => w

/-- Lines 146-149: the oldest queued task runs. -/
def tick {σ : Type} (env : Env σ) (n : Nat) (w : World σ) : Option (World σ) :=
  match w.queue with
  | [] => some w
  | (c, args) :: rest =>
    match w.comps c with
    | none => some { w with queue := rest }
    | some k =>
      step env n
        (({ w with queue := rest }.setComp c { k with ticking := false }).emit (Obs.tick c args))
        c args

/-- One event, with fuel `n` for its synchronous call chain. -/
def handle {σ : Type} (env : Env σ) (n : Nat) (w : World σ) : Event → Option (World σ)
  | Event.raco genFn args => (raco env n w genFn args).map surface
  | Event.call f args => (call env n w f args).map surface
  | Event.tick => (tick env n w).map surface

/-- A sequence of events. -/
def run {σ : Type} (env : Env σ) (n : Nat) (w : World σ) (evs : List Event) :
    Option (World σ) :=
  evs.foldlM (handle env n) w

/-- The resumptions of the coroutine of computation `c`, in order. -/
def resumes (c : Nat) (tr : List Obs) : List Resume :=
  tr.filterMap fun o =>
    match o with
    | Obs.resumed c1 r => if c1 = c then some r else none
    | _ => none

/-- The argument lists with which computation `c` invoked its outer callback. -/
def callbacks (c : Nat) (tr : List Obs) : List Args :=
  tr.filterMap fun o =>
    match o with
    | Obs.callback c1 args => if c1 = c then some args else none
    | _ => none

variable {σ : Type}

/-! ## Relations between worlds -/

/-- The trace of `w1` extends the trace of `w`. -/
def Grows (w w1 : World σ) : Prop := w.trace <+: w1.trace

/-- The statement that every operation run with fuel `n` only adds to the trace. -/
def GrowsAt (env : Env σ) (n : Nat) : Prop :=
  (∀ w f args w1, call env n w f args = some w1 → Grows w w1) ∧
  (∀ w g upd w1, settleGroup env n w g upd = some w1 → Grows w w1) ∧
  (∀ w c args w1, step env n w c args = some w1 → Grows w w1) ∧
  (∀ w c args w1, next env n w c args = some w1 → Grows w w1) ∧
  (∀ w c a w1, act env n w c a = some w1 → Grows w w1) ∧
  (∀ w c v r, _yieldable env n w c v = some r → Grows w r.1) ∧
  (∀ w g args w1, _raco env n w g args = some w1 → Grows w w1) ∧
  (∀ w g args w1, raco env n w g args = some w1 → Grows w w1)

/-- Computation `c` has cleared its coroutine and has fired its outer callback. -/
def Dead (c : Nat) (w : World σ) : Prop :=
  c < w.fresh ∧ ∃ k, w.comps c = some k ∧ k.iter = none ∧ k.done = true

/-- From `w` to `w1` computation `c` stays terminated, its coroutine is not resumed and
its outer callback is not invoked. -/
def Same (c : Nat) (w w1 : World σ) : Prop :=
  Dead c w1 ∧ resumes c w1.trace = resumes c w.trace ∧
    callbacks c w1.trace = callbacks c w.trace

/-- The statement that no operation run with fuel `n` revives a terminated computation. -/
def DeadAt (env : Env σ) (c : Nat) (n : Nat) : Prop :=
  (∀ w f args w1, call env n w f args = some w1 → Dead c w → Same c w w1) ∧
  (∀ w g upd w1, settleGroup env n w g upd = some w1 → Dead c w → Same c w w1) ∧
  (∀ w c1 args w1, step env n w c1 args = some w1 → Dead c w → Same c w w1) ∧
  (∀ w c1 args w1, next env n w c1 args = some w1 → Dead c w → Same c w w1) ∧
  (∀ w c1 a w1, act env n w c1 a = some w1 → Dead c w → Same c w w1) ∧
  (∀ w c1 v r, _yieldable env n w c1 v = some r → Dead c w → Same c w r.1) ∧
  (∀ w g args w1, _raco env n w g args = some w1 → Dead c w → Same c w w1) ∧
  (∀ w g args w1, raco env n w g args = some w1 → Dead c w → Same c w w1)

/-- Lines 119 and 126: how `step(err, val)` resumes the coroutine. -/
def resumeOf (args : Args) : Resume :=
  if truthy (arg args 0) then Resume.throw (arg args 0) else Resume.next (arg args 1)

/-! ## Shapes of user values -/

/-- A plain object: none of the probed capabilities. -/
def plainShape : Shape :=
  { fn := false, thenFn := false, genFn := false, nextFn := false, throwFn := false,
    subscribeFn := false }

/-- A plain function. -/
def fnShape : Shape := { plainShape with fn := true }

/-- A generator function. -/
def genFnShape : Shape := { plainShape with fn := true, genFn := true }

/-- A promise. -/
def promiseShape : Shape := { plainShape with thenFn := true }

/-- A generator object. -/
def generatorShape : Shape := { plainShape with nextFn := true, throwFn := true }

/-- An observable. -/
def observableShape : Shape := { plainShape with subscribeFn := true }

/-- Default options: a `Promise` constructor, `next` appended, no custom hook. -/
def defaultOpts : Opts := { hasPromise := true, prependNextArg := false, yieldable := none }

/-! ## Concrete programs -/

/-- The outer callback used in the examples: a user function that calls nothing back. -/
def cb : Value := Value.obj fnShape 9

/-- The error used in the examples. -/
def boom : Value := Value.error "boom"

/-- The coroutine `function* () { yield thunk7; return 1 }` (generator function 1), with a
thunk 7 that reports later; the thenable 6 rejects with `undefined` inside `then`. -/
def envA : Env Nat :=
  { opts := defaultOpts
    resume := fun s r =>
      match s, r with
      | 0, _ => ([], Outcome.yield (Value.obj fnShape 7) 1)
      | _, Resume.next _ => ([], Outcome.ret (Value.num 1))
      | _, Resume.throw e => ([], Outcome.raise e)
    start := fun _ _ => 0
    inst := fun _ => Iter.finished
    thenSync := fun id => if id = 6 then [(false, Value.undefined)] else []
    fnSync := fun _ => [] }

/-- The variables of the computation of `envA` while it waits for thunk 7. -/
def compA : Comp Nat :=
  { iter := some (Iter.live 1), done := false, trycatch := true, ticking := false,
    parallel := none, callback := cb }

/-- The world of `envA` after `raco(gen, cb)`: the coroutine waits for thunk 7. -/
def worldA : World Nat :=
  { comps := fun i => if i = 0 then some compA else none
    fresh := 1
    queue := []
    groups := fun _ => none
    freshGroup := 0
    trace := [Obs.resumed 0 (Resume.next Value.undefined), Obs.invoked 7 [Value.step 0]]
    exc := none }

/-! ## The classification of the specification -/

/-- The classes of yieldable values of the specification (section 3), in its order. -/
inductive Strategy where
  | deferred
  | nested
  | thunk
  | stream
  | custom
  | notYieldable

/-- The detection predicates of the built-in classes, in the order of the specification:
a function `then`; a generator function or an object with functions `next` and
`throw`; any function; a function `subscribe`. -/
def detectors : List (Strategy × (Value → Bool)) :=
  [ (Strategy.deferred, isPromise),
    (Strategy.nested, fun v => isGeneratorFunction v || isGenerator v),
    (Strategy.thunk, isFunction),
    (Strategy.stream, isObservable) ]

/-- The classification of the specification: the first built-in class that matches wins;
the custom class applies when none matches and a hook is configured. -/
def classify (hook : Bool) (v : Value) : Strategy :=
  match detectors.find? (fun d => d.2 v) with
  | some d => d.1
  | none => if hook then Strategy.custom else Strategy.notYieldable

/-- The resolution of the specification (section 4.1) for each class, within computation
`c` and with `step` as continuation, and what is acknowledged. -/
def resolveBy (env : Env σ) (n : Nat) (w : World σ) (c : Nat) (val : Value) :
    Strategy → Option (World σ × Bool)
  | Strategy.deferred =>
    ((env.thenSync val.ident).foldlM
      (fun w1 s => call env n w1
        (Value.handler (if s.1 then Handler.fulfilled else Handler.rejected) c) [s.2])
      (w.emit (Obs.thenCalled val.ident c))).map fun w1 => (w1, true)
  | Strategy.nested => (raco env n w val [Value.step c]).map fun w1 => (w1, true)
  | Strategy.thunk => (call env n w val [Value.step c]).map fun w1 => (w1, true)
  | Strategy.stream => some (w.emit (Obs.subscribed val.ident c), true)
  | Strategy.custom =>
    match env.opts.yieldable with
    | some hook =>
      ((hook val).1.foldlM (fun w1 a => call env n w1 (Value.step c) a)
        (w.emit (Obs.hooked c val))).map fun w1 => (w1, (hook val).2)
    | none => some (w, false)
  | Strategy.notYieldable => some (w, false)

/-- What `_yieldable` returns for each class. -/
def acknowledged (env : Env σ) (val : Value) : Strategy → Bool
  | Strategy.custom =>
    match env.opts.yieldable with
    | some hook => (hook val).2
    | none => false
  | Strategy.notYieldable => false
  | _ => true

/-- The coroutine `function* () { yield thunk7 }` with
`thunk7 = function (cb) { cb(new Error('a')); cb(new Error('b')) }`. -/
def envB : Env Nat :=
  { opts := defaultOpts
    resume := fun s r =>
      match s, r with
      | 0, _ => ([], Outcome.yield (Value.obj fnShape 7) 1)
      | _, Resume.next _ => ([], Outcome.ret Value.undefined)
      | _, Resume.throw e => ([], Outcome.raise e)
    start := fun _ _ => 0
    inst := fun _ => Iter.finished
    thenSync := fun _ => []
    fnSync := fun id => if id = 7 then [[Value.error "a"], [Value.error "b"]] else [] }

/-- The coroutine `function* () { var a = yield thunk7; var b = yield thunk8; return [a, b] }`
with `thunk7 = function (cb) { cb(null, 1); cb(null, 2) }` and a thunk 8 that never
reports. The state is the program counter and the value of `a`. -/
def envC : Env (Nat × Value) :=
  { opts := defaultOpts
    resume := fun s r =>
      match s, r with
      | (0, _), _ => ([], Outcome.yield (Value.obj fnShape 7) (1, Value.undefined))
      | (1, _), Resume.next v => ([], Outcome.yield (Value.obj fnShape 8) (2, v))
      | (_, a), Resume.next v => ([], Outcome.ret (Value.arr [a, v]))
      | _, Resume.throw e => ([], Outcome.raise e)
    start := fun _ _ => (0, Value.undefined)
    inst := fun _ => Iter.finished
    thenSync := fun _ => []
    fnSync := fun id =>
      if id = 7 then [[Value.null, Value.num 1], [Value.null, Value.num 2]] else [] }

/-- The coroutine `function* () { var value = yield thunk7; return value + 1 }` with
`thunk7 = function (cb) { cb(null, 42) }`. -/
def envD : Env Nat :=
  { opts := defaultOpts
    resume := fun s r =>
      match s, r with
      | 0, _ => ([], Outcome.yield (Value.obj fnShape 7) 1)
      | _, Resume.next (Value.num n) => ([], Outcome.ret (Value.num (n + 1)))
      | _, Resume.next v => ([], Outcome.ret v)
      | _, Resume.throw e => ([], Outcome.raise e)
    start := fun _ _ => 0
    inst := fun _ => Iter.finished
    thenSync := fun _ => []
    fnSync := fun id => if id = 7 then [[Value.null, Value.num 42]] else [] }

/-- The generator function of the examples. -/
def gen : Value := Value.obj genFnShape 1

/-- Whether every resumption of a coroutine but its first directly follows the start of a
queued task of its computation; `seen` lists the computations resumed so far and
`prev` is the observation before. -/
def tickDrivenFrom : List Nat → Option Obs → List Obs → Bool
  | _, _, [] => true
  | seen, prev, Obs.resumed c r :: tr =>
    (!seen.contains c ||
      (match prev with
       | some (Obs.tick c1 _) => c1 == c
       | _ => false)) &&
    tickDrivenFrom (c :: seen) (some (Obs.resumed c r)) tr
  | seen, _, o :: tr => tickDrivenFrom seen (some o) tr

/-- Every resumption that follows a yield point is run from a queued task. -/
def tickDriven (tr : List Obs) : Bool := tickDrivenFrom [] none tr

/-- The value is rejected by `_yieldable`: no built-in class matches and the custom hook,
if there is one, declines it without invoking its callback. -/
def notYieldable (env : Env σ) (v : Value) : Bool :=
  !isPromise v && !isGeneratorFunction v && !isGenerator v && !isFunction v &&
    !isObservable v &&
    (match env.opts.yieldable with
     | none => true
     | some hook => (hook v).1.isEmpty && !(hook v).2)

/-- What `_yieldable` records in computation `c` about a value that it rejects. -/
def hookObs (env : Env σ) (c : Nat) (v : Value) : List Obs :=
  match env.opts.yieldable with
  | none => []
  | some _ => [Obs.hooked c v]

/-- The outer coroutine `function* () { try { return ['resumed', yield inner] } catch (e)
{ return ['caught', e] } }` (generator function 1, states 0 and 1) and the nested
coroutine `inner = function* () { throw 0 }` (generator function 2, state 10). -/
def envF : Env Nat :=
  { opts := defaultOpts
    resume := fun s r =>
      match s, r with
      | 0, _ => ([], Outcome.yield (Value.obj genFnShape 2) 1)
      | 1, Resume.next v => ([], Outcome.ret (Value.arr [Value.str "resumed", v]))
      | 1, Resume.throw e => ([], Outcome.ret (Value.arr [Value.str "caught", e]))
      | _, _ => ([], Outcome.raise (Value.num 0))
    start := fun id _ => if id = 2 then 10 else 0
    inst := fun _ => Iter.finished
    thenSync := fun _ => []
    fnSync := fun _ => [] }

/-! ## Coroutines that yield a sequence of yieldables and return -/

/-- The yieldable `y`, resolved for computation `c`, makes exactly one report, `(null, v)`:
inside the call that resolves it (no event) or through a later event. It is a thunk
that calls its argument, a thenable that fulfils inside `then`, a value that the custom
hook accepts and reports, or a thunk, a promise, an observable or a value accepted by
the custom hook that reports later. -/
inductive Once (env : Env σ) (c : Nat) (y v : Value) : Option Event → Prop where
  | thunkNow (sh : Shape) (id : Nat) :
    y = Value.obj sh id → sh.thenFn = false → sh.genFn = false →
    (sh.nextFn && sh.throwFn) = false → sh.fn = true →
    env.fnSync id = [[Value.null, v]] → Once env c y v none
  | thenableNow (sh : Shape) (id : Nat) :
    y = Value.obj sh id → sh.thenFn = true → env.thenSync id = [(true, v)] →
    Once env c y v none
  | thunkLater (sh : Shape) (id : Nat) :
    y = Value.obj sh id → sh.thenFn = false → sh.genFn = false →
    (sh.nextFn && sh.throwFn) = false → sh.fn = true → env.fnSync id = [] →
    Once env c y v (some (Event.call (Value.step c) [Value.null, v]))
  | promiseLater (sh : Shape) (id : Nat) :
    y = Value.obj sh id → sh.thenFn = true → env.thenSync id = [] →
    Once env c y v (some (Event.call (Value.handler Handler.fulfilled c) [v]))
  | observableLater (sh : Shape) (id : Nat) :
    y = Value.obj sh id → sh.thenFn = false → (sh.nextFn && sh.throwFn) = false →
    sh.fn = false → sh.subscribeFn = true →
    Once env c y v (some (Event.call (Value.handler Handler.emitted c) [v]))
  | hookNow (hook : Value → List Args × Bool) :
    isPromise y = false → isGeneratorFunction y = false → isGenerator y = false →
    isFunction y = false → isObservable y = false → env.opts.yieldable = some hook →
    hook y = ([[Value.null, v]], true) → Once env c y v none
  | hookLater (hook : Value → List Args × Bool) :
    isPromise y = false → isGeneratorFunction y = false → isGenerator y = false →
    isFunction y = false → isObservable y = false → env.opts.yieldable = some hook →
    hook y = ([], true) →
    Once env c y v (some (Event.call (Value.step c) [Value.null, v]))

/-- Resumed with `r` in state `s`, the coroutine yields the yieldables of `path` in
sequence, each of which reports once, `(null, v)`, and is resumed with `v`; then it
returns `ret`, which is not yieldable. The coroutine calls nothing else. -/
def Follows (env : Env σ) (c : Nat) :
    σ → Resume → List (Value × Value × Option Event) → Value → Prop
  | s, r, [], ret => env.resume s r = ([], Outcome.ret ret) ∧ notYieldable env ret = true
  | s, r, (y, v, ev) :: rest, ret =>
    ∃ s1, env.resume s r = ([], Outcome.yield y s1) ∧ Once env c y v ev ∧
      Follows env c s1 (Resume.next v) rest ret

/-- The events by which the yieldables of a path report later. -/
def later (path : List (Value × Value × Option Event)) : List Event :=
  path.filterMap fun p => p.2.2

/-- The values with which the yieldables of a path resolve. -/
def resolved (path : List (Value × Value × Option Event)) : List Value :=
  path.map fun p => p.2.1

/-- Where a run along a path ends: the coroutine of `c` is cleared, the task that will
deliver `(null, ret)` is queued, the coroutine has been resumed with `r` and then with
the resolved values, and the outer callback has not been invoked. -/
def Delivered (c : Nat) (k : Comp σ) (w : World σ) (r : Resume) (vs : List Value)
    (ret : Value) (w1 : World σ) : Prop :=
  w1.exc = none ∧ w1.comps c = some { k with iter := none, ticking := true } ∧
    w1.queue = w.queue ++ [(c, [Value.null, ret])] ∧
    resumes c w1.trace = resumes c w.trace ++ r :: vs.map Resume.next ∧
    callbacks c w1.trace = callbacks c w.trace

/-! ## Concrete worlds -/

/-- The variables of the computation of `envC` when its coroutine has yielded thunk 7. -/
def compC : Comp (Nat × Value) :=
  { iter := some (Iter.live (1, Value.undefined)), done := false, trycatch := true,
    ticking := false, parallel := none, callback := cb }

/-- The world of `envC` when `step` hands thunk 7 to `_yieldable`. -/
def worldC : World (Nat × Value) :=
  { comps := fun i => if i = 0 then some compC else none
    fresh := 1
    queue := []
    groups := fun _ => none
    freshGroup := 0
    trace := [Obs.resumed 0 (Resume.next Value.undefined)]
    exc := none }

/-- The coroutine `function* (next) { next(null, 1); next(null, 2); yield }`. -/
def envE : Env Nat :=
  { opts := defaultOpts
    resume := fun s r =>
      match s, r with
      | 0, _ => ([Act.next [Value.null, Value.num 1], Act.next [Value.null, Value.num 2]],
          Outcome.yield Value.undefined 1)
      | _, Resume.next v => ([], Outcome.ret v)
      | _, Resume.throw e => ([], Outcome.raise e)
    start := fun _ _ => 0
    inst := fun _ => Iter.finished
    thenSync := fun _ => []
    fnSync := fun _ => [] }

/-- The variables of the computation of `envE` after the first call of `next`. -/
def compE : Comp Nat :=
  { iter := some (Iter.live 1), done := false, trycatch := true, ticking := true,
    parallel := none, callback := cb }

/-- The world of `envE` between the two calls of `next`. -/
def worldE : World Nat :=
  { comps := fun i => if i = 0 then some compE else none
    fresh := 1
    queue := [(0, [Value.null, Value.num 1])]
    groups := fun _ => none
    freshGroup := 0
    trace := [Obs.resumed 0 (Resume.next Value.undefined)]
    exc := none }

/-- The outer coroutine `function* () { return yield inner }` (generator function 1, states
0 and 1) with two nested coroutines: `function* () { return 5 }` (generator function 2,
state 10) and `function* () { throw new Error('boom') }` (generator function 3,
state 20). -/
def envG : Env Nat :=
  { opts := defaultOpts
    resume := fun s r =>
      match s, r with
      | 0, _ => ([], Outcome.yield (Value.obj genFnShape 2) 1)
      | 1, Resume.next v => ([], Outcome.ret v)
      | 1, Resume.throw e => ([], Outcome.raise e)
      | 10, _ => ([], Outcome.ret (Value.num 5))
      | _, _ => ([], Outcome.raise boom)
    start := fun id _ => if id = 2 then 10 else if id = 3 then 20 else 0
    inst := fun _ => Iter.finished
    thenSync := fun _ => []
    fnSync := fun _ => [] }

/-- The variables of the outer computation of `envG` while the nested one runs. -/
def compG : Comp Nat :=
  { iter := some (Iter.live 1), done := false, trycatch := true, ticking := false,
    parallel := none, callback := cb }

/-- The variables of a nested computation of `envG` whose coroutine is in state `s`. -/
def compG1 (s : Nat) : Comp Nat :=
  { iter := some (Iter.live s), done := false, trycatch := true, ticking := false,
    parallel := none, callback := Value.step 0 }

/-- The world of `envG` when the nested computation, in state `s`, is about to be
stepped for the first time. -/
def worldG (s : Nat) : World Nat :=
  { comps := fun i => if i = 0 then some compG else if i = 1 then some (compG1 s) else none
    fresh := 2
    queue := []
    groups := fun _ => none
    freshGroup := 0
    trace := [Obs.resumed 0 (Resume.next Value.undefined)]
    exc := none }

/-- The coroutines `function* (next) { return yield next.all() }` (generator function 1,
state 0) and `function* (next) { return yield next.any() }` (generator function 2,
state 5). -/
def envH : Env Nat :=
  { opts := defaultOpts
    resume := fun s r =>
      match s, r with
      | 0, _ => ([Act.all], Outcome.yield Value.undefined 1)
      | 5, _ => ([Act.any], Outcome.yield Value.undefined 1)
      | _, Resume.next v => ([], Outcome.ret v)
      | _, Resume.throw e => ([], Outcome.raise e)
    start := fun id _ => if id = 2 then 5 else 0
    inst := fun _ => Iter.finished
    thenSync := fun _ => []
    fnSync := fun _ => [] }

/-- The variables of a computation of `envH` before its first step, in state `s`. -/
def compH (s : Nat) : Comp Nat :=
  { iter := some (Iter.live s), done := false, trycatch := true, ticking := false,
    parallel := none, callback := cb }

/-- The world of `envH` before the first step of its computation. -/
def worldH (s : Nat) : World Nat :=
  { comps := fun i => if i = 0 then some (compH s) else none
    fresh := 1
    queue := []
    groups := fun _ => none
    freshGroup := 0
    trace := []
    exc := none }

/-- A thenable that is also callable. -/
def callableThenable : Value := Value.obj { plainShape with fn := true, thenFn := true } 5

/-- The world of `envC` after the first report of thunk 7. -/
def worldC1 : World (Nat × Value) :=
  (step envC 3 (worldC.emit (Obs.invoked 7 [Value.step 0])) 0
    [Value.null, Value.num 1]).getD World.empty

/-- The world of `envC` after the second report of thunk 7. -/
def worldC2 : World (Nat × Value) :=
  (step envC 3 worldC1 0 [Value.null, Value.num 2]).getD World.empty

/-- The world of `envE` after the second call of `next`. -/
def worldE1 : World Nat :=
  (next envE 3 worldE 0 [Value.null, Value.num 2]).getD World.empty

/-- The world of `envE` after the second call of `next` and the pending tick. -/
def worldE2 : World Nat := (run envE 5 worldE1 [Event.tick]).getD World.empty

/-- The world of `envA` with the task of a call `next('x')` queued. -/
def worldA1 : World Nat :=
  { worldA with
    comps := fun i => if i = 0 then some { compA with ticking := true } else none
    queue := [(0, [Value.null, Value.str "x"])] }

/-- The world of `envG` when `step` hands the nested generator function to `_yieldable`. -/
def worldG0 : World Nat :=
  { comps := fun i => if i = 0 then some compG else none
    fresh := 1
    queue := []
    groups := fun _ => none
    freshGroup := 0
    trace := [Obs.resumed 0 (Resume.next Value.undefined)]
    exc := none }

/-- The coroutine `function* (next) { next(); next(); throw new Error('boom') }`. -/
def envB2 : Env Nat :=
  { opts := defaultOpts
    resume := fun s r =>
      match s, r with
      | 0, _ => ([Act.next [], Act.next []], Outcome.raise boom)
      | _, Resume.next v => ([], Outcome.ret v)
      | _, Resume.throw e => ([], Outcome.raise e)
    start := fun _ _ => 0
    inst := fun _ => Iter.finished
    thenSync := fun _ => []
    fnSync := fun _ => [] }

/-- Four coroutines: `function* () { return yield 7 }` (generator function 1, states 0
and 1); `function* (next) { next(null, 'cb'); return 'ret' }` (generator function 2,
state 10); `function* () { return thunk8 }` with
`thunk8 = function (cb) { cb(boom, 8) }` (generator function 3, state 20); and
`function* () { return promise6 }` with a promise 6 that settles later (generator
function 4, state 30). -/
def envK : Env Nat :=
  { opts := defaultOpts
    resume := fun s r =>
      match s, r with
      | 0, _ => ([], Outcome.yield (Value.num 7) 1)
      | 10, _ => ([Act.next [Value.null, Value.str "cb"]], Outcome.ret (Value.str "ret"))
      | 20, _ => ([], Outcome.ret (Value.obj fnShape 8))
      | 30, _ => ([], Outcome.ret (Value.obj promiseShape 6))
      | _, Resume.next v => ([], Outcome.ret v)
      | _, Resume.throw e => ([], Outcome.raise e)
    start := fun id _ => if id = 2 then 10 else if id = 3 then 20 else if id = 4 then 30 else 0
    inst := fun _ => Iter.finished
    thenSync := fun _ => []
    fnSync := fun id => if id = 8 then [[boom, Value.num 8]] else [] }

/-- The world of `envA` after thunk 7 has reported `(null, 5)`: the coroutine has returned
1, the task that delivers `(null, 1)` is queued and the outer callback has not fired. -/
def worldA2 : World Nat :=
  { worldA with
    comps := fun i => if i = 0 then some { compA with iter := none, ticking := true } else none
    queue := [(0, [Value.null, Value.num 1])]
    trace := worldA.trace ++ [Obs.resumed 0 (Resume.next (Value.num 5))] }

/-- The argument list handed to the coroutine function of computation `c`: the entry
arguments `as` with the continuation handle `next` of `c` added. -/
def withNext (env : Env σ) (c : Nat) (as : Args) : Args :=
  if env.opts.prependNextArg then Value.next c :: as else as ++ [Value.next c]

/-- The world in which the entry makes the first call of `step`: the computation
`w.fresh` is new, drives `it`, and has the given `trycatch` flag and outer callback. -/
def entered (w : World σ) (it : Iter σ) (trycatch : Bool) (callback : Value) : World σ :=
  { w with fresh := w.fresh + 1 }.setComp w.fresh
    { iter := some it, done := false, trycatch := trycatch, ticking := false,
      parallel := none, callback := callback }

/-- What the entry in promise mode does with an exception that leaves the first call of
`step`: it rejects the promise. -/
def rejectRaised (c : Nat) (w : World σ) : World σ :=
  match w.exc with
  | some e => { w with exc := none }.emit (Obs.rejected c e)
  | none => w

/-- The configuration without a promise constructor (`raco({ Promise: null })`). -/
def noPromiseOpts : Opts :=
  { hasPromise := false, prependNextArg := false, yieldable := none }

/-- Without a promise constructor: the coroutines `function* () { yield thunk7; return 1 }`
(generator function 1, states 0 and 1), with a thunk 7 that reports later, and
`function* () { throw new Error('boom') }` (generator function 2, state 20). -/
def envJ : Env Nat :=
  { opts := noPromiseOpts
    resume := fun s r =>
      match s, r with
      | 0, _ => ([], Outcome.yield (Value.obj fnShape 7) 1)
      | 1, Resume.next _ => ([], Outcome.ret (Value.num 1))
      | _, Resume.throw e => ([], Outcome.raise e)
      | _, _ => ([], Outcome.raise boom)
    start := fun id _ => if id = 2 then 20 else 0
    inst := fun _ => Iter.finished
    thenSync := fun _ => []
    fnSync := fun _ => [] }

/-! ## Wrapping the properties of an object -/

/-- An object as `wrapAll` sees it: its own enumerable properties in enumeration order, the
enumerable properties that it inherits, and whether its prototype chain ends in
`Object.prototype`, which provides the built-in `hasOwnProperty`. -/
structure Obj where
  own : List (String × Value)
  inherited : List (String × Value)
  builtin : Bool

/-- The property read `obj[key]`. -/
def Obj.get (o : Obj) (key : String) : Value :=
  ((o.own ++ o.inherited).lookup key).getD Value.undefined

/-- The assignment `obj[key] = v`: an own property is overwritten in place, otherwise a
new own property is added. -/
def Obj.set (o : Obj) (key : String) (v : Value) : Obj :=
  if o.own.any (fun p => p.1 == key) then
    { o with own := o.own.map fun p => if p.1 == key then (p.1, v) else p }
  else { o with own := o.own ++ [(key, v)] }

/-- The keys that `for (var key in obj)` visits: the own ones, then the inherited ones
that are not shadowed. -/
def Obj.keys (o : Obj) : List String :=
  o.own.map (fun p => p.1) ++
    (o.inherited.map fun p => p.1).filter fun key => !o.own.any fun p => p.1 == key

/-- The call `obj.hasOwnProperty(key)`, as the truth value of its result: the method is
looked up on the object like any property, so a property of that name is called
instead of the built-in method (`userCall` says what a user function answers), and
the call throws (`none`) when what is found is not a function or nothing is found. -/
def Obj.hasOwnProperty (userCall : Value → String → Option Bool) (o : Obj) (key : String) :
    Option Bool :=
  match (o.own ++ o.inherited).lookup "hasOwnProperty" with
  | some f => if isFunction f then userCall f key else none
  | none => if o.builtin then some (o.own.any fun p => p.1 == key) else none

/-- Lines 237-242: `raco.wrap(genFn)`, the function that runs `_raco` on `genFn` and its
own arguments. -/
def wrap (genFn : Value) : Value := Value.wrap genFn

/-- Lines 251-258: one iteration of the loop of `wrapAll`. -/
def wrapKey (userCall : Value → String → Option Bool) (o : Obj) (key : String) : Option Obj :=
  (o.hasOwnProperty userCall key).map fun isOwn =>
    if isOwn && (isGeneratorFunction (o.get key) || isGenerator (o.get key)) then
      o.set key (wrap (o.get key))
    else o

/-- Lines 250-260: `raco.wrapAll(obj)` on the object that `ref` refers to in `heap`; the
result is the heap afterwards and the reference returned, `none` when the call throws.
A value that is not an object has no enumerable keys and is returned as it is. -/
def wrapAll (userCall : Value → String → Option Bool) (heap : Nat → Option Obj) (ref : Nat) :
    Option ((Nat → Option Obj) × Nat) :=
  match heap ref with
  | none => some (heap, ref)
  | some o =>
    (o.keys.foldlM (wrapKey userCall) o).map fun o1 => (Function.update heap ref (some o1), ref)

/-- The replacement that `wrapAll` is meant to make on an own property. -/
def wrapped (p : String × Value) : String × Value :=
  if isGeneratorFunction p.2 || isGenerator p.2 then (p.1, wrap p.2) else p

/-- A mapping object without a prototype, `Object.create(null)` with a property `g` that
is the generator function 1. -/
def bareObj : Obj := { own := [("g", Value.obj genFnShape 1)], inherited := [], builtin := false }

/-- The object `{ hasOwnProperty: f, g: function* () {} }` with a user function `f`. -/
def shadowObj : Obj :=
  { own := [("hasOwnProperty", Value.obj fnShape 7), ("g", Value.obj genFnShape 1)]
    inherited := [], builtin := true }

/-- The object `{ a: 1, g: function* () {}, h: function () {} }` whose prototype has the
enumerable property `p`, a generator function. -/
def plainObj : Obj :=
  { own := [("a", Value.num 1), ("g", Value.obj genFnShape 1), ("h", Value.obj fnShape 7)]
    inherited := [("p", Value.obj genFnShape 2)], builtin := true }

/-- A group as `next.push` finds it after `j` slots have been pushed and none has settled. -/
def freshSlots (j : Nat) : Group :=
  { slots := List.replicate j none, first := none, firstErr := none, waiter := none,
    fired := false }

/-- The slots of a group for the values `vals`, in push order, when the slots listed in
`done` have settled with their values and the others have not settled. -/
def settledSlots (vals : List Value) (done : List Nat) : List (Option Args) :=
  (List.range vals.length).map fun i =>
    if i ∈ done then some [Value.null, vals.getD i Value.undefined] else none

/-- A group for `vals` in which the slots of `done` have settled with their values, no
error has been received, the registered continuation is `waiter` and it has not been
invoked. -/
def Settled (vals : List Value) (done : List Nat) (waiter : Option (Bool × Value))
    (grp : Group) : Prop :=
  grp.slots = settledSlots vals done ∧ grp.firstErr = none ∧ grp.waiter = waiter ∧
    grp.fired = false

/-- What a computation and the operations that it started do with a parallel group. -/
inductive GroupOp where
  /-- the coroutine calls `next.push()` -/
  | push
  /-- slot `i` is invoked with `(null, v_i)` -/
  | settle (i : Nat)
  /-- the coroutine calls `next.all()` -/
  | all

/-- One operation on the group `g` of computation `c`, the slots settling with `vals`. -/
def perform (env : Env σ) (n c g : Nat) (vals : List Value) (w : World σ) :
    GroupOp → Option (World σ)
  | GroupOp.push => act env n w c Act.push
  | GroupOp.settle i => call env n w (Value.slot g i) [Value.null, vals.getD i Value.undefined]
  | GroupOp.all => act env n w c Act.all

/-- The coroutine `function* (next) { a(next.push()); b(next.push()); c(next.push());
return yield next.all() }`, the operations `a`, `b` and `c` reporting later. -/
def envP : Env Nat :=
  { opts := defaultOpts
    resume := fun s r =>
      match s, r with
      | 0, _ => ([Act.push, Act.push, Act.push, Act.all], Outcome.yield Value.undefined 1)
      | _, Resume.next v => ([], Outcome.ret v)
      | _, Resume.throw e => ([], Outcome.raise e)
    start := fun _ _ => 0
    inst := fun _ => Iter.finished
    thenSync := fun _ => []
    fnSync := fun _ => [] }

/-! ## Exceptions that leave a coroutine -/

@[simp] theorem World.finishIter_trace (w : World σ) (c : Nat) :
    (w.finishIter c).trace = w.trace := by
  unfold World.finishIter
  split
  · split <;> rfl
  · rfl

@[simp] theorem World.finishIter_fresh (w : World σ) (c : Nat) :
    (w.finishIter c).fresh = w.fresh := by
  unfold World.finishIter
  split
  · split <;> rfl
  · rfl

theorem World.finishIter_of_none (w : World σ) (c : Nat) (h : w.exc = none) :
    w.finishIter c = w := by
  unfold World.finishIter
  split
  · simp_all
  · rfl

theorem World.finishIter_other (w : World σ) (c c1 : Nat) (h : c ≠ c1) :
    (w.finishIter c1).comps c = w.comps c := by
  unfold World.finishIter
  split
  · split
    · simp [World.setComp, Function.update_apply, h]
    · rfl
  · rfl

/-! ## Every operation only adds to the trace -/

theorem Grows.grefl (w : World σ) : Grows w w := List.prefix_refl _

theorem Grows.gtrans {w w1 w2 : World σ} (h1 : Grows w w1) (h2 : Grows w1 w2) : Grows w w2 :=
  List.IsPrefix.trans h1 h2

theorem Grows.gfold {α : Type} (f : World σ → α → Option (World σ))
    (hf : ∀ w a w1, f w a = some w1 → Grows w w1) :
    ∀ (l : List α) (w w1 : World σ), l.foldlM f w = some w1 → Grows w w1 := by
  intro l
  induction l with
  | nil => intro w w1 h; simp at h; subst h; exact Grows.grefl _
  | cons a l ih =>
    intro w w1 h
    simp only [List.foldlM_cons, Option.bind_eq_bind] at h
    cases hfa : f w a with
    | none => simp [hfa] at h
    | some w2 =>
      simp [hfa] at h
      exact (hf _ _ _ hfa).gtrans (ih _ _ h)

/-- Every operation of the resolver only adds to the trace, whatever the fuel. -/
theorem growsAt (env : Env σ) : ∀ n, GrowsAt env n := by
  intro n
  induction n with
  | zero =>
    refine ⟨?_, ?_, ?_, ?_, ?_, ?_, ?_, ?_⟩ <;> intros <;>
      simp_all [call, settleGroup, step, next, act, _yieldable, _raco, raco]
  | succ n ih =>
    obtain ⟨icall, igroup, istep, inext, iact, iyield, iraco', iraco⟩ := ih
    refine ⟨?_, ?_, ?_, ?_, ?_, ?_, ?_, ?_⟩
    · -- call
      intro w f args w1 h
      unfold call at h
      split at h
      · simp at h; subst h; exact Grows.grefl _
      · split at h
        · exact istep _ _ _ _ h
        · exact inext _ _ _ _ h
        · exact istep _ _ _ _ h
        · exact istep _ _ _ _ h
        · simp only [Option.map_eq_some'] at h
          obtain ⟨w2, h2, rfl⟩ := h
          exact (istep _ _ _ _ h2).gtrans (by split <;> simp [Grows, World.emit])
        · simp only [Option.map_eq_some'] at h
          obtain ⟨w2, h2, rfl⟩ := h
          exact (istep _ _ _ _ h2).gtrans (by split <;> simp [Grows, World.emit])
        · simp at h; subst h; simp [Grows, World.emit]
        · simp at h; subst h; exact Grows.grefl _
        · exact igroup _ _ _ _ h
        · exact iraco' _ _ _ _ h
        · split at h
          · exact Grows.gtrans (by simp [Grows, World.emit])
              (Grows.gfold _ (fun w a w1 h => icall _ _ _ _ h) _ _ _ h)
          · simp at h; subst h; simp [Grows, World.raise]
        · simp at h; subst h; simp [Grows, World.raise]
    · -- settleGroup
      intro w g upd w1 h
      unfold settleGroup at h
      split at h
      · simp at h; subst h; exact Grows.grefl _
      · simp only at h
        split at h
        · simp at h; subst h; simp [Grows, World.setGroup]
        · split at h
          · simp at h; subst h; simp [Grows, World.setGroup]
          · split at h
            · simp at h; subst h; simp [Grows, World.setGroup]
            · exact Grows.gtrans (by simp [Grows, World.setGroup]) (icall _ _ _ _ h)
    · -- step
      intro w c args w1 h
      unfold step at h
      split at h
      · simp at h; subst h; exact Grows.grefl _
      · split at h
        · simp at h; subst h; exact Grows.grefl _
        · split at h
          · split at h
            · simp at h; subst h; exact Grows.grefl _
            · exact Grows.gtrans (by simp [Grows, World.emit, World.setComp]) (icall _ _ _ _ h)
          · simp only at h
            split at h
            · simp at h
            · rename_i w2 hw2
              have g2 : Grows w w2 :=
                Grows.gtrans (by simp [Grows, World.emit, World.setComp])
                  (Grows.gfold _ (fun w a w1 h => iact _ _ _ _ h) _ _ _ hw2)
              split at h
              · split at h
                · simp at h; subst h; exact g2.gtrans (by simp [Grows])
                · split at h
                  · exact g2.gtrans (Grows.gtrans (by simp [Grows, World.emit, World.setComp])
                      (icall _ _ _ _ h))
                  · simp at h; subst h; exact g2.gtrans (by simp [Grows, World.raise])
              · split at h
                · simp at h
                · rename_i w4 isY hr
                  have g4 := iyield _ _ _ _ hr
                  have g3 : Grows w2 w4 := Grows.gtrans
                    (by split <;> [split; skip] <;> simp [Grows, World.setComp]) g4
                  split at h
                  · simp at h; subst h; exact g2.gtrans g3
                  · split at h
                    · exact g2.gtrans (g3.gtrans (inext _ _ _ _ h))
                    · simp at h; subst h; exact g2.gtrans g3
    · -- next
      intro w c args w1 h
      unfold next at h
      split at h
      · simp at h; subst h; exact Grows.grefl _
      · split at h
        · simp at h; subst h; exact Grows.grefl _
        · split at h
          · simp at h; subst h; simp [Grows, World.setComp]
          · split at h
            · exact Grows.gtrans (by simp [Grows, World.setComp]) (istep _ _ _ _ h)
            · simp at h; subst h; simp [Grows, World.setComp]
    · -- act
      intro w c a w1 h
      unfold act at h
      split at h
      · simp at h; subst h; exact Grows.grefl _
      · split at h
        · simp at h; subst h; exact Grows.grefl _
        · split at h
          · exact inext _ _ _ _ h
          · simp at h; subst h; simp [Grows, World.setComp]
          · split at h
            · simp at h; subst h; simp [Grows, World.setComp, World.setGroup]
            · split at h
              · simp at h; subst h; exact Grows.grefl _
              · simp at h; subst h; simp [Grows, World.setGroup]
          · split at h
            · exact inext _ _ _ _ h
            · simp only [Option.map_eq_some'] at h
              obtain ⟨w2, h2, rfl⟩ := h
              exact (igroup _ _ _ _ h2).gtrans
                (by split <;> [skip; split] <;> simp [Grows, World.setComp])
          · split at h
            · exact inext _ _ _ _ h
            · simp only [Option.map_eq_some'] at h
              obtain ⟨w2, h2, rfl⟩ := h
              exact (igroup _ _ _ _ h2).gtrans
                (by split <;> [skip; split] <;> simp [Grows, World.setComp])
          · exact icall _ _ _ _ h
    · -- _yieldable
      intro w c v r h
      unfold _yieldable at h
      split at h
      · simp at h; subst h; exact Grows.grefl _
      · split at h
        · simp only [Option.map_eq_some'] at h
          obtain ⟨w2, h2, rfl⟩ := h
          exact Grows.gtrans (by simp [Grows, World.emit])
            (Grows.gfold _ (fun w a w1 h => icall _ _ _ _ h) _ _ _ h2)
        · split at h
          · simp only [Option.map_eq_some'] at h
            obtain ⟨w2, h2, rfl⟩ := h
            exact iraco _ _ _ _ h2
          · split at h
            · simp only [Option.map_eq_some'] at h
              obtain ⟨w2, h2, rfl⟩ := h
              exact icall _ _ _ _ h2
            · split at h
              · simp at h; subst h; simp [Grows, World.emit]
              · split at h
                · simp only [Option.map_eq_some'] at h
                  obtain ⟨w2, h2, rfl⟩ := h
                  exact Grows.gtrans (by simp [Grows, World.emit])
                    (Grows.gfold _ (fun w a w1 h => icall _ _ _ _ h) _ _ _ h2)
                · simp at h; subst h; exact Grows.grefl _
    · -- _raco
      intro w g args w1 h
      unfold _raco at h
      split at h
      · simp at h; subst h; exact Grows.grefl _
      · simp only at h
        split at h
        · simp at h; subst h; simp [Grows, World.raise]
        · split at h
          · exact Grows.gtrans (by simp [Grows, World.setComp]) (istep _ _ _ _ h)
          · split at h
            · simp only [Option.map_eq_some'] at h
              obtain ⟨w2, h2, rfl⟩ := h
              exact Grows.gtrans (by simp [Grows, World.setComp])
                ((istep _ _ _ _ h2).gtrans (by split <;> simp [Grows, World.emit]))
            · exact Grows.gtrans (by simp [Grows, World.setComp]) (istep _ _ _ _ h)
    · -- raco
      intro w g args w1 h
      unfold raco at h
      split at h
      · simp at h; subst h; exact Grows.grefl _
      · split at h
        · simp at h; subst h; exact Grows.grefl _
        · exact iraco' _ _ _ _ h

theorem step_grows (env : Env σ) (n : Nat) (w : World σ) (c : Nat) (args : Args) (w1 : World σ)
    (h : step env n w c args = some w1) : Grows w w1 :=
  (growsAt env n).2.2.1 w c args w1 h

theorem call_grows (env : Env σ) (n : Nat) (w : World σ) (f : Value) (args : Args)
    (w1 : World σ) (h : call env n w f args = some w1) : Grows w w1 :=
  (growsAt env n).1 w f args w1 h

/-! ## A computation that has terminated stays so -/

theorem Same.srefl {c : Nat} {w : World σ} (h : Dead c w) : Same c w w := ⟨h, rfl, rfl⟩

theorem Same.strans {c : Nat} {w w1 w2 : World σ} (h1 : Same c w w1)
    (h2 : Dead c w1 → Same c w1 w2) : Same c w w2 := by
  obtain ⟨d1, r1, c1⟩ := h1
  obtain ⟨d2, r2, c2⟩ := h2 d1
  exact ⟨d2, r2.trans r1, c2.trans c1⟩

theorem Same.sfold {α : Type} (c : Nat) (f : World σ → α → Option (World σ))
    (hf : ∀ w a w1, f w a = some w1 → Dead c w → Same c w w1) :
    ∀ (l : List α) (w w1 : World σ), l.foldlM f w = some w1 → Dead c w → Same c w w1 := by
  intro l
  induction l with
  | nil => intro w w1 h hd; simp at h; subst h; exact Same.srefl hd
  | cons a l ih =>
    intro w w1 h hd
    simp only [List.foldlM_cons, Option.bind_eq_bind] at h
    cases hfa : f w a with
    | none => simp [hfa] at h
    | some w2 =>
      simp [hfa] at h
      exact (hf _ _ _ hfa hd).strans (ih _ _ h)

theorem Same.update {c c1 : Nat} {w w1 : World σ} {k k1 : Comp σ} (hd : Dead c w)
    (hk : w.comps c1 = some k) (hc : w1.comps = Function.update w.comps c1 (some k1))
    (hf : w1.fresh = w.fresh) (ht : w1.trace = w.trace)
    (hi : k1.iter = k.iter) (hdn : k1.done = k.done) : Same c w w1 := by
  obtain ⟨hlt, k0, hk0, hi0, hd0⟩ := hd
  refine ⟨⟨by omega, ?_⟩, by rw [ht], by rw [ht]⟩
  by_cases hcc : c1 = c
  · subst hcc
    rw [hk] at hk0
    cases hk0
    exact ⟨k1, by simp [hc], by rw [hi, hi0], by rw [hdn, hd0]⟩
  · exact ⟨k0, by simp [hc, Function.update_apply, Ne.symm hcc, hk0], hi0, hd0⟩

/-- No operation of the resolver resumes the coroutine or invokes the outer callback of a
computation that has terminated, whatever the fuel. -/
theorem deadAt (env : Env σ) (c : Nat) : ∀ n, DeadAt env c n := by
  intro n
  induction n with
  | zero =>
    refine ⟨?_, ?_, ?_, ?_, ?_, ?_, ?_, ?_⟩ <;> intros <;>
      simp_all [call, settleGroup, step, next, act, _yieldable, _raco, raco]
  | succ n ih =>
    obtain ⟨icall, igroup, istep, inext, iact, iyield, iraco', iraco⟩ := ih
    refine ⟨?_, ?_, ?_, ?_, ?_, ?_, ?_, ?_⟩
    · -- call
      intro w f args w1 h hd
      unfold call at h
      split at h
      · simp at h; subst h; exact Same.srefl hd
      · split at h
        · exact istep _ _ _ _ h hd
        · exact inext _ _ _ _ h hd
        · exact istep _ _ _ _ h hd
        · exact istep _ _ _ _ h hd
        · simp only [Option.map_eq_some'] at h
          obtain ⟨w2, h2, rfl⟩ := h
          refine (istep _ _ _ _ h2 hd).strans fun hd2 => ?_
          split
          · exact Same.srefl hd2
          · simpa [Same, Dead, World.emit, resumes, callbacks, List.filterMap_append] using hd2
        · simp only [Option.map_eq_some'] at h
          obtain ⟨w2, h2, rfl⟩ := h
          refine (istep _ _ _ _ h2 hd).strans fun hd2 => ?_
          split
          · exact Same.srefl hd2
          · simpa [Same, Dead, World.emit, resumes, callbacks, List.filterMap_append] using hd2
        · simp at h; subst h
          split <;>
            simpa [Same, Dead, World.emit, resumes, callbacks, List.filterMap_append] using hd
        · simp at h; subst h; exact Same.srefl hd
        · exact igroup _ _ _ _ h hd
        · exact iraco' _ _ _ _ h hd
        · split at h
          · refine Same.strans ?_ (Same.sfold c _ (fun w a w1 h => icall _ _ _ _ h) _ _ _ h)
            simpa [Same, Dead, World.emit, resumes, callbacks, List.filterMap_append] using hd
          · simp at h; subst h
            simpa [Same, Dead, World.raise] using hd
        · simp at h; subst h
          simpa [Same, Dead, World.raise] using hd
    · -- settleGroup
      intro w g upd w1 h hd
      unfold settleGroup at h
      split at h
      · simp at h; subst h; exact Same.srefl hd
      · simp only at h
        split at h
        · simp at h; subst h; simpa [Same, Dead, World.setGroup] using hd
        · split at h
          · simp at h; subst h; simpa [Same, Dead, World.setGroup] using hd
          · split at h
            · simp at h; subst h; simpa [Same, Dead, World.setGroup] using hd
            · refine Same.strans ?_ (icall _ _ _ _ h)
              simpa [Same, Dead, World.setGroup] using hd
    · -- step
      intro w c1 args w1 h hd
      unfold step at h
      split at h
      · simp at h; subst h; exact Same.srefl hd
      · split at h
        · simp at h; subst h; exact Same.srefl hd
        · rename_i k hk
          split at h
          · rename_i hi
            split at h
            · simp at h; subst h; exact Same.srefl hd
            · rename_i hdone
              have hne : c1 ≠ c := by
                rintro rfl
                obtain ⟨_, k0, hk0, _, hd0⟩ := hd
                rw [hk] at hk0
                cases hk0
                exact hdone hd0
              refine Same.strans ?_ (icall _ _ _ _ h)
              simpa [Same, Dead, World.emit, World.setComp, Function.update_apply, Ne.symm hne,
                hne, resumes, callbacks, List.filterMap_append] using hd
          · rename_i it hi
            have hne : c1 ≠ c := by
              rintro rfl
              obtain ⟨_, k0, hk0, hi0, _⟩ := hd
              rw [hk] at hk0
              cases hk0
              rw [hi] at hi0
              cases hi0
            simp only at h
            split at h
            · simp at h
            · rename_i w2 hw2
              have g2 : Same c w w2 := by
                refine Same.strans ?_
                  (Same.sfold c _ (fun w a w1 h => iact _ _ _ _ h) _ _ _ hw2)
                simpa [Same, Dead, World.emit, World.setComp, Function.update_apply, Ne.symm hne,
                  hne, resumes, callbacks, List.filterMap_append] using hd
              have hfin : ∀ w0 : World σ, Dead c w0 → Same c w0 (w0.finishIter c1) := by
                intro w0 hd0
                exact ⟨⟨by simpa using hd0.1,
                  by simpa [World.finishIter_other w0 c c1 (Ne.symm hne)] using hd0.2⟩,
                  by simp, by simp⟩
              split at h
              · split at h
                · simp at h; subst h; exact g2.strans (hfin w2)
                · split at h
                  · refine (g2.strans (hfin w2)).strans fun hd2 =>
                      Same.strans ?_ (icall _ _ _ _ h)
                    simpa [Same, Dead, World.emit, World.setComp, Function.update_apply,
                      Ne.symm hne, hne, resumes, callbacks, List.filterMap_append] using hd2
                  · simp at h; subst h
                    refine (g2.strans (hfin w2)).strans fun hd2 => ?_
                    simpa [Same, Dead, World.raise] using hd2
              · split at h
                · simp at h
                · rename_i w4 isY hr
                  have g3 : Same c w w4 := by
                    refine g2.strans fun hd2 => Same.strans ?_ (iyield _ _ _ _ hr)
                    split <;> [split; skip] <;>
                      simpa [Same, Dead, World.setComp, Function.update_apply, Ne.symm hne, hne]
                        using hd2
                  split at h
                  · simp at h; subst h; exact g3
                  · split at h
                    · exact g3.strans (inext _ _ _ _ h)
                    · simp at h; subst h; exact g3
    · -- next
      intro w c1 args w1 h hd
      unfold next at h
      split at h
      · simp at h; subst h; exact Same.srefl hd
      · split at h
        · simp at h; subst h; exact Same.srefl hd
        · rename_i k hk
          split at h
          · simp at h; subst h
            by_cases hcc : c1 = c
            · subst hcc
              obtain ⟨hlt, k0, hk0, hi0, hd0⟩ := hd
              rw [hk] at hk0
              cases hk0
              simp [Same, Dead, World.setComp, hlt, hi0, hd0]
            · simpa [Same, Dead, World.setComp, Function.update_apply, Ne.symm hcc, hcc] using hd
          · split at h
            · rename_i hsome
              have hne : c1 ≠ c := by
                rintro rfl
                obtain ⟨_, k0, hk0, hi0, _⟩ := hd
                rw [hk] at hk0
                cases hk0
                simp [hi0] at hsome
              refine Same.strans ?_ (istep _ _ _ _ h)
              simpa [Same, Dead, World.setComp, Function.update_apply, Ne.symm hne, hne] using hd
            · simp at h; subst h
              by_cases hcc : c1 = c
              · subst hcc
                obtain ⟨hlt, k0, hk0, hi0, hd0⟩ := hd
                rw [hk] at hk0
                cases hk0
                simp [Same, Dead, World.setComp, hlt, hd0]
              · simpa [Same, Dead, World.setComp, Function.update_apply, Ne.symm hcc, hcc]
                  using hd
    · -- act
      intro w c1 a w1 h hd
      unfold act at h
      split at h
      · simp at h; subst h; exact Same.srefl hd
      · split at h
        · simp at h; subst h; exact Same.srefl hd
        · rename_i k hk
          split at h
          · exact inext _ _ _ _ h hd
          · simp at h; subst h
            exact Same.update hd hk rfl rfl rfl rfl rfl
          · split at h
            · simp at h; subst h
              exact Same.update hd hk rfl rfl rfl rfl rfl
            · split at h
              · simp at h; subst h; exact Same.srefl hd
              · simp at h; subst h; simpa [Same, Dead, World.setGroup] using hd
          · split at h
            · exact inext _ _ _ _ h hd
            · simp only [Option.map_eq_some'] at h
              obtain ⟨w2, h2, rfl⟩ := h
              refine (igroup _ _ _ _ h2 hd).strans fun hd2 => ?_
              split
              · exact Same.srefl hd2
              · split
                · exact Same.srefl hd2
                · rename_i k1 hk1
                  exact Same.update hd2 hk1 rfl rfl rfl rfl rfl
          · split at h
            · exact inext _ _ _ _ h hd
            · simp only [Option.map_eq_some'] at h
              obtain ⟨w2, h2, rfl⟩ := h
              refine (igroup _ _ _ _ h2 hd).strans fun hd2 => ?_
              split
              · exact Same.srefl hd2
              · split
                · exact Same.srefl hd2
                · rename_i k1 hk1
                  exact Same.update hd2 hk1 rfl rfl rfl rfl rfl
          · exact icall _ _ _ _ h hd
    · -- _yieldable
      intro w c1 v r h hd
      unfold _yieldable at h
      split at h
      · simp at h; subst h; exact Same.srefl hd
      · split at h
        · simp only [Option.map_eq_some'] at h
          obtain ⟨w2, h2, rfl⟩ := h
          refine Same.strans ?_ (Same.sfold c _ (fun w a w1 h => icall _ _ _ _ h) _ _ _ h2)
          simpa [Same, Dead, World.emit, resumes, callbacks, List.filterMap_append] using hd
        · split at h
          · simp only [Option.map_eq_some'] at h
            obtain ⟨w2, h2, rfl⟩ := h
            exact iraco _ _ _ _ h2 hd
          · split at h
            · simp only [Option.map_eq_some'] at h
              obtain ⟨w2, h2, rfl⟩ := h
              exact icall _ _ _ _ h2 hd
            · split at h
              · simp at h; subst h
                simpa [Same, Dead, World.emit, resumes, callbacks, List.filterMap_append] using hd
              · split at h
                · simp only [Option.map_eq_some'] at h
                  obtain ⟨w2, h2, rfl⟩ := h
                  refine Same.strans ?_
                    (Same.sfold c _ (fun w a w1 h => icall _ _ _ _ h) _ _ _ h2)
                  simpa [Same, Dead, World.emit, resumes, callbacks, List.filterMap_append]
                    using hd
                · simp at h; subst h; exact Same.srefl hd
    · -- _raco
      intro w g args w1 h hd
      have hne : c ≠ w.fresh := Nat.ne_of_lt hd.1
      have hlt : c < w.fresh + 1 := Nat.lt_succ_of_lt hd.1
      unfold _raco at h
      split at h
      · simp at h; subst h; exact Same.srefl hd
      · simp only at h
        split at h
        · simp at h; subst h; simpa [Same, Dead, World.raise] using hd
        · split at h
          · refine Same.strans ?_ (istep _ _ _ _ h)
            simpa [Same, Dead, World.setComp, Function.update_apply, hne, hlt] using hd.2
          · split at h
            · simp only [Option.map_eq_some'] at h
              obtain ⟨w2, h2, rfl⟩ := h
              refine Same.strans ?_ fun hd1 => (istep _ _ _ _ h2 hd1).strans fun hd2 => ?_
              · simpa [Same, Dead, World.setComp, Function.update_apply, hne, hlt] using hd.2
              · have hne2 : w.fresh ≠ c := Ne.symm hne
                split
                · simpa [Same, Dead, World.emit, resumes, callbacks, List.filterMap_append]
                    using hd2
                · exact Same.srefl hd2
            · refine Same.strans ?_ (istep _ _ _ _ h)
              simpa [Same, Dead, World.setComp, Function.update_apply, hne, hlt] using hd.2
    · -- raco
      intro w g args w1 h hd
      unfold raco at h
      split at h
      · simp at h; subst h; exact Same.srefl hd
      · split at h
        · simp at h; subst h; exact Same.srefl hd
        · exact iraco' _ _ _ _ h hd

/-! ## Events and runs -/

theorem surface_grows (w : World σ) : Grows w (surface w) := by
  unfold surface
  split <;> simp [Grows, World.emit]

theorem tick_grows (env : Env σ) (n : Nat) (w w1 : World σ) (h : tick env n w = some w1) :
    Grows w w1 := by
  unfold tick at h
  split at h
  · simp at h; subst h; exact Grows.grefl _
  · split at h
    · simp at h; subst h; exact Grows.grefl _
    · exact Grows.gtrans (by simp [Grows, World.emit, World.setComp]) (step_grows _ _ _ _ _ _ h)

theorem handle_grows (env : Env σ) (n : Nat) (w w1 : World σ) (ev : Event)
    (h : handle env n w ev = some w1) : Grows w w1 := by
  cases ev with
  | raco g args =>
    simp only [handle, Option.map_eq_some'] at h
    obtain ⟨w2, h2, rfl⟩ := h
    exact ((growsAt env n).2.2.2.2.2.2.2 _ _ _ _ h2).gtrans (surface_grows _)
  | call f args =>
    simp only [handle, Option.map_eq_some'] at h
    obtain ⟨w2, h2, rfl⟩ := h
    exact (call_grows _ _ _ _ _ _ h2).gtrans (surface_grows _)
  | tick =>
    simp only [handle, Option.map_eq_some'] at h
    obtain ⟨w2, h2, rfl⟩ := h
    exact (tick_grows _ _ _ _ h2).gtrans (surface_grows _)

/-- A run only adds to the trace. -/
theorem run_grows (env : Env σ) (n : Nat) (evs : List Event) (w w1 : World σ)
    (h : run env n w evs = some w1) : Grows w w1 :=
  Grows.gfold _ (fun w ev w1 h => handle_grows env n w w1 ev h) evs w w1 h

theorem surface_same (c : Nat) (w : World σ) (hd : Dead c w) : Same c w (surface w) := by
  unfold surface
  split
  · simpa [Same, Dead, World.emit, resumes, callbacks, List.filterMap_append] using hd
  · exact Same.srefl hd

theorem tick_same (env : Env σ) (c n : Nat) (w w1 : World σ) (h : tick env n w = some w1)
    (hd : Dead c w) : Same c w w1 := by
  unfold tick at h
  cases hq : w.queue with
  | nil => simp [hq] at h; subst h; exact Same.srefl hd
  | cons t rest =>
    obtain ⟨c1, args⟩ := t
    simp only [hq] at h
    cases hk : w.comps c1 with
    | none => simp [hk] at h; subst h; simpa [Same, Dead] using hd
    | some k =>
      simp only [hk] at h
      refine Same.strans ?_ ((deadAt env c n).2.2.1 _ _ _ _ h)
      have h1 : Same c w ({ w with queue := rest }.setComp c1 { k with ticking := false }) :=
        Same.update hd hk rfl rfl rfl rfl rfl
      refine h1.strans fun hd1 => ?_
      simpa [Same, Dead, World.emit, resumes, callbacks, List.filterMap_append] using hd1

theorem handle_same (env : Env σ) (c n : Nat) (w w1 : World σ) (ev : Event)
    (h : handle env n w ev = some w1) (hd : Dead c w) : Same c w w1 := by
  cases ev with
  | raco g args =>
    simp only [handle, Option.map_eq_some'] at h
    obtain ⟨w2, h2, rfl⟩ := h
    exact ((deadAt env c n).2.2.2.2.2.2.2 _ _ _ _ h2 hd).strans (surface_same c _)
  | call f args =>
    simp only [handle, Option.map_eq_some'] at h
    obtain ⟨w2, h2, rfl⟩ := h
    exact ((deadAt env c n).1 _ _ _ _ h2 hd).strans (surface_same c _)
  | tick =>
    simp only [handle, Option.map_eq_some'] at h
    obtain ⟨w2, h2, rfl⟩ := h
    exact (tick_same env c n _ _ h2 hd).strans (surface_same c _)

/-- No run revives a computation that has terminated. -/
theorem run_same (env : Env σ) (c n : Nat) (evs : List Event) (w w1 : World σ)
    (h : run env n w evs = some w1) (hd : Dead c w) : Same c w w1 :=
  Same.sfold c _ (fun w ev w1 h => handle_same env c n w w1 ev h) evs w w1 h hd
/-- A call of `step` on a computation whose coroutine is still referenced resumes it, as
the arguments say, before anything else. -/
theorem step_live_resumes (env : Env σ) (m : Nat) (w w1 : World σ) (c : Nat) (k : Comp σ)
    (it : Iter σ) (args : Args)
    (hexc : w.exc = none) (hc : w.comps c = some k) (hi : k.iter = some it)
    (h : step env m w c args = some w1) :
    ∃ tr, w1.trace = w.trace ++ Obs.resumed c (resumeOf args) :: tr := by
  cases m with
  | zero => simp [step] at h
  | succ n =>
    unfold step at h
    simp only [hexc, hc, hi, Option.isSome_none, Bool.false_eq_true, if_false] at h
    split at h
    · simp at h
    · rename_i w2 hw2
      have g2 := Grows.gfold _ (fun w a w1 h => (growsAt env n).2.2.2.2.1 w c a w1 h) _ _ _ hw2
      have g3 : Grows w2 w1 := by
        split at h
        · split at h
          · simp at h; subst h; simp [Grows]
          · split at h
            · exact Grows.gtrans (by simp [Grows, World.emit, World.setComp])
                (call_grows _ _ _ _ _ _ h)
            · simp at h; subst h; simp [Grows, World.raise]
        · split at h
          · simp at h
          · rename_i w4 isY hr
            have g4 : Grows w2 w4 := Grows.gtrans
              (by split <;> [split; skip] <;> simp [Grows, World.setComp])
              ((growsAt env n).2.2.2.2.2.1 _ _ _ _ hr)
            split at h
            · simp at h; subst h; exact g4
            · split at h
              · exact g4.gtrans ((growsAt env n).2.2.2.1 _ _ _ _ h)
              · simp at h; subst h; exact g4
      obtain ⟨tr, htr⟩ := Grows.gtrans g2 g3
      exact ⟨tr, by simp [← htr, World.emit, World.setComp, resumeOf]⟩

theorem truthy_orError (v : Value) : truthy (orError v) = true := by
  unfold orError
  split
  · assumption
  · rfl

theorem foldlM_one {α : Type} (f : World σ → α → Option (World σ)) (w : World σ) (a : α) :
    List.foldlM f w [a] = f w a := by
  simp only [List.foldlM_cons, List.foldlM_nil, Option.bind_eq_bind]
  cases f w a <;> rfl

theorem yieldable_rejects (env : Env σ) (n : Nat) (w : World σ) (c : Nat) (v : Value)
    (hexc : w.exc = none) (hv : notYieldable env v = true) :
    _yieldable env (n + 1) w c v
      = some ({ w with trace := w.trace ++ hookObs env c v }, false) := by
  unfold notYieldable at hv
  simp only [Bool.and_eq_true, Bool.not_eq_true'] at hv
  obtain ⟨⟨⟨⟨⟨h1, h2⟩, h3⟩, h4⟩, h5⟩, h6⟩ := hv
  unfold _yieldable
  simp only [hexc, h1, h2, h3, h4, h5, Option.isSome_none, Bool.false_eq_true, if_false,
    Bool.or_false]
  cases hh : env.opts.yieldable with
  | none => cases w; simp_all [hookObs]
  | some hook =>
    simp only [hh, Bool.and_eq_true, List.isEmpty_iff, Bool.not_eq_true'] at h6
    simp [hookObs, hh, h6.1, h6.2, World.emit, hexc]

/-- A coroutine that returns a value that is not yieldable: `step` clears the coroutine
and hands the value to `next`, which queues it. -/
theorem step_returns (env : Env σ) (n : Nat) (w : World σ) (c : Nat) (k : Comp σ) (s : σ)
    (args : Args) (r : Value)
    (hexc : w.exc = none) (hc : w.comps c = some k) (hi : k.iter = some (Iter.live s))
    (ht : k.ticking = false)
    (hres : env.resume s (resumeOf args) = ([], Outcome.ret r))
    (hr : notYieldable env r = true) :
    step env (n + 2) w c args
      = some { w with
          comps := Function.update w.comps c (some { k with iter := none, ticking := true })
          queue := w.queue ++ [(c, [Value.null, r])]
          trace := w.trace ++ Obs.resumed c (resumeOf args) :: hookObs env c r } := by
  have hres' : env.resume s (if truthy (arg args 0) = true then Resume.throw (arg args 0)
      else Resume.next (arg args 1)) = ([], Outcome.ret r) := hres
  unfold step
  simp only [hexc, hc, hi, Iter.resume, hres', Option.isSome_none, Bool.false_eq_true,
    if_false, List.foldlM_nil, Option.pure_def, World.emit, World.setComp, Function.update_same,
    if_true]
  simp [yieldable_rejects, hr, next, ht, resumeOf, World.setComp]

/-- The queued task of a computation that has cleared its coroutine and has not fired its
outer callback fires it with the queued arguments. -/
theorem tick_delivers (env : Env σ) (f : Nat) (w : World σ) (c : Nat) (k : Comp σ)
    (args : Args) (rest : List (Nat × Args))
    (hexc : w.exc = none) (hq : w.queue = (c, args) :: rest) (hc : w.comps c = some k)
    (hi : k.iter = none) (hd : k.done = false) :
    tick env (f + 1) w
      = call env f { w with
          comps := Function.update w.comps c (some { k with ticking := false, done := true })
          queue := rest
          trace := w.trace ++ [Obs.tick c args, Obs.callback c args] } k.callback args := by
  unfold tick
  simp only [hq, hc]
  unfold step
  simp [World.emit, World.setComp, hexc, hi, hd]

/-- A coroutine that raises in callback mode: `step` marks the computation done and calls
the outer callback with what was raised. -/
theorem step_raises (env : Env σ) (n : Nat) (w : World σ) (c : Nat) (k : Comp σ) (s : σ)
    (args : Args) (e : Value)
    (hexc : w.exc = none) (hc : w.comps c = some k) (hi : k.iter = some (Iter.live s))
    (htry : k.trycatch = true)
    (hres : env.resume s (resumeOf args) = ([], Outcome.raise e)) :
    step env (n + 1) w c args
      = call env n { w with
          comps := Function.update w.comps c
            (some { k with iter := some Iter.finished, done := true })
          trace := w.trace ++ [Obs.resumed c (resumeOf args), Obs.callback c [e]] }
          k.callback [e] := by
  have hres' : env.resume s (if truthy (arg args 0) = true then Resume.throw (arg args 0)
      else Resume.next (arg args 1)) = ([], Outcome.raise e) := hres
  unfold step
  simp [hexc, hc, hi, Iter.resume, hres', World.emit, World.setComp, htry, resumeOf,
    World.finishIter_of_none]
theorem resumes_hookObs (env : Env σ) (c c1 : Nat) (v : Value) :
    resumes c (hookObs env c1 v) = [] := by
  unfold hookObs
  split <;> rfl

theorem callbacks_hookObs (env : Env σ) (c c1 : Nat) (v : Value) :
    callbacks c (hookObs env c1 v) = [] := by
  unfold hookObs
  split <;> rfl

theorem resumes_append (c : Nat) (a b : List Obs) :
    resumes c (a ++ b) = resumes c a ++ resumes c b := by
  simp [resumes, List.filterMap_append]

theorem callbacks_append (c : Nat) (a b : List Obs) :
    callbacks c (a ++ b) = callbacks c a ++ callbacks c b := by
  simp [callbacks, List.filterMap_append]

/-- A yieldable that reports inside the call that resolves it: `_yieldable` records the
resolution and calls `step` with `(null, v)`. -/
theorem once_now (env : Env σ) (c : Nat) (y v : Value) (h : Once env c y v none)
    (m : Nat) (w : World σ) (hexc : w.exc = none) :
    ∃ o j, m ≤ j ∧ resumes c [o] = [] ∧ callbacks c [o] = [] ∧
      _yieldable env (m + 3) w c y
        = (step env j (w.emit o) c [Value.null, v]).map fun w1 => (w1, true) := by
  cases h with
  | thunkNow sh id hy hthen hgen hit hfn hsync =>
    subst hy
    refine ⟨Obs.invoked id [Value.step c], m, by omega, rfl, rfl, ?_⟩
    unfold _yieldable
    simp only [hexc, isPromise, hthen, isGeneratorFunction, hgen, isGenerator, hit, isFunction,
      hfn, Option.isSome_none, Bool.false_eq_true, if_false, if_true, Bool.and_false,
      Bool.or_false]
    unfold call
    simp only [hexc, hfn, hsync, arg, List.getD_cons_zero, foldlM_one, Option.isSome_none,
      Bool.false_eq_true, if_false, if_true]
    unfold call
    simp [World.emit, hexc]
  | thenableNow sh id hy hthen hsync =>
    subst hy
    refine ⟨Obs.thenCalled id c, m + 1, by omega, rfl, rfl, ?_⟩
    unfold _yieldable
    simp only [hexc, isPromise, hthen, Value.ident, hsync, foldlM_one, Option.isSome_none,
      Bool.false_eq_true, if_false, if_true]
    unfold call
    simp [World.emit, hexc, arg]
  | hookNow hook h1 h2 h3 h4 h5 hh hy =>
    refine ⟨Obs.hooked c y, m + 1, by omega, rfl, rfl, ?_⟩
    unfold _yieldable
    simp only [hexc, h1, h2, h3, h4, h5, hh, hy, foldlM_one, Option.isSome_none,
      Bool.false_eq_true, if_false, Bool.or_false]
    unfold call
    simp [World.emit, hexc]

/-- A yieldable that reports later: `_yieldable` only records the resolution, and the
later event calls `step` with `(null, v)`. -/
theorem once_later (env : Env σ) (c : Nat) (y v : Value) (ev : Event)
    (h : Once env c y v (some ev)) :
    (∀ (m : Nat) (w : World σ), w.exc = none →
      ∃ o, resumes c [o] = [] ∧ callbacks c [o] = [] ∧
        _yieldable env (m + 2) w c y = some (w.emit o, true)) ∧
    (∀ (g : Nat) (w w2 : World σ), w.exc = none →
      step env g w c [Value.null, v] = some w2 → w2.exc = none →
      ∃ extra, resumes c extra = [] ∧ callbacks c extra = [] ∧
        handle env (g + 1) w ev = some { w2 with trace := w2.trace ++ extra }) := by
  cases h with
  | thunkLater sh id hy hthen hgen hit hfn hsync =>
    subst hy
    constructor
    · intro m w hexc
      refine ⟨Obs.invoked id [Value.step c], rfl, rfl, ?_⟩
      unfold _yieldable
      simp only [hexc, isPromise, hthen, isGeneratorFunction, hgen, isGenerator, hit,
        isFunction, hfn, Option.isSome_none, Bool.false_eq_true, if_false, if_true,
        Bool.and_false, Bool.or_false]
      unfold call
      simp [hexc, hfn, hsync]
    · intro g w w2 hexc hstep hexc2
      refine ⟨[], rfl, rfl, ?_⟩
      simp only [handle, call, hexc, hstep, surface, hexc2, Option.isSome_none,
        Bool.false_eq_true, if_false, Option.map_some', List.append_nil]
      cases w2
      simp_all
  | promiseLater sh id hy hthen hsync =>
    subst hy
    constructor
    · intro m w hexc
      refine ⟨Obs.thenCalled id c, rfl, rfl, ?_⟩
      unfold _yieldable
      simp [hexc, isPromise, hthen, Value.ident, hsync]
    · intro g w w2 hexc hstep hexc2
      refine ⟨[], rfl, rfl, ?_⟩
      have hstep' : step env g w c [Value.null, arg [v] 0] = some w2 := hstep
      simp only [handle, call, hexc, hstep', surface, hexc2, Option.isSome_none,
        Bool.false_eq_true, if_false, Option.map_some', List.append_nil]
      cases w2
      simp_all
  | hookLater hook h1 h2 h3 h4 h5 hh hy =>
    constructor
    · intro m w hexc
      refine ⟨Obs.hooked c y, rfl, rfl, ?_⟩
      unfold _yieldable
      simp [hexc, h1, h2, h3, h4, h5, hh, hy]
    · intro g w w2 hexc hstep hexc2
      refine ⟨[], rfl, rfl, ?_⟩
      simp only [handle, call, hexc, hstep, surface, hexc2, Option.isSome_none,
        Bool.false_eq_true, if_false, Option.map_some', List.append_nil]
      cases w2
      simp_all
  | observableLater sh id hy hthen hit hfn hsub =>
    subst hy
    constructor
    · intro m w hexc
      refine ⟨Obs.subscribed id c, rfl, rfl, ?_⟩
      unfold _yieldable
      simp [hexc, isPromise, hthen, isGeneratorFunction, hfn, isGenerator, hit, isFunction,
        isObservable, hsub, Value.ident]
    · intro g w w2 hexc hstep hexc2
      refine ⟨[Obs.disposed c], rfl, rfl, ?_⟩
      have hstep' : step env g w c [Value.null, arg [v] 0] = some w2 := hstep
      simp [handle, call, hexc, hstep', surface, hexc2, World.emit]

@[simp] theorem World.emit_exc (w : World σ) (o : Obs) : (w.emit o).exc = w.exc := rfl

@[simp] theorem World.setComp_exc (w : World σ) (c : Nat) (k : Comp σ) :
    (w.setComp c k).exc = w.exc := rfl

@[simp] theorem World.emit_comps (w : World σ) (o : Obs) : (w.emit o).comps = w.comps := rfl

@[simp] theorem World.setComp_comps (w : World σ) (c : Nat) (k : Comp σ) :
    (w.setComp c k).comps c = some k := by
  simp [World.setComp]

@[simp] theorem World.emit_trace (w : World σ) (o : Obs) :
    (w.emit o).trace = w.trace ++ [o] := rfl

@[simp] theorem World.setComp_trace (w : World σ) (c : Nat) (k : Comp σ) :
    (w.setComp c k).trace = w.trace := rfl

@[simp] theorem World.emit_queue (w : World σ) (o : Obs) : (w.emit o).queue = w.queue := rfl

@[simp] theorem World.setComp_queue (w : World σ) (c : Nat) (k : Comp σ) :
    (w.setComp c k).queue = w.queue := rfl
/-- A coroutine that yields a value that `_yieldable` accepts: `step` does what the
resolution of the value does, and nothing after it. -/
theorem step_yields (env : Env σ) (m : Nat) (w : World σ) (c : Nat) (k : Comp σ) (s s1 : σ)
    (args : Args) (y : Value) (x : Option (World σ))
    (hexc : w.exc = none) (hc : w.comps c = some k) (hi : k.iter = some (Iter.live s))
    (hres : env.resume s (resumeOf args) = ([], Outcome.yield y s1))
    (hy : _yieldable env m
        ((w.setComp c { k with iter := some (Iter.live s1) }).emit
          (Obs.resumed c (resumeOf args))) c y
      = x.map fun w1 => (w1, true)) :
    step env (m + 1) w c args = x := by
  have hres' : env.resume s (if truthy (arg args 0) = true then Resume.throw (arg args 0)
      else Resume.next (arg args 1)) = ([], Outcome.yield y s1) := hres
  have hy' : _yieldable env m
        ((w.setComp c { k with iter := some (Iter.live s1) }).emit
          (Obs.resumed c (if truthy (arg args 0) = true then Resume.throw (arg args 0)
            else Resume.next (arg args 1)))) c y
      = x.map fun w1 => (w1, true) := hy
  unfold step
  simp only [hexc, hc, hi, Iter.resume, hres', Option.isSome_none, Bool.false_eq_true,
    if_false, List.foldlM_nil, Option.pure_def, World.emit_exc, World.setComp_exc, hy']
  cases x with
  | none => rfl
  | some w4 =>
    simp only [Option.map_some', Bool.not_true, Bool.false_and, Bool.false_eq_true, if_false]
    cases w4.comps c <;> rfl

theorem resumes_resumed_self (c : Nat) (r : Resume) (t : List Obs) :
    resumes c (Obs.resumed c r :: t) = r :: resumes c t := by
  simp [resumes]

theorem callbacks_resumed (c c1 : Nat) (r : Resume) (t : List Obs) :
    callbacks c (Obs.resumed c1 r :: t) = callbacks c t := by
  simp [callbacks]

theorem resumes_nil (c : Nat) : resumes c [] = [] := rfl

theorem callbacks_nil (c : Nat) : callbacks c [] = [] := rfl
theorem run_cons (env : Env σ) (n : Nat) (w : World σ) (ev : Event) (evs : List Event) :
    run env n w (ev :: evs) = (handle env n w ev).bind fun w1 => run env n w1 evs := by
  simp [run, List.foldlM_cons]

theorem run_append (env : Env σ) (n : Nat) (w : World σ) (evs evs1 : List Event) :
    run env n w (evs ++ evs1) = (run env n w evs).bind fun w1 => run env n w1 evs1 := by
  simp [run, List.foldlM_append]

/-- Along a path the coroutine is resumed with the resolved values in turn, and the run
ends with the task that delivers the return value queued. The fuel bounds the depth of
the synchronous call chain, four calls for each yieldable. -/
theorem follows_run (env : Env σ) (c : Nat) :
    ∀ (path : List (Value × Value × Option Event)) (s : σ) (r : Resume) (ret : Value),
      Follows env c s r path ret →
      ∀ (w : World σ) (k : Comp σ) (args : Args), w.exc = none → w.comps c = some k →
        k.iter = some (Iter.live s) → k.ticking = false → resumeOf args = r →
        ∀ f1, 4 * path.length + 2 ≤ f1 →
          ∃ w1, step env f1 w c args = some w1 ∧ w1.exc = none ∧
            ∀ f2, 4 * path.length + 3 ≤ f2 →
              ∀ extra, resumes c extra = [] → callbacks c extra = [] →
                ∃ w2, run env f2 { w1 with trace := w1.trace ++ extra } (later path)
                    = some w2 ∧
                  Delivered c k w r (resolved path) ret w2 := by
  intro path
  induction path with
  | nil =>
    intro s r ret hF w k args hexc hc hi ht hr f1 hf1
    obtain ⟨hres, hret⟩ := hF
    obtain ⟨n, rfl⟩ : ∃ n, f1 = n + 2 := ⟨f1 - 2, by omega⟩
    subst hr
    refine ⟨_, step_returns env n w c k s args ret hexc hc hi ht hres hret, hexc, ?_⟩
    intro f2 _ extra he1 he2
    refine ⟨_, rfl, hexc, by simp, rfl, ?_, ?_⟩
    · simp [resumes_append, resumes_hookObs, resumes_resumed_self, he1, resolved]
    · simp [callbacks_append, callbacks_hookObs, callbacks_resumed, he2]
  | cons p rest ih =>
    obtain ⟨y, v, ev⟩ := p
    intro s r ret hF w k args hexc hc hi ht hr f1 hf1
    obtain ⟨s1, hres, honce, hrest⟩ := hF
    subst hr
    have hlen : (((y, v, ev) :: rest).length) = rest.length + 1 := rfl
    rw [hlen] at hf1
    have hargs : resumeOf [Value.null, v] = Resume.next v := rfl
    cases ev with
    | none =>
      obtain ⟨m, rfl⟩ : ∃ m, f1 = (m + 3) + 1 := ⟨f1 - 4, by omega⟩
      obtain ⟨o, j, hj, ho1, ho2, hy⟩ := once_now env c y v honce m
        ((w.setComp c { k with iter := some (Iter.live s1) }).emit
          (Obs.resumed c (resumeOf args))) hexc
      obtain ⟨w1, hstep, hexc1, hrun⟩ := ih s1 (Resume.next v) ret hrest
        (((w.setComp c { k with iter := some (Iter.live s1) }).emit
          (Obs.resumed c (resumeOf args))).emit o)
        { k with iter := some (Iter.live s1) } [Value.null, v] hexc (by simp) rfl ht hargs
        j (by omega)
      refine ⟨w1, ?_, hexc1, ?_⟩
      · rw [step_yields env (m + 3) w c k s s1 args y _ hexc hc hi hres hy, hstep]
      · intro f2 hf2 extra he1 he2
        rw [hlen] at hf2
        obtain ⟨w2, hw2, hd⟩ := hrun f2 (by omega) extra he1 he2
        refine ⟨w2, by simpa [later] using hw2, ?_⟩
        obtain ⟨d1, d2, d3, d4, d5⟩ := hd
        refine ⟨d1, d2, d3, ?_, ?_⟩
        · rw [d4]
          have : resumes c [o] = [] := ho1
          simp [resumes_append, resumes_resumed_self, resumes_nil, this, resolved]
        · rw [d5]
          have : callbacks c [o] = [] := ho2
          simp [callbacks_append, callbacks_resumed, callbacks_nil, this]
    | some ev =>
      obtain ⟨m, rfl⟩ : ∃ m, f1 = (m + 2) + 1 := ⟨f1 - 3, by omega⟩
      obtain ⟨hnow, hlater⟩ := once_later env c y v ev honce
      obtain ⟨o, ho1, ho2, hy⟩ := hnow m
        ((w.setComp c { k with iter := some (Iter.live s1) }).emit
          (Obs.resumed c (resumeOf args))) hexc
      refine ⟨_, step_yields env (m + 2) w c k s s1 args y (some _) hexc hc hi hres hy,
        hexc, ?_⟩
      intro f2 hf2 extra he1 he2
      rw [hlen] at hf2
      obtain ⟨g, rfl⟩ : ∃ g, f2 = g + 1 := ⟨f2 - 1, by omega⟩
      obtain ⟨w0, hw0⟩ : ∃ w0 : World σ, w0 =
          { (((w.setComp c { k with iter := some (Iter.live s1) }).emit
              (Obs.resumed c (resumeOf args))).emit o) with
            trace := (((w.setComp c { k with iter := some (Iter.live s1) }).emit
              (Obs.resumed c (resumeOf args))).emit o).trace ++ extra } := ⟨_, rfl⟩
      have h0exc : w0.exc = none := by rw [hw0]; exact hexc
      have h0c : w0.comps c = some { k with iter := some (Iter.live s1) } := by
        rw [hw0]; simp
      have h0t : w0.trace = w.trace ++ [Obs.resumed c (resumeOf args)] ++ [o] ++ extra := by
        rw [hw0]; simp
      have h0q : w0.queue = w.queue := by rw [hw0]; rfl
      rw [← hw0]
      obtain ⟨w1, hstep, hexc1, hrun⟩ := ih s1 (Resume.next v) ret hrest w0
        { k with iter := some (Iter.live s1) } [Value.null, v] h0exc h0c rfl ht hargs
        g (by omega)
      obtain ⟨extra1, hx1, hx2, hh⟩ := hlater g w0 w1 h0exc hstep hexc1
      obtain ⟨w2, hw2, hd⟩ := hrun (g + 1) (by omega) extra1 hx1 hx2
      refine ⟨w2, ?_, ?_⟩
      · have hl : later ((y, v, some ev) :: rest) = ev :: later rest := rfl
        rw [hl, run_cons, hh]
        exact hw2
      · obtain ⟨d1, d2, d3, d4, d5⟩ := hd
        refine ⟨d1, d2, by rw [d3, h0q], ?_, ?_⟩
        · have hro : resumes c (o :: extra) = [] := by
            have := resumes_append c [o] extra
            simpa [ho1, he1] using this
          rw [d4, h0t]
          simp [resumes_append, resumes_resumed_self, resumes_nil, hro, resolved]
        · have hco : callbacks c (o :: extra) = [] := by
            have := callbacks_append c [o] extra
            simpa [ho2, he2] using this
          rw [d5, h0t]
          simp [callbacks_append, callbacks_resumed, callbacks_nil, hco]
/-- The entry `raco(gen, ...as, cb)` with a generator function and a callback: a new
computation in callback mode is created and stepped once. -/
theorem raco_callback_mode (env : Env σ) (n : Nat) (w : World σ) (sh : Shape) (id : Nat)
    (as : Args) (cbv : Value)
    (hexc : w.exc = none) (hfn : sh.fn = true) (hgen : sh.genFn = true)
    (hit : (sh.nextFn && sh.throwFn) = false) (hcf : isFunction cbv = true) :
    raco env (n + 2) w (Value.obj sh id) (as ++ [cbv])
      = step env n
          ({ w with fresh := w.fresh + 1 }.setComp w.fresh
            { iter := some (Iter.live (env.start id
                (if env.opts.prependNextArg then Value.next w.fresh :: as
                  else as ++ [Value.next w.fresh])))
              done := false, trycatch := true, ticking := false, parallel := none
              callback := cbv })
          w.fresh [] := by
  have hgf : isGeneratorFunction (Value.obj sh id) = true := by
    simp [isGeneratorFunction, hfn, hgen]
  have hig : isGenerator (Value.obj sh id) = false := hit
  have hif : isFunction (Value.obj sh id) = true := hfn
  have hid : (Value.obj sh id).ident = id := rfl
  unfold raco
  simp only [hexc, Option.isSome_none, Bool.false_eq_true, if_false, hgf, Bool.not_true,
    Bool.false_and]
  unfold _raco
  simp only [hexc, Option.isSome_none, Bool.false_eq_true, if_false, List.getLast?_concat,
    Option.getD_some, hcf, if_true, List.dropLast_concat, hig, hif, hid, Bool.not_true,
    Bool.and_false, Bool.not_false]

theorem some_getD {α : Type} (x : Option α) (d : α) (h : x.isSome = true) :
    x = some (x.getD d) := by
  cases x with
  | none => simp at h
  | some a => rfl

/-- A coroutine that returns a value accepted by `_yieldable`: `step` clears the coroutine
and what is left of it is the resolution of the returned value, with `step` as
continuation. -/
theorem step_returns_yieldable (env : Env σ) (m : Nat) (w : World σ) (c : Nat) (k : Comp σ)
    (s : σ) (args : Args) (r : Value) (x : Option (World σ))
    (hexc : w.exc = none) (hc : w.comps c = some k) (hi : k.iter = some (Iter.live s))
    (hres : env.resume s (resumeOf args) = ([], Outcome.ret r))
    (hy : _yieldable env m { w with
        comps := Function.update w.comps c (some { k with iter := none })
        trace := w.trace ++ [Obs.resumed c (resumeOf args)] } c r
      = x.map fun w1 => (w1, true)) :
    step env (m + 1) w c args = x := by
  have hres' : env.resume s (if truthy (arg args 0) = true then Resume.throw (arg args 0)
      else Resume.next (arg args 1)) = ([], Outcome.ret r) := hres
  have hy' : _yieldable env m { w with
        comps := Function.update w.comps c (some { k with iter := none })
        trace := w.trace ++ [Obs.resumed c (if truthy (arg args 0) = true then
          Resume.throw (arg args 0) else Resume.next (arg args 1))] } c r
      = x.map fun w1 => (w1, true) := hy
  simp only [hexc] at hy'
  unfold step
  simp only [hexc, hc, hi, Iter.resume, hres', Option.isSome_none, Bool.false_eq_true,
    if_false, List.foldlM_nil, Option.pure_def, World.emit, World.setComp, if_true,
    Function.update_same, Function.update_idem, hy']
  cases x with
  | none => rfl
  | some w4 =>
    simp only [Option.map_some', Bool.not_true, Bool.false_and, Bool.false_eq_true, if_false]
    cases w4.comps c <;> rfl

theorem wrapped_fst (p : String × Value) : (wrapped p).1 = p.1 := by
  unfold wrapped
  split <;> rfl

/-- A wrapper is not wrapped again. -/
theorem wrapped_idem (p : String × Value) : wrapped (wrapped p) = wrapped p := by
  unfold wrapped
  split <;> simp_all [wrap, isGeneratorFunction, isGenerator]

/-- The lookup of a key of a list with distinct keys finds its entry, also after the
values have been changed. -/
theorem lookup_map_of_mem (l r : List (String × Value)) (g : String × Value → String × Value)
    (hg : ∀ q, (g q).1 = q.1) (hnd : (l.map fun p => p.1).Nodup) (q : String × Value)
    (hq : q ∈ l) : (l.map g ++ r).lookup q.1 = some (g q).2 := by
  induction l with
  | nil => simp at hq
  | cons a l ih =>
    simp only [List.map_cons, List.nodup_cons] at hnd
    have ha : g a = ((g a).1, (g a).2) := rfl
    rw [List.map_cons, List.cons_append, ha, List.lookup_cons, hg]
    rcases List.mem_cons.1 hq with h | h
    · subst h
      simp
    · have hne : (q.1 == a.1) = false := by
        apply beq_false_of_ne
        intro he
        exact hnd.1 (he ▸ List.mem_map_of_mem (fun p => p.1) h)
      rw [hne]
      exact ih hnd.2 h

theorem lookup_map_none (l r : List (String × Value)) (g : String × Value → String × Value)
    (hg : ∀ q, (g q).1 = q.1) (key : String) (h1 : key ∉ l.map fun p => p.1)
    (h2 : key ∉ r.map fun p => p.1) : (l.map g ++ r).lookup key = none := by
  rw [List.lookup_eq_none_iff]
  intro p hp
  rcases List.mem_append.1 hp with h | h
  · obtain ⟨q, hq, rfl⟩ := List.mem_map.1 h
    rw [hg, bne_iff_ne]
    intro he
    exact h1 (he ▸ List.mem_map_of_mem (fun p => p.1) hq)
  · rw [bne_iff_ne]
    intro he
    exact h2 (he ▸ List.mem_map_of_mem (fun p => p.1) h)

/-- One iteration of the loop of `wrapAll` on an ordinary object: after the keys of `done`
have been visited, visiting `key` leaves the own properties wrapped at `key` and at
the keys of `done`. -/
theorem wrapKey_ordinary (userCall : Value → String → Option Bool) (o : Obj)
    (hb : o.builtin = true) (hown : "hasOwnProperty" ∉ o.own.map fun p => p.1)
    (hinh : "hasOwnProperty" ∉ o.inherited.map fun p => p.1)
    (hnd : (o.own.map fun p => p.1).Nodup) (done : List String) (key : String) :
    wrapKey userCall
        { o with own := o.own.map fun p => if p.1 ∈ done then wrapped p else p } key
      = some { o with own := o.own.map fun p => if p.1 ∈ key :: done then wrapped p else p } := by
  have hg : ∀ (S : List String) (q : String × Value),
      (if q.1 ∈ S then wrapped q else q).1 = q.1 := by
    intro S q
    split
    · exact wrapped_fst q
    · rfl
  unfold wrapKey Obj.hasOwnProperty
  simp only [lookup_map_none o.own o.inherited _ (hg done) _ hown hinh, hb, if_true,
    Option.map_some', Option.some.injEq]
  by_cases hk : ∃ q, q ∈ o.own ∧ q.1 = key
  · obtain ⟨q, hq, rfl⟩ := hk
    have hany : (o.own.map fun p => if p.1 ∈ done then wrapped p else p).any
        (fun p => p.1 == q.1) = true := by
      rw [List.any_eq_true]
      exact ⟨_, List.mem_map_of_mem _ hq, by simp [hg]⟩
    have hget : ∀ b, Obj.get { own := o.own.map fun p => if p.1 ∈ done then wrapped p else p
                               inherited := o.inherited, builtin := b }
        q.1 = (if q.1 ∈ done then wrapped q else q).2 := by
      intro b
      unfold Obj.get
      simp only [lookup_map_of_mem o.own o.inherited _ (hg done) hnd q hq, Option.getD_some]
    rw [hany, hget]
    have hsame : ∀ p, p ∈ o.own → p.1 = q.1 → p = q := by
      intro p hp he
      have := List.inj_on_of_nodup_map hnd hp hq he
      exact this
    by_cases hgen : (isGeneratorFunction (if q.1 ∈ done then wrapped q else q).2 ||
        isGenerator (if q.1 ∈ done then wrapped q else q).2) = true
    · simp only [hgen, Bool.and_self, if_true, Obj.set, hany]
      congr 1
      rw [List.map_map]
      apply List.map_congr_left
      intro p hp
      by_cases he : p.1 = q.1
      · have hpq := hsame p hp he
        subst hpq
        by_cases hd : p.1 ∈ done
        · simp only [hd, if_true] at hgen
          have := wrapped_idem p
          unfold wrapped at this hgen
          split at hgen <;> simp_all [wrap, isGeneratorFunction, isGenerator]
        · simp only [hd, if_false] at hgen
          simp [hd, hg, wrapped, hgen]
      · have hne : (p.1 == q.1) = false := beq_false_of_ne he
        simp [hg, hne, he]
    · simp only [hgen, Bool.and_false, Bool.false_eq_true, if_false]
      congr 1
      apply List.map_congr_left
      intro p hp
      by_cases he : p.1 = q.1
      · have hpq := hsame p hp he
        subst hpq
        by_cases hd : p.1 ∈ done
        · simp [hd]
        · simp only [hd, if_false] at hgen
          simp [hd, wrapped, hgen]
      · simp [he]
  · have hany : (o.own.map fun p => if p.1 ∈ done then wrapped p else p).any
        (fun p => p.1 == key) = false := by
      rw [Bool.eq_false_iff]
      intro h
      rw [List.any_eq_true] at h
      obtain ⟨p, hp, he⟩ := h
      obtain ⟨q, hq, rfl⟩ := List.mem_map.1 hp
      exact hk ⟨q, hq, by simpa [hg] using he⟩
    simp only [hany, Bool.false_and, Bool.false_eq_true, if_false]
    congr 1
    apply List.map_congr_left
    intro p hp
    have hne : p.1 ≠ key := fun he => hk ⟨p, hp, he⟩
    simp [hne]

/-- The loop of `wrapAll` on an ordinary object, over any list of keys. -/
theorem wrapKeys_ordinary (userCall : Value → String → Option Bool) (o : Obj)
    (hb : o.builtin = true) (hown : "hasOwnProperty" ∉ o.own.map fun p => p.1)
    (hinh : "hasOwnProperty" ∉ o.inherited.map fun p => p.1)
    (hnd : (o.own.map fun p => p.1).Nodup) (keys done : List String) :
    keys.foldlM (wrapKey userCall)
        { o with own := o.own.map fun p => if p.1 ∈ done then wrapped p else p }
      = some { o with
          own := o.own.map fun p => if p.1 ∈ keys.reverse ++ done then wrapped p else p } := by
  induction keys generalizing done with
  | nil => rfl
  | cons key keys ih =>
    rw [List.foldlM_cons, wrapKey_ordinary userCall o hb hown hinh hnd done key]
    simp only [Option.bind_eq_bind, Option.some_bind]
    rw [ih (key :: done)]
    simp

/-- On an object that inherits the built-in `hasOwnProperty` and has no enumerable
property of that name, `wrapAll` returns the reference that it was given; the own
properties keep their names and order, those that are generator functions or generator
objects are replaced by their wrappers and the others keep their values; nothing else
in the heap changes. -/
theorem wrapAll_ordinary (userCall : Value → String → Option Bool) (heap : Nat → Option Obj)
    (ref : Nat) (o : Obj) (hh : heap ref = some o)
    (hb : o.builtin = true) (hown : "hasOwnProperty" ∉ o.own.map fun p => p.1)
    (hinh : "hasOwnProperty" ∉ o.inherited.map fun p => p.1)
    (hnd : (o.own.map fun p => p.1).Nodup) :
    wrapAll userCall heap ref
      = some (Function.update heap ref (some { o with own := o.own.map wrapped }), ref) := by
  have h := wrapKeys_ordinary userCall o hb hown hinh hnd o.keys []
  have h0 : ({ o with own := o.own.map fun p => if p.1 ∈ ([] : List String) then wrapped p
      else p } : Obj) = o := by
    cases o; simp
  rw [h0] at h
  have hl : (o.own.map fun p => if p.1 ∈ o.keys.reverse ++ [] then wrapped p else p)
      = o.own.map wrapped := by
    apply List.map_congr_left
    intro p hp
    have : p.1 ∈ o.keys.reverse ++ [] := by
      simp only [List.append_nil, List.mem_reverse, Obj.keys, List.mem_append]
      exact Or.inl (List.mem_map_of_mem (fun p => p.1) hp)
    simp only [this, if_true]
  rw [hl] at h
  unfold wrapAll
  simp only [hh, h, Option.map_some']

/-- A call of a wrapper made by `raco.wrap` runs `_raco` on the wrapped value with the
arguments of the call. -/
theorem wrap_calls_raco (env : Env σ) (n : Nat) (w : World σ) (genFn : Value) (args : Args)
    (hexc : w.exc = none) :
    call env (n + 1) w (wrap genFn) args = _raco env n w genFn args := by
  simp [call, wrap, hexc]

/-- The first `next.push()` after a reset creates a group, with one slot. -/
theorem push_first (env : Env σ) (n : Nat) (w : World σ) (c : Nat) (k : Comp σ)
    (hexc : w.exc = none) (hc : w.comps c = some k) (hp : k.parallel = none) :
    act env (n + 1) w c Act.push
      = some { w with
          comps := Function.update w.comps c (some { k with parallel := some w.freshGroup })
          groups := Function.update w.groups w.freshGroup (some (freshSlots 1))
          freshGroup := w.freshGroup + 1 } := by
  simp [act, hexc, hc, hp, World.setComp, World.setGroup, freshSlots]

/-- A further `next.push()` appends a slot to the group of the computation. -/
theorem push_more (env : Env σ) (n : Nat) (w : World σ) (c : Nat) (k : Comp σ) (g : Nat)
    (grp : Group)
    (hexc : w.exc = none) (hc : w.comps c = some k) (hp : k.parallel = some g)
    (hg : w.groups g = some grp) :
    act env (n + 1) w c Act.push
      = some { w with
          groups := Function.update w.groups g (some { grp with slots := grp.slots ++ [none] }) } := by
  simp [act, hexc, hc, hp, hg, World.setGroup]

/-- After a reset, `j + 1` calls of `next.push()` make one new group with `j + 1` slots. -/
theorem push_many (env : Env σ) (n : Nat) (w : World σ) (c : Nat) (k : Comp σ)
    (hexc : w.exc = none) (hc : w.comps c = some k) (hp : k.parallel = none) (j : Nat) :
    (List.replicate (j + 1) Act.push).foldlM (fun w2 a => act env (n + 1) w2 c a) w
      = some { w with
          comps := Function.update w.comps c (some { k with parallel := some w.freshGroup })
          groups := Function.update w.groups w.freshGroup (some (freshSlots (j + 1)))
          freshGroup := w.freshGroup + 1 } := by
  induction j with
  | zero =>
    rw [show List.replicate (0 + 1) Act.push = [Act.push] from rfl, foldlM_one]
    exact push_first env n w c k hexc hc hp
  | succ j ih =>
    rw [List.replicate_succ', List.foldlM_append, ih]
    simp only [Option.bind_eq_bind, Option.some_bind, foldlM_one]
    rw [push_more env n _ c { k with parallel := some w.freshGroup } w.freshGroup
      (freshSlots (j + 1)) ?_ ?_ rfl ?_]
    · simp [freshSlots, List.replicate_succ']
    · exact hexc
    · simp
    · simp

theorem settledSlots_length (vals : List Value) (done : List Nat) :
    (settledSlots vals done).length = vals.length := by
  simp [settledSlots]

theorem settledSlots_getD (vals : List Value) (done : List Nat) (i : Nat)
    (hi : i < vals.length) :
    (settledSlots vals done).getD i none
      = if i ∈ done then some [Value.null, vals.getD i Value.undefined] else none := by
  simp [settledSlots, List.getD_eq_getElem?_getD, List.getElem?_map, List.getElem?_range hi]

theorem settledSlots_nil (vals : List Value) :
    settledSlots vals [] = List.replicate vals.length none := by
  apply List.ext_getElem
  · simp [settledSlots]
  · intro i h1 h2
    simp [settledSlots]

/-- Settling slot `i` with its value records it, whichever slots settled before. -/
theorem settle_slots (vals : List Value) (done : List Nat) (wt : Option (Bool × Value))
    (grp : Group) (i : Nat) (hi : i < vals.length) (hs : Settled vals done wt grp) :
    Settled vals (i :: done) wt (grp.settle i [Value.null, vals.getD i Value.undefined]) := by
  obtain ⟨h1, h2, h3, h4⟩ := hs
  unfold Group.settle
  rw [h1, settledSlots_getD vals done i hi]
  by_cases hd : i ∈ done
  · simp only [hd, if_true]
    refine ⟨?_, h2, h3, h4⟩
    rw [h1]
    unfold settledSlots
    apply List.map_congr_left
    intro m _
    by_cases hm : m = i
    · subst hm; simp [hd]
    · simp [hm]
  · simp only [hd, if_false]
    refine ⟨?_, ?_, h3, h4⟩
    · show (settledSlots vals done).set i _ = _
      apply List.ext_getElem
      · simp [settledSlots]
      · intro m hm1 hm2
        simp only [settledSlots, List.length_map, List.length_range, List.length_set] at hm1 hm2
        by_cases hm : i = m
        · subst hm
          simp [settledSlots]
        · have hm' : ¬ m = i := fun h => hm h.symm
          simp [settledSlots, List.getElem_set, hm, hm']
    · show grp.firstErr.orElse _ = none
      rw [h2]
      simp [arg, truthy]

/-- The report of `all` on a group without an error: nothing while a slot has not
settled, the values in push order once all have. -/
theorem report_settled (vals : List Value) (done : List Nat) (wt : Option (Bool × Value))
    (grp : Group) (hs : Settled vals done wt grp) :
    ((∀ m, m < vals.length → m ∈ done) →
      grp.report true = some [Value.null, Value.arr vals]) ∧
    ((∃ m, m < vals.length ∧ m ∉ done) → grp.report true = none) := by
  obtain ⟨h1, h2, _, _⟩ := hs
  constructor
  · intro hall
    have hsl : grp.slots = vals.map fun v => some [Value.null, v] := by
      rw [h1]
      apply List.ext_getElem
      · simp [settledSlots]
      · intro m hm1 hm2
        simp only [settledSlots, List.length_map, List.length_range] at hm1
        simp [settledSlots, hall m hm1, List.getD_eq_getElem?_getD, List.getElem?_eq_getElem hm1]
    unfold Group.report
    simp only [if_true, h2, hsl]
    simp [List.all_eq_true, arg, Function.comp_def]
  · rintro ⟨m, hm, hmd⟩
    unfold Group.report
    simp only [if_true, h2, h1]
    have : (settledSlots vals done).all Option.isSome = false := by
      rw [Bool.eq_false_iff]
      intro h
      rw [List.all_eq_true] at h
      have := h none (by
        unfold settledSlots
        rw [List.mem_map]
        exact ⟨m, List.mem_range.2 hm, by simp [hmd]⟩)
      simp at this
    simp [this]

/-- A slot that settles while the group does not report: the group records it and nothing
else happens. This is so while no continuation is registered, and while `all` still
waits for another slot. -/
theorem settle_quiet (env : Env σ) (n : Nat) (w : World σ) (g : Nat) (grp : Group)
    (vals : List Value) (done : List Nat) (wt : Option (Bool × Value)) (i : Nat)
    (hexc : w.exc = none) (hg : w.groups g = some grp) (hs : Settled vals done wt grp)
    (hi : i < vals.length)
    (hq : wt = none ∨ ((∃ κ, wt = some (true, κ)) ∧ ∃ m, m < vals.length ∧ m ∉ i :: done)) :
    call env (n + 2) w (Value.slot g i) [Value.null, vals.getD i Value.undefined]
      = some { w with
          groups := Function.update w.groups g
            (some (grp.settle i [Value.null, vals.getD i Value.undefined])) } := by
  have hs1 := settle_slots vals done wt grp i hi hs
  obtain ⟨grp1, hgrp1⟩ : ∃ grp1, grp1 = grp.settle i [Value.null, vals.getD i Value.undefined] :=
    ⟨_, rfl⟩
  rw [← hgrp1] at hs1 ⊢
  unfold call
  simp only [hexc, Option.isSome_none, Bool.false_eq_true, if_false]
  unfold settleGroup
  simp only [hg, ← hgrp1]
  rcases hq with rfl | ⟨⟨κ, rfl⟩, hm⟩
  · simp only [hs1.2.2.1, World.setGroup, hexc]
  · simp only [hs1.2.2.1, hs1.2.2.2, (report_settled vals _ _ _ hs1).2 hm, World.setGroup, hexc,
      Bool.false_eq_true, if_false]

/-- The slot that settles last while `all` waits: the group invokes `next` with the values
in push order, and `next`, with no tick pending, queues them. -/
theorem settle_fires (env : Env σ) (n : Nat) (w : World σ) (c g : Nat) (kc : Comp σ)
    (grp : Group) (vals : List Value) (done : List Nat) (i : Nat)
    (hexc : w.exc = none) (hc : w.comps c = some kc) (ht : kc.ticking = false)
    (hg : w.groups g = some grp)
    (hs : Settled vals done (some (true, Value.next c)) grp) (hi : i < vals.length)
    (hall : ∀ m, m < vals.length → m ∈ i :: done) :
    call env (n + 4) w (Value.slot g i) [Value.null, vals.getD i Value.undefined]
      = some { w with
          comps := Function.update w.comps c (some { kc with ticking := true })
          queue := w.queue ++ [(c, [Value.null, Value.arr vals])]
          groups := Function.update w.groups g
            (some { grp.settle i [Value.null, vals.getD i Value.undefined] with
              fired := true }) } := by
  have hs1 := settle_slots vals done _ grp i hi hs
  obtain ⟨grp1, hgrp1⟩ : ∃ grp1, grp1 = grp.settle i [Value.null, vals.getD i Value.undefined] :=
    ⟨_, rfl⟩
  rw [← hgrp1] at hs1 ⊢
  unfold call
  simp only [hexc, Option.isSome_none, Bool.false_eq_true, if_false]
  unfold settleGroup
  simp only [hg, ← hgrp1, hs1.2.2.1, hs1.2.2.2, (report_settled vals _ _ _ hs1).1 hall,
    Bool.false_eq_true, if_false]
  simp [call, next, World.setGroup, World.setComp, hexc, hc, ht]

/-- The call `next.all()` while a slot of the group has not settled: the continuation is
registered on the group and the computation forgets the group. -/
theorem all_registers (env : Env σ) (n : Nat) (w : World σ) (c g : Nat) (kc : Comp σ)
    (grp : Group) (vals : List Value) (done : List Nat)
    (hexc : w.exc = none) (hc : w.comps c = some kc) (hp : kc.parallel = some g)
    (hg : w.groups g = some grp) (hs : Settled vals done none grp)
    (hm : ∃ m, m < vals.length ∧ m ∉ done) :
    act env (n + 2) w c Act.all
      = some { w with
          comps := Function.update w.comps c (some { kc with parallel := none })
          groups := Function.update w.groups g
            (some { grp with waiter := some (true, Value.next c) }) } ∧
    Settled vals done (some (true, Value.next c))
      { grp with waiter := some (true, Value.next c) } := by
  have hs1 : Settled vals done (some (true, Value.next c))
      { grp with waiter := some (true, Value.next c) } := ⟨hs.1, hs.2.1, rfl, hs.2.2.2⟩
  refine ⟨?_, hs1⟩
  obtain ⟨grp1, hgrp1⟩ : ∃ grp1, grp1 = { grp with waiter := some (true, Value.next c) } :=
    ⟨_, rfl⟩
  rw [← hgrp1] at hs1 ⊢
  unfold act
  simp only [hexc, hc, hp, Option.isSome_none, Bool.false_eq_true, if_false]
  unfold settleGroup
  simp only [hg, ← hgrp1, hs1.2.2.1, hs1.2.2.2, (report_settled vals _ _ _ hs1).2 hm,
    Bool.false_eq_true, if_false]
  simp [World.setGroup, World.setComp, hexc, hc]

/-- The call `next.all()` when every slot of the group has settled: `next` is invoked
with the values in push order and, with no tick pending, queues them. -/
theorem all_fires (env : Env σ) (n : Nat) (w : World σ) (c g : Nat) (kc : Comp σ)
    (grp : Group) (vals : List Value) (done : List Nat)
    (hexc : w.exc = none) (hc : w.comps c = some kc) (hp : kc.parallel = some g)
    (ht : kc.ticking = false)
    (hg : w.groups g = some grp) (hs : Settled vals done none grp)
    (hall : ∀ m, m < vals.length → m ∈ done) :
    act env (n + 4) w c Act.all
      = some { w with
          comps := Function.update w.comps c
            (some { kc with ticking := true, parallel := none })
          queue := w.queue ++ [(c, [Value.null, Value.arr vals])]
          groups := Function.update w.groups g
            (some { grp with waiter := some (true, Value.next c), fired := true }) } := by
  have hs1 : Settled vals done (some (true, Value.next c))
      { grp with waiter := some (true, Value.next c) } := ⟨hs.1, hs.2.1, rfl, hs.2.2.2⟩
  obtain ⟨grp1, hgrp1⟩ : ∃ grp1, grp1 = { grp with waiter := some (true, Value.next c) } :=
    ⟨_, rfl⟩
  have hfired : ({ grp with waiter := some (true, Value.next c), fired := true } : Group)
      = { grp1 with fired := true } := by rw [hgrp1]
  rw [hfired]
  rw [← hgrp1] at hs1
  unfold act
  simp only [hexc, hc, hp, Option.isSome_none, Bool.false_eq_true, if_false]
  unfold settleGroup
  simp only [hg, ← hgrp1, hs1.2.2.1, hs1.2.2.2, (report_settled vals _ _ _ hs1).1 hall,
    Bool.false_eq_true, if_false]
  simp [call, next, World.setGroup, World.setComp, hexc, hc, ht, hs.2.2.2, hgrp1]

theorem perform_pushes (env : Env σ) (n c g : Nat) (vals : List Value) (j : Nat)
    (w : World σ) :
    (List.replicate j GroupOp.push).foldlM (perform env n c g vals) w
      = (List.replicate j Act.push).foldlM (fun w2 a => act env n w2 c a) w := by
  induction j generalizing w with
  | zero => rfl
  | succ j ih =>
    simp only [List.replicate_succ, List.foldlM_cons, perform]
    cases act env n w c Act.push with
    | none => rfl
    | some w1 => exact ih w1

/-- Slots that settle with their values, in any order, while no continuation is
registered: the group records them and nothing else happens. -/
theorem settle_many_quiet (env : Env σ) (n c g : Nat) (vals : List Value) (S : List Nat) :
    ∀ (done : List Nat) (w : World σ) (grp : Group), w.exc = none → w.groups g = some grp →
      Settled vals done none grp → (∀ i, i ∈ S → i < vals.length) →
      ∃ grp1, (S.map GroupOp.settle).foldlM (perform env (n + 2) c g vals) w
          = some { w with groups := Function.update w.groups g (some grp1) } ∧
        Settled vals (S.reverse ++ done) none grp1 := by
  induction S with
  | nil =>
    intro done w grp _ hg hs _
    refine ⟨grp, ?_, by simpa using hs⟩
    rw [← hg, Function.update_eq_self]
    rfl
  | cons i S ih =>
    intro done w grp hexc hg hs hlt
    have hi : i < vals.length := hlt i (List.mem_cons_self _ _)
    have h1 := settle_quiet env n w g grp vals done none i hexc hg hs hi (Or.inl rfl)
    obtain ⟨grp1, h2, hs2⟩ := ih (i :: done)
      { w with
        groups := Function.update w.groups g
          (some (grp.settle i [Value.null, vals.getD i Value.undefined])) }
      _ hexc (Function.update_same _ _ _) (settle_slots vals done none grp i hi hs)
      (fun m hm => hlt m (List.mem_cons_of_mem _ hm))
    refine ⟨grp1, ?_, by simpa using hs2⟩
    rw [List.map_cons, List.foldlM_cons]
    simp only [perform]
    rw [h1]
    simp only [Option.bind_eq_bind, Option.some_bind]
    rw [h2]
    simp [Function.update_idem]

/-- Slots that settle with their values, in any order, while `all` waits for exactly them:
the last one makes the group invoke `next` with the values in push order, and `next`,
with no tick pending, queues them. -/
theorem settle_many_waiting (env : Env σ) (n c g : Nat) (kc : Comp σ) (vals : List Value)
    (S : List Nat) :
    ∀ (done : List Nat) (w : World σ) (grp : Group), w.exc = none → w.comps c = some kc →
      kc.ticking = false → w.groups g = some grp →
      Settled vals done (some (true, Value.next c)) grp → S ≠ [] → S.Nodup →
      (∀ i, i ∈ S → i < vals.length ∧ i ∉ done) →
      (∀ m, m < vals.length → m ∈ S ∨ m ∈ done) →
      ∃ grp1, (S.map GroupOp.settle).foldlM (perform env (n + 4) c g vals) w
          = some { w with
              comps := Function.update w.comps c (some { kc with ticking := true })
              queue := w.queue ++ [(c, [Value.null, Value.arr vals])]
              groups := Function.update w.groups g (some grp1) } := by
  induction S with
  | nil => intro _ _ _ _ _ _ _ _ h; exact absurd rfl h
  | cons i S ih =>
    intro done w grp hexc hc ht hg hs _ hnd hlt hcov
    have hi : i < vals.length := (hlt i (List.mem_cons_self _ _)).1
    rw [List.map_cons, List.foldlM_cons]
    simp only [perform]
    cases S with
    | nil =>
      have hall : ∀ m, m < vals.length → m ∈ i :: done := by
        intro m hm
        rcases hcov m hm with h | h
        · simp only [List.mem_singleton] at h
          subst h
          exact List.mem_cons_self _ _
        · exact List.mem_cons_of_mem _ h
      rw [settle_fires env n w c g kc grp vals done i hexc hc ht hg hs hi hall]
      exact ⟨_, rfl⟩
    | cons j S =>
      have hj : j < vals.length ∧ j ∉ done :=
        hlt j (List.mem_cons_of_mem _ (List.mem_cons_self _ _))
      have hji : j ≠ i := by
        intro h
        subst h
        exact (List.nodup_cons.1 hnd).1 (List.mem_cons_self _ _)
      have hm : ∃ m, m < vals.length ∧ m ∉ i :: done :=
        ⟨j, hj.1, by simp [hji, hj.2]⟩
      rw [settle_quiet env (n + 2) w g grp vals done _ i hexc hg hs hi
        (Or.inr ⟨⟨_, rfl⟩, hm⟩)]
      simp only [Option.bind_eq_bind, Option.some_bind]
      obtain ⟨grp1, h2⟩ := ih (i :: done)
        { w with
          groups := Function.update w.groups g
            (some (grp.settle i [Value.null, vals.getD i Value.undefined])) }
        _ hexc hc ht (Function.update_same _ _ _)
        (settle_slots vals done _ grp i hi hs) (List.cons_ne_nil _ _)
        (List.nodup_cons.1 hnd).2
        (fun m hm1 => ⟨(hlt m (List.mem_cons_of_mem _ hm1)).1, by
          intro h
          rcases List.mem_cons.1 h with h | h
          · subst h
            exact (List.nodup_cons.1 hnd).1 hm1
          · exact (hlt m (List.mem_cons_of_mem _ hm1)).2 h⟩)
        (fun m hm1 => by
          rcases hcov m hm1 with h | h
          · rcases List.mem_cons.1 h with h | h
            · subst h
              exact Or.inr (List.mem_cons_self _ _)
            · exact Or.inl h
          · exact Or.inr (List.mem_cons_of_mem _ h))
      refine ⟨grp1, ?_⟩
      rw [h2]
      simp [Function.update_idem]

/-- The queued task of a computation whose coroutine is still referenced resumes it with
the queued arguments. -/
theorem tick_resumes (env : Env σ) (m : Nat) (w w1 : World σ) (c : Nat) (k : Comp σ)
    (it : Iter σ) (args : Args) (rest : List (Nat × Args))
    (hexc : w.exc = none) (hq : w.queue = (c, args) :: rest) (hc : w.comps c = some k)
    (hi : k.iter = some it) (h : tick env m w = some w1) :
    ∃ tr, w1.trace = w.trace ++ Obs.tick c args :: Obs.resumed c (resumeOf args) :: tr := by
  unfold tick at h
  simp only [hq, hc] at h
  have hlive := fun hx hy =>
    step_live_resumes env m _ w1 c { k with ticking := false } it args hx hy hi h
  obtain ⟨tr, htr⟩ := hlive hexc (by simp [World.emit, World.setComp])
  exact ⟨tr, by simpa [World.emit, World.setComp] using htr⟩

/-! ## The claims -/

/-- C2. In callback mode (`trycatch` is set) a call `step(err, val)` on a computation
whose coroutine is still referenced resumes it with `iter.throw(err)` when `err` is
truthy; and whenever the resumption raises `e` (whatever the body called before, and
also when `e` is the injected error that the body did not handle), all that `step`
still does is to mark the computation done and to invoke the outer callback with
exactly `[e]`: for a user function as callback, the invocation is the last thing
recorded. -/
theorem step_error_paths (env : Env σ) (n : Nat) (w : World σ) (c : Nat) (k : Comp σ)
    (it : Iter σ) (args : Args)
    (hexc : w.exc = none) (hc : w.comps c = some k) (hi : k.iter = some it) :
    (truthy (arg args 0) = true → ∀ w1, step env (n + 2) w c args = some w1 →
      ∃ tr, w1.trace = w.trace ++ Obs.resumed c (Resume.throw (arg args 0)) :: tr) ∧
    (∀ (acts : List Act) (e : Value) (it1 : Iter σ) (w2 : World σ) (k2 : Comp σ),
      it.resume env (resumeOf args) = (acts, Result.thrown e, it1) →
      acts.foldlM (fun w1 a => act env (n + 1) w1 c a)
        ((w.setComp c { k with iter := some it1 }).emit (Obs.resumed c (resumeOf args)))
        = some w2 →
      w2.exc = none → w2.comps c = some k2 → k2.trycatch = true →
      step env (n + 2) w c args
        = call env (n + 1)
            ((w2.setComp c { k2 with done := true }).emit (Obs.callback c [e]))
            k2.callback [e] ∧
      ∀ (sh : Shape) (id : Nat), k2.callback = Value.obj sh id → sh.fn = true →
        env.fnSync id = [] →
        step env (n + 2) w c args
          = some (((w2.setComp c { k2 with done := true }).emit (Obs.callback c [e])).emit
              (Obs.invoked id [e]))) := by
  constructor
  · intro ht w1 h
    obtain ⟨tr, htr⟩ := step_live_resumes env _ w w1 c k it args hexc hc hi h
    exact ⟨tr, by simpa [resumeOf, ht] using htr⟩
  · intro acts e it1 w2 k2 hres hacts hexc2 hc2 htry
    have hres' : it.resume env (if truthy (arg args 0) = true then Resume.throw (arg args 0)
        else Resume.next (arg args 1)) = (acts, Result.thrown e, it1) := hres
    have hacts' : acts.foldlM (fun w1 a => act env (n + 1) w1 c a)
        ((w.setComp c { k with iter := some it1 }).emit
          (Obs.resumed c (if truthy (arg args 0) = true then Resume.throw (arg args 0)
            else Resume.next (arg args 1)))) = some w2 := hacts
    have hw2 : ({ w2 with exc := none } : World σ) = w2 := by
      cases w2
      simp_all
    have hstep : step env (n + 2) w c args
        = call env (n + 1)
            ((w2.setComp c { k2 with done := true }).emit (Obs.callback c [e]))
            k2.callback [e] := by
      unfold step
      simp only [hexc, hc, hi, hres', hacts', hexc2, World.finishIter_of_none, hc2, htry, hw2,
        Option.isSome_none, Bool.false_eq_true, if_false, if_true]
    refine ⟨hstep, ?_⟩
    intro sh id hcb hfn hsync
    rw [hstep, hcb]
    simp [call, hexc2, hfn, hsync]

/-- C2 at a concrete input: thunk 7 reports `boom` and the coroutine of `envA` does not
catch it. -/
theorem step_error_paths_witness :
    (∃ tr, ((((worldA.setComp 0 { compA with iter := some Iter.finished }).emit
          (Obs.resumed 0 (Resume.throw boom))).setComp 0
            { compA with iter := some Iter.finished, done := true }).emit
          (Obs.callback 0 [boom]) |>.emit (Obs.invoked 9 [boom])).trace
        = worldA.trace ++ Obs.resumed 0 (Resume.throw boom) :: tr) ∧
    step envA 2 worldA 0 [boom]
      = some ((((worldA.setComp 0 { compA with iter := some Iter.finished }).emit
          (Obs.resumed 0 (Resume.throw boom))).setComp 0
            { compA with iter := some Iter.finished, done := true }).emit
          (Obs.callback 0 [boom]) |>.emit (Obs.invoked 9 [boom])) :=
  have h := step_error_paths envA 0 worldA 0 compA (Iter.live 1) [boom] rfl rfl rfl
  ⟨h.1 rfl _ rfl, (h.2 [] boom Iter.finished _ _ rfl rfl rfl rfl rfl).2 fnShape 9 rfl rfl rfl⟩
/-- C5. When `next` is invoked while a tick is pending on a computation whose coroutine is
still referenced and whose outer callback has not fired, all it does is to clear the
coroutine, mark the computation done and invoke the outer callback with the error
`Multiple callbacks within one iteration`. Whatever happens afterwards (the pending
tick, later calls of `step` or `next`, any other event) the coroutine is never resumed
again and the outer callback is not invoked again. For a user function as callback the
call returns with the invocation recorded and the pending task still queued. -/
theorem next_while_ticking (env : Env σ) (n : Nat) (w : World σ) (c : Nat) (k : Comp σ)
    (it : Iter σ) (args : Args)
    (hexc : w.exc = none) (hlt : c < w.fresh) (hc : w.comps c = some k)
    (ht : k.ticking = true) (hi : k.iter = some it) (hd : k.done = false) :
    next env (n + 3) w c args
      = call env (n + 1)
          ((w.setComp c { k with iter := none, done := true }).emit
            (Obs.callback c [multipleCallbacks]))
          k.callback [multipleCallbacks] ∧
    (∀ w1, next env (n + 3) w c args = some w1 →
      ∀ m evs w2, run env m w1 evs = some w2 →
        resumes c w2.trace = resumes c w.trace ∧
        callbacks c w2.trace = callbacks c w.trace ++ [[multipleCallbacks]] ∧
        ∃ k2, w2.comps c = some k2 ∧ k2.iter = none) ∧
    (∀ (sh : Shape) (id : Nat), k.callback = Value.obj sh id → sh.fn = true →
      env.fnSync id = [] →
      ∃ w1, next env (n + 3) w c args = some w1 ∧
        w1.trace = w.trace ++ [Obs.callback c [multipleCallbacks],
          Obs.invoked id [multipleCallbacks]] ∧
        w1.queue = w.queue ∧
        w1.comps c = some { k with iter := none, done := true }) := by
  have hnext : next env (n + 3) w c args
      = call env (n + 1)
          ((w.setComp c { k with iter := none, done := true }).emit
            (Obs.callback c [multipleCallbacks]))
          k.callback [multipleCallbacks] := by
    simp [next, step, hexc, hc, ht, hi, hd, World.setComp, World.emit]
  have hdead : Dead c ((w.setComp c { k with iter := none, done := true }).emit
      (Obs.callback c [multipleCallbacks])) :=
    ⟨hlt, { k with iter := none, done := true }, by simp, rfl, rfl⟩
  refine ⟨hnext, ?_, ?_⟩
  · intro w1 h1 m evs w2 h2
    rw [hnext] at h1
    obtain ⟨hd1, hr1, hc1⟩ := (deadAt env c (n + 1)).1 _ _ _ _ h1 hdead
    obtain ⟨⟨_, k2, hk2, hi2, _⟩, hr, hcbs⟩ := run_same env c m evs _ _ h2 hd1
    refine ⟨?_, ?_, k2, hk2, hi2⟩
    · rw [hr, hr1]
      simp [resumes, List.filterMap_append]
    · rw [hcbs, hc1]
      simp [callbacks, List.filterMap_append]
  · intro sh id hcb hfn hsync
    refine ⟨((w.setComp c { k with iter := none, done := true }).emit
        (Obs.callback c [multipleCallbacks])).emit (Obs.invoked id [multipleCallbacks]),
      ?_, by simp, rfl, by simp⟩
    rw [hnext, hcb]
    simp [call, hexc, hfn, hsync]

/-- C8. Whatever reason a promise rejects with or an observable fails with, the handler
that `_yieldable` registered passes `reason || new Error()` to the continuation: a
truthy value, the reason itself when it is truthy and a fresh `Error` otherwise; so
`step` resumes a coroutine that is still referenced with `iter.throw`, never with
`iter.next`. The same holds for a thenable that rejects inside `then`. -/
theorem rejection_normalised (env : Env σ) (n : Nat) (w : World σ) (c : Nat) (k : Comp σ)
    (it : Iter σ) (reason : Value)
    (hexc : w.exc = none) (hc : w.comps c = some k) (hi : k.iter = some it) :
    truthy (orError reason) = true ∧
    (truthy reason = true → orError reason = reason) ∧
    (truthy reason = false → orError reason = Value.error "") ∧
    (∀ h w1, h = Handler.rejected ∨ h = Handler.failed →
      call env (n + 1) w (Value.handler h c) [reason] = some w1 →
      ∃ tr, w1.trace = w.trace ++ Obs.resumed c (Resume.throw (orError reason)) :: tr) ∧
    (∀ sh id r, sh.thenFn = true → env.thenSync id = [(false, reason)] →
      _yieldable env (n + 2) w c (Value.obj sh id) = some r →
      ∃ tr, r.1.trace = w.trace ++ Obs.thenCalled id c ::
        Obs.resumed c (Resume.throw (orError reason)) :: tr) := by
  have hthrow : resumeOf [orError reason] = Resume.throw (orError reason) := by
    simp [resumeOf, arg, truthy_orError]
  refine ⟨truthy_orError reason, ?_, ?_, ?_, ?_⟩
  · intro h; simp [orError, h]
  · intro h; simp [orError, h]
  · intro h w1 hh hcall
    unfold call at hcall
    rcases hh with rfl | rfl
    · simp only [hexc, Option.isSome_none, Bool.false_eq_true, if_false] at hcall
      obtain ⟨tr, htr⟩ := step_live_resumes env _ w w1 c k it _ hexc hc hi hcall
      exact ⟨tr, by simpa [hthrow, arg] using htr⟩
    · simp only [hexc, Option.isSome_none, Bool.false_eq_true, if_false,
        Option.map_eq_some'] at hcall
      obtain ⟨w2, h2, rfl⟩ := hcall
      obtain ⟨tr, htr⟩ := step_live_resumes env _ w w2 c k it _ hexc hc hi h2
      split
      · exact ⟨tr, by simpa [hthrow, arg] using htr⟩
      · exact ⟨tr ++ [Obs.disposed c], by simp [World.emit, htr, hthrow, arg]⟩
  · intro sh id r hthen hsync hy
    unfold _yieldable at hy
    simp only [hexc, Option.isSome_none, Bool.false_eq_true, if_false, isPromise, hthen,
      if_true, Value.ident, hsync, foldlM_one, Option.map_eq_some'] at hy
    obtain ⟨w2, h2, rfl⟩ := hy
    unfold call at h2
    have hexc1 : (w.emit (Obs.thenCalled id c)).exc = none := hexc
    simp only [hexc1, Option.isSome_none, Bool.false_eq_true, if_false] at h2
    obtain ⟨tr, htr⟩ := step_live_resumes env _ _ w2 c k it _ hexc1 hc hi h2
    exact ⟨tr, by simpa [hthrow, arg, World.emit] using htr⟩
/-- C10. On a computation with no parallel group and no tick pending, `next.all()` queues
the continuation with `(null, [])` and `next.any()` queues it with `(null, null)`; no
group is created or consulted and `parallel` stays absent. So a coroutine that makes
this call and then yields a value that is not yieldable is resumed, by the queued
task, with the empty array, respectively with `null`. -/
theorem all_any_without_group (env : Env σ) (n : Nat) (w : World σ) (c : Nat) (k : Comp σ)
    (a : Act) (v : Value)
    (ha : (a = Act.all ∧ v = Value.arr []) ∨ (a = Act.any ∧ v = Value.null))
    (hexc : w.exc = none) (hc : w.comps c = some k) (ht : k.ticking = false)
    (hp : k.parallel = none) :
    act env (n + 2) w c a
      = some { w.setComp c { k with ticking := true } with
               queue := w.queue ++ [(c, [Value.null, v])] } ∧
    (∀ (s s1 : σ) (args : Args) (y : Value),
      k.iter = some (Iter.live s) →
      env.resume s (resumeOf args) = ([a], Outcome.yield y s1) →
      isPromise y = false → isGeneratorFunction y = false → isGenerator y = false →
      isFunction y = false → isObservable y = false → env.opts.yieldable = none →
      w.queue = [] →
      ∃ w1, step env (n + 3) w c args = some w1 ∧
        w1.comps c = some { k with iter := some (Iter.live s1), ticking := true } ∧
        w1.queue = [(c, [Value.null, v])] ∧
        w1.groups = w.groups ∧ w1.freshGroup = w.freshGroup ∧
        w1.trace = w.trace ++ [Obs.resumed c (resumeOf args)] ∧
        ∀ m w2, tick env m w1 = some w2 →
          ∃ tr, w2.trace = w1.trace ++ Obs.tick c [Value.null, v] ::
            Obs.resumed c (Resume.next v) :: tr) := by
  have hact : ∀ (w0 : World σ) (k0 : Comp σ), w0.exc = none → w0.comps c = some k0 →
      k0.ticking = false → k0.parallel = none →
      act env (n + 2) w0 c a
        = some { w0.setComp c { k0 with ticking := true } with
                 queue := w0.queue ++ [(c, [Value.null, v])] } := by
    intro w0 k0 h1 h2 h3 h4
    rcases ha with ⟨rfl, rfl⟩ | ⟨rfl, rfl⟩ <;> simp [act, next, h1, h2, h3, h4]
  refine ⟨hact w k hexc hc ht hp, ?_⟩
  intro s s1 args y hi hres h1 h2 h3 h4 h5 hhook hq
  have hres' : env.resume s (if truthy (arg args 0) = true then Resume.throw (arg args 0)
      else Resume.next (arg args 1)) = ([a], Outcome.yield y s1) := hres
  have hstep : step env (n + 3) w c args
      = some { (w.setComp c { k with iter := some (Iter.live s1), ticking := true }).emit
                 (Obs.resumed c (resumeOf args)) with
               queue := w.queue ++ [(c, [Value.null, v])] } := by
    unfold step
    simp only [hexc, hc, hi, Iter.resume, hres', Option.isSome_none, Bool.false_eq_true,
      if_false, foldlM_one]
    rw [hact _ { k with iter := some (Iter.live s1) } (by simp [World.emit, World.setComp, hexc])
      (by simp [World.emit, World.setComp]) ht hp]
    simp [_yieldable, World.emit, World.setComp, hexc, h1, h2, h3, h4, h5, hhook, resumeOf]
  refine ⟨_, hstep, by simp [World.emit, World.setComp], by simp [World.emit, World.setComp, hq],
    rfl, rfl, by simp [World.emit, World.setComp], ?_⟩
  intro m w2 htick
  unfold tick at htick
  simp only [World.emit, World.setComp, hq, List.nil_append, Function.update_same] at htick
  have hlive := fun hx hy =>
    step_live_resumes env m _ w2 c
      { k with iter := some (Iter.live s1), ticking := false } (Iter.live s1)
      [Value.null, v] hx hy rfl htick
  obtain ⟨tr, htr⟩ := hlive hexc (by simp)
  exact ⟨tr, by simpa [resumeOf, arg, truthy, World.emit, World.setComp] using htr⟩
/-- C7. `_yieldable` applies the one resolution strategy that the specification's
classification selects: the first match in the order promise, nested coroutine, thunk,
observable, then the custom hook if one is configured. It returns `true` for the four
built-in classes, the hook's result for the custom class and `false` when nothing
matches and no hook is configured. A thenable is resolved by `then` alone, also when it
is callable: with nothing reported inside `then`, the call of `then` is all that
happens. -/
theorem yieldable_first_match (env : Env σ) (n : Nat) (w : World σ) (c : Nat) (val : Value)
    (hexc : w.exc = none) :
    _yieldable env (n + 1) w c val
      = resolveBy env n w c val (classify env.opts.yieldable.isSome val) ∧
    (∀ r, _yieldable env (n + 1) w c val = some r →
      r.2 = acknowledged env val (classify env.opts.yieldable.isSome val)) ∧
    (∀ sh id, val = Value.obj sh id → sh.thenFn = true → env.thenSync id = [] →
      _yieldable env (n + 1) w c val = some (w.emit (Obs.thenCalled id c), true)) := by
  have hmain : _yieldable env (n + 1) w c val
      = resolveBy env n w c val (classify env.opts.yieldable.isSome val) := by
    unfold _yieldable
    simp only [hexc, Option.isSome_none, Bool.false_eq_true, if_false]
    by_cases h1 : isPromise val = true
    · simp [classify, detectors, List.find?, h1, resolveBy]
    · by_cases h2 : (isGeneratorFunction val || isGenerator val) = true
      · simp [classify, detectors, List.find?, h1, h2, resolveBy]
      · by_cases h3 : isFunction val = true
        · simp [classify, detectors, List.find?, h1, h2, h3, resolveBy]
        · by_cases h4 : isObservable val = true
          · simp [classify, detectors, List.find?, h1, h2, h3, h4, resolveBy]
          · cases hh : env.opts.yieldable <;>
              simp [classify, detectors, List.find?, h1, h2, h3, h4, resolveBy, hh]
  refine ⟨hmain, ?_, ?_⟩
  · intro r hr
    rw [hmain] at hr
    cases hs : classify env.opts.yieldable.isSome val <;> rw [hs] at hr <;>
      simp only [resolveBy, Option.map_eq_some'] at hr
    · obtain ⟨w1, _, rfl⟩ := hr; rfl
    · obtain ⟨w1, _, rfl⟩ := hr; rfl
    · obtain ⟨w1, _, rfl⟩ := hr; rfl
    · cases hr; rfl
    · cases hh : env.opts.yieldable with
      | none => simp [hh] at hr; subst hr; simp [acknowledged, hh]
      | some hook =>
        simp only [hh, Option.map_eq_some'] at hr
        obtain ⟨w1, _, rfl⟩ := hr
        simp [acknowledged, hh]
    · cases hr; rfl
  · intro sh id hv hthen hsync
    subst hv
    unfold _yieldable
    simp [hexc, isPromise, hthen, Value.ident, hsync]
/-- C3, evaluated. The thunk of `envB` reports two errors synchronously and the coroutine
catches neither: the outer callback is invoked twice, by the `catch` branch of `step`
(lines 120-124) both times. The coroutine of `envB2` calls `next` twice and then
raises: the outer callback is invoked with the multiple-callback error and then, by the
`catch` branch, with what was raised. -/
theorem callback_invoked_twice :
    (run envB 10 World.empty [Event.raco gen [cb], Event.tick]).map
        (fun w => (callbacks 0 w.trace, resumes 0 w.trace))
      = some ([[Value.error "a"], [Value.error "b"]],
          [Resume.next Value.undefined, Resume.throw (Value.error "a"),
            Resume.throw (Value.error "b")]) ∧
    (run envB2 10 World.empty [Event.raco gen [cb], Event.tick]).map
        (fun w => (callbacks 0 w.trace, resumes 0 w.trace))
      = some ([[multipleCallbacks], [boom]], [Resume.next Value.undefined]) :=
  ⟨rfl, rfl⟩

/-- C4 refuted. The thunk of `envC` invokes its continuation twice synchronously: the
coroutine is resumed by both invocations and the outer callback receives
`(null, [1, 2])`, not the multiple-callback error. -/
theorem thunk_twice_resumes_twice :
    (run envC 12 World.empty [Event.raco gen [cb], Event.tick]).map
        (fun w => (resumes 0 w.trace, callbacks 0 w.trace))
      = some ([Resume.next Value.undefined, Resume.next (Value.num 1),
            Resume.next (Value.num 2)],
          [[Value.null, Value.arr [Value.num 1, Value.num 2]]]) := by
  rfl

/-- C9 refuted. The thunk of `envD` reports synchronously: within the single call
`raco(gen, cb)`, before any queued task has run, the coroutine is resumed a second
time, with 42. -/
theorem resolver_resumes_synchronously :
    (run envD 10 World.empty [Event.raco gen [cb]]).map
        (fun w => (w.trace, tickDriven w.trace))
      = some ([Obs.resumed 0 (Resume.next Value.undefined), Obs.invoked 7 [Value.step 0],
            Obs.resumed 0 (Resume.next (Value.num 42))], false) := by
  rfl

/-- The world `worldA` is where `raco(gen, cb)` leaves the program of `envA`. -/
theorem worldA_reached :
    (run envA 5 World.empty [Event.raco gen [cb]]).map
        (fun w => (w.trace, w.comps 0, w.fresh, w.queue, w.exc))
      = some (worldA.trace, worldA.comps 0, worldA.fresh, worldA.queue, worldA.exc) := by
  rfl
/-- A call of `step` on a computation that has cleared its coroutine and has not fired
its outer callback starts by firing it with the arguments of the call. -/
theorem step_cleared_calls_back (env : Env σ) (m : Nat) (w w1 : World σ) (c : Nat)
    (k : Comp σ) (args : Args)
    (hexc : w.exc = none) (hc : w.comps c = some k) (hi : k.iter = none)
    (hd : k.done = false) (h : step env m w c args = some w1) :
    ∃ tr, w1.trace = w.trace ++ Obs.callback c args :: tr := by
  cases m with
  | zero => simp [step] at h
  | succ n =>
    unfold step at h
    simp only [hexc, hc, hi, hd, Option.isSome_none, Bool.false_eq_true, if_false] at h
    obtain ⟨tr, htr⟩ := call_grows _ _ _ _ _ _ h
    exact ⟨tr, by simp [← htr, World.emit, World.setComp]⟩

/-- C4, amended. A thunk is handed `step` itself, so a thunk that invokes its continuation
twice synchronously makes two plain calls of `step`, and no multiple-callback error is
raised for the second: it resumes the coroutine again when the coroutine is still
referenced after the first, and it fires the outer callback with its own arguments
when the first has made the coroutine return without the callback having fired. -/
theorem thunk_twice (env : Env σ) (n : Nat) (w : World σ) (c : Nat) (sh : Shape) (id : Nat)
    (a1 a2 : Args)
    (hexc : w.exc = none) (hthen : sh.thenFn = false) (hgen : sh.genFn = false)
    (hit : (sh.nextFn && sh.throwFn) = false) (hfn : sh.fn = true)
    (hsync : env.fnSync id = [a1, a2]) :
    _yieldable env (n + 4) w c (Value.obj sh id)
      = ((step env (n + 1) (w.emit (Obs.invoked id [Value.step c])) c a1).bind
          fun w1 => step env (n + 1) w1 c a2).map (fun w2 => (w2, true)) ∧
    (∀ w1 w2, w1.exc = none → step env (n + 1) w1 c a2 = some w2 →
      (∀ k1 it1, w1.comps c = some k1 → k1.iter = some it1 →
        ∃ tr, w2.trace = w1.trace ++ Obs.resumed c (resumeOf a2) :: tr) ∧
      (∀ k1, w1.comps c = some k1 → k1.iter = none → k1.done = false →
        ∃ tr, w2.trace = w1.trace ++ Obs.callback c a2 :: tr)) := by
  constructor
  · have hcall : ∀ (w0 : World σ) (a : Args),
        call env (n + 2) w0 (Value.step c) a = step env (n + 1) w0 c a := by
      intro w0 a
      unfold call
      split
      · rename_i h
        unfold step
        simp [h]
      · rfl
    unfold _yieldable
    simp only [hexc, isPromise, hthen, isGeneratorFunction, hgen, isGenerator, hit, isFunction,
      hfn, Option.isSome_none, Bool.false_eq_true, if_false, if_true, Bool.and_false,
      Bool.or_false]
    unfold call
    simp only [hexc, hfn, hsync, arg, List.getD_cons_zero, List.foldlM_cons, List.foldlM_nil,
      hcall, Option.isSome_none, Bool.false_eq_true, if_false, if_true]
    cases step env (n + 1) (w.emit (Obs.invoked id [Value.step c])) c a1 with
    | none => rfl
    | some w1 =>
      simp only [Option.bind_eq_bind, Option.some_bind]
      cases step env (n + 1) w1 c a2 <;> rfl
  · intro w1 w2 hexc1 h2
    exact ⟨fun k1 it1 hk hi => step_live_resumes env _ w1 w2 c k1 it1 a2 hexc1 hk hi h2,
      fun k1 hk hi hd => step_cleared_calls_back env _ w1 w2 c k1 a2 hexc1 hk hi hd h2⟩

/-- C9, amended. `next` never resumes the coroutine of its computation within the call:
with no tick pending it only sets `ticking` and queues a task, and the resumption with
its arguments is the first thing done when that task runs. A call of `step`, which is
what `_yieldable` hands to a thunk (and to every other resolver), resumes the coroutine
within the call. -/
theorem next_defers_step_does_not (env : Env σ) (m : Nat) (w : World σ) (c : Nat)
    (k : Comp σ) (args : Args)
    (hexc : w.exc = none) (hlt : c < w.fresh) (hc : w.comps c = some k) :
    (∀ w1, next env m w c args = some w1 → resumes c w1.trace = resumes c w.trace) ∧
    (k.ticking = false →
      next env (m + 1) w c args
        = some { w.setComp c { k with ticking := true } with
                 queue := w.queue ++ [(c, args)] }) ∧
    (∀ rest it w1, w.queue = (c, args) :: rest → k.iter = some it → tick env m w = some w1 →
      ∃ tr, w1.trace = w.trace ++ Obs.tick c args :: Obs.resumed c (resumeOf args) :: tr) ∧
    (∀ it w1, k.iter = some it → call env (m + 1) w (Value.step c) args = some w1 →
      ∃ tr, w1.trace = w.trace ++ Obs.resumed c (resumeOf args) :: tr) ∧
    (∀ sh id, sh.thenFn = false → sh.genFn = false → (sh.nextFn && sh.throwFn) = false →
      sh.fn = true →
      _yieldable env (m + 1) w c (Value.obj sh id)
        = (call env m w (Value.obj sh id) [Value.step c]).map fun w1 => (w1, true)) := by
  refine ⟨?_, ?_, ?_, ?_, ?_⟩
  · intro w1 h
    cases m with
    | zero => simp [next] at h
    | succ n =>
      unfold next at h
      simp only [hexc, hc, Option.isSome_none, Bool.false_eq_true, if_false] at h
      split at h
      · simp at h; subst h; simp [World.setComp]
      · split at h
        · cases n with
          | zero => simp [step] at h
          | succ n1 =>
            unfold step at h
            simp only [World.setComp, hexc, Function.update_same, Option.isSome_none,
              Bool.false_eq_true, if_false] at h
            split at h
            · simp at h; subst h; rfl
            · have hs := fun hd => ((deadAt env c n1).1 _ _ _ _ h hd).2.1
              rw [hs ⟨hlt, _, Function.update_same _ _ _, rfl, rfl⟩]
              simp [World.emit, World.setComp, resumes, List.filterMap_append]
        · simp at h; subst h; simp [World.setComp]
  · intro ht
    simp [next, hexc, hc, ht]
  · intro rest it w1 hq hi h
    unfold tick at h
    simp only [hq, hc] at h
    have hlive := fun hx hy =>
      step_live_resumes env m _ w1 c { k with ticking := false } it args hx hy hi h
    obtain ⟨tr, htr⟩ := hlive hexc (by simp [World.emit, World.setComp])
    exact ⟨tr, by simpa [World.emit, World.setComp] using htr⟩
  · intro it w1 hi h
    unfold call at h
    simp only [hexc, Option.isSome_none, Bool.false_eq_true, if_false] at h
    exact step_live_resumes env m w w1 c k it args hexc hc hi h
  · intro sh id hthen hgen hit hfn
    unfold _yieldable
    simp [hexc, isPromise, hthen, isGeneratorFunction, hgen, isGenerator, hit, isFunction, hfn]
set_option maxHeartbeats 4000000 in
/-- C6, evaluated. The nested coroutine of `envF` terminates on the error `0`. The `catch`
branch of the nested `step` (line 123) hands the thrown value to the outer `step` as it
is, without the replacement `err || new Error()` that the promise and observable
handlers make (lines 48 and 65); the outer `step` tests it for truthiness, so the outer
coroutine is resumed normally, with `undefined`, and nothing is injected: the outer
callback receives `(null, ['resumed', undefined])`. -/
theorem nested_falsy_error_not_injected :
    (run envF 10 World.empty [Event.raco gen [cb], Event.tick]).map
        (fun w => (resumes 0 w.trace, callbacks 1 w.trace, callbacks 0 w.trace))
      = some ([Resume.next Value.undefined, Resume.next Value.undefined],
          [[Value.num 0]],
          [[Value.null, Value.arr [Value.str "resumed", Value.undefined]]]) := by
  rfl
/-- Where the code composes nested coroutines as intended. A yielded nested coroutine (a
generator function or a generator object that is not a thenable) is run by `_raco` as a
new computation in callback mode whose outer callback is the outer `step`. So when the
nested coroutine returns a value that is not yieldable, the queued task delivers
`(null, r)` to the outer `step`, which resumes the outer coroutine with `r`; and when
the nested coroutine raises a truthy error, that error is injected into the outer
coroutine. -/
theorem nested_coroutine (env : Env σ) (n : Nat) (w : World σ) (c : Nat) (val : Value)
    (hexc : w.exc = none) (hnp : isPromise val = false)
    (hgen : (isGeneratorFunction val || isGenerator val) = true) :
    _yieldable env (n + 3) w c val
      = (step env n
          ({ w with fresh := w.fresh + 1 }.setComp w.fresh
            { iter := some (if isGenerator val then env.inst val.ident
                else Iter.live (env.start val.ident [Value.next w.fresh]))
              done := false, trycatch := true, ticking := false, parallel := none
              callback := Value.step c })
          w.fresh []).map (fun w1 => (w1, true)) ∧
    (∀ (w2 : World σ) (c1 : Nat) (k k1 : Comp σ) (it : Iter σ) (s : σ) (args : Args),
      w2.exc = none → c1 ≠ c → w2.comps c = some k → k.iter = some it →
      w2.comps c1 = some k1 → k1.callback = Value.step c → k1.trycatch = true →
      k1.iter = some (Iter.live s) →
      (∀ r, k1.done = false → k1.ticking = false → w2.queue = [] →
        env.resume s (resumeOf args) = ([], Outcome.ret r) → notYieldable env r = true →
        ∃ w3, step env (n + 2) w2 c1 args = some w3 ∧
          ∀ f w4, tick env f w3 = some w4 →
            ∃ tr, w4.trace = w2.trace ++ Obs.resumed c1 (resumeOf args) ::
              (hookObs env c1 r ++ Obs.tick c1 [Value.null, r] ::
                Obs.callback c1 [Value.null, r] :: Obs.resumed c (Resume.next r) :: tr)) ∧
      (∀ e w3, env.resume s (resumeOf args) = ([], Outcome.raise e) → truthy e = true →
        step env (n + 2) w2 c1 args = some w3 →
        ∃ tr, w3.trace = w2.trace ++ Obs.resumed c1 (resumeOf args) ::
          Obs.callback c1 [e] :: Obs.resumed c (Resume.throw e) :: tr)) := by
  constructor
  · have hfn : (!isGenerator val && !isFunction val) = false := by
      cases val <;> simp_all [isGeneratorFunction, isGenerator, isFunction]
      rename_i sh id
      cases hgen with
      | inl h => simp [h.1]
      | inr h => simp [h]
    have hgen' : (!isGeneratorFunction val && !isGenerator val) = false := by
      cases h1 : isGeneratorFunction val <;> cases h2 : isGenerator val <;> simp_all
    unfold _yieldable
    simp only [hexc, hnp, hgen, Option.isSome_none, Bool.false_eq_true, if_false, if_true]
    unfold raco
    simp only [hexc, hgen', Option.isSome_none, Bool.false_eq_true, if_false]
    have hstep : isFunction (Value.step c) = true := rfl
    unfold _raco
    simp only [hexc, hfn, List.getLast?_singleton, Option.getD_some, hstep, List.dropLast_single,
      Option.isSome_none, Bool.false_eq_true, if_false, if_true, List.nil_append]
    cases env.opts.prependNextArg <;> rfl
  · intro w2 c1 k k1 it s args hexc2 hne hk hi hk1 hcb htry hi1
    constructor
    · intro r hd ht hq hres hr
      refine ⟨_, step_returns env n w2 c1 k1 s args r hexc2 hk1 hi1 ht hres hr, ?_⟩
      intro f w4 h4
      cases f with
      | zero => simp [tick, hq, step] at h4
      | succ f =>
        rw [tick_delivers env f _ c1 { k1 with iter := none, ticking := true }
          [Value.null, r] [] ] at h4
        rotate_left
        · exact hexc2
        · simp [hq]
        · simp
        · rfl
        · exact hd
        simp only [hcb] at h4
        cases f with
        | zero => simp [call] at h4
        | succ f =>
          unfold call at h4
          simp only [hexc2, Option.isSome_none, Bool.false_eq_true, if_false] at h4
          have hlive := fun hx hy =>
            step_live_resumes env f _ w4 c k it [Value.null, r] hx hy hi h4
          obtain ⟨tr, htr⟩ := hlive rfl
            (by simp [Function.update_apply, Ne.symm hne, hk])
          exact ⟨tr, by simpa [resumeOf, arg, truthy] using htr⟩
    · intro e w3 hres he h3
      rw [step_raises env (n + 1) w2 c1 k1 s args e hexc2 hk1 hi1 htry hres] at h3
      simp only [hcb] at h3
      unfold call at h3
      simp only [hexc2, Option.isSome_none, Bool.false_eq_true, if_false] at h3
      have hlive := fun hx hy =>
        step_live_resumes env n _ w3 c k it [e] hx hy hi h3
      obtain ⟨tr, htr⟩ := hlive rfl (by simp [Function.update_apply, Ne.symm hne, hk])
      exact ⟨tr, by simpa [resumeOf, arg, he] using htr⟩
/-- C1. A coroutine function run in callback mode (`raco(gen, ...as, cb)`, `cb` a user
function) whose coroutine yields in sequence `n ≥ 0` yieldables, each of which reports
exactly once, `(null, v_i)` (within the call that resolves it, or through a later
event), and then returns a value `ret` that is not yieldable: with fuel for the
synchronous call chain, the run ends; the coroutine has been resumed first with
`undefined` and then with `v_1, ..., v_n` in turn; and the outer callback has been
invoked exactly once, with `(null, ret)`. -/
theorem sequential_coroutine (env : Env σ) (sh shc : Shape) (id idc : Nat) (as : Args)
    (path : List (Value × Value × Option Event)) (ret : Value)
    (hfn : sh.fn = true) (hgen : sh.genFn = true) (hit : (sh.nextFn && sh.throwFn) = false)
    (hcfn : shc.fn = true) (hcsync : env.fnSync idc = [])
    (hF : Follows env 0
      (env.start id (if env.opts.prependNextArg then Value.next 0 :: as
        else as ++ [Value.next 0]))
      (Resume.next Value.undefined) path ret)
    (fuel : Nat) (hfuel : 4 * path.length + 5 ≤ fuel) :
    ∃ w1 tr, run env fuel World.empty
        (Event.raco (Value.obj sh id) (as ++ [Value.obj shc idc]) :: later path ++ [Event.tick])
        = some w1 ∧
      resumes 0 w1.trace = Resume.next Value.undefined :: (resolved path).map Resume.next ∧
      callbacks 0 w1.trace = [[Value.null, ret]] ∧
      w1.trace = tr ++ [Obs.callback 0 [Value.null, ret], Obs.invoked idc [Value.null, ret]] ∧
      w1.exc = none ∧ w1.queue = [] := by
  obtain ⟨n, rfl⟩ : ∃ n, fuel = n + 3 := ⟨fuel - 3, by omega⟩
  obtain ⟨k0, hk0⟩ : ∃ k0 : Comp σ, k0 =
      { iter := some (Iter.live (env.start id (if env.opts.prependNextArg then
          Value.next 0 :: as else as ++ [Value.next 0])))
        done := false, trycatch := true, ticking := false, parallel := none
        callback := Value.obj shc idc } := ⟨_, rfl⟩
  obtain ⟨w0, hw0⟩ : ∃ w0 : World σ, w0 =
      ({ (World.empty : World σ) with fresh := 1 }).setComp 0 k0 := ⟨_, rfl⟩
  have h0exc : w0.exc = none := by rw [hw0]; rfl
  have h0c : w0.comps 0 = some k0 := by rw [hw0]; simp
  have h0t : w0.trace = [] := by rw [hw0]; rfl
  have h0q : w0.queue = [] := by rw [hw0]; rfl
  obtain ⟨w1, hstep, hexc1, hrun⟩ := follows_run env 0 path _ _ ret hF w0 k0 []
    h0exc h0c (by rw [hk0]) (by rw [hk0]) rfl (n + 1) (by omega)
  obtain ⟨w2, hw2, d1, d2, d3, d4, d5⟩ := hrun (n + 3) (by omega) [] rfl rfl
  have hw2' : run env (n + 3) w1 (later path) = some w2 := by
    have : ({ w1 with trace := w1.trace ++ [] } : World σ) = w1 := by
      cases w1; simp
    rw [this] at hw2
    exact hw2
  have hraco : handle env (n + 3) World.empty
      (Event.raco (Value.obj sh id) (as ++ [Value.obj shc idc])) = some w1 := by
    simp only [handle]
    rw [raco_callback_mode env (n + 1) World.empty sh id as (Value.obj shc idc) rfl hfn hgen hit
      hcfn]
    have hstep' := hstep
    rw [hw0, hk0] at hstep'
    have hs : step env (n + 1)
        ({ (World.empty : World σ) with fresh := (World.empty : World σ).fresh + 1 }.setComp
          (World.empty : World σ).fresh
          { iter := some (Iter.live (env.start id
              (if env.opts.prependNextArg then Value.next (World.empty : World σ).fresh :: as
                else as ++ [Value.next (World.empty : World σ).fresh])))
            done := false, trycatch := true, ticking := false, parallel := none
            callback := Value.obj shc idc })
        (World.empty : World σ).fresh [] = some w1 := hstep'
    rw [hs]
    simp [surface, hexc1]
  have htick : ∃ w3, handle env (n + 3) w2 Event.tick = some w3 ∧
      w3.trace = w2.trace ++ [Obs.tick 0 [Value.null, ret], Obs.callback 0 [Value.null, ret],
        Obs.invoked idc [Value.null, ret]] ∧ w3.exc = none ∧ w3.queue = [] := by
    simp only [handle]
    rw [tick_delivers env (n + 2) w2 0 { k0 with iter := none, ticking := true }
      [Value.null, ret] [] d1 (by rw [d3, h0q]; rfl) d2 rfl (by rw [hk0])]
    simp [call, d1, hk0, hcfn, hcsync, surface, World.emit]
  obtain ⟨w3, hw3, ht3, he3, hq3⟩ := htick
  refine ⟨w3, w2.trace ++ [Obs.tick 0 [Value.null, ret]], ?_, ?_, ?_, ?_, he3, hq3⟩
  · have h3 : run env (n + 3) w2 [Event.tick] = some w3 := by
      rw [run_cons, hw3]
      rfl
    rw [List.cons_append, run_cons, hraco, Option.some_bind, run_append, hw2', Option.some_bind,
      h3]
  · rw [ht3, resumes_append, d4, h0t]
    simp [resumes]
  · rw [ht3, callbacks_append, d5, h0t]
    simp [callbacks]
  · rw [ht3]
    simp
/-- C1 at a concrete input: the coroutine of `envD` yields a thunk that resolves to 42 and
returns `value + 1`; the outer callback receives `(null, 43)`. -/
theorem sequential_coroutine_witness :
    ∃ w1 tr, run envD 9 World.empty
        (Event.raco (Value.obj genFnShape 1) ([] ++ [Value.obj fnShape 9]) ::
          later [(Value.obj fnShape 7, Value.num 42, none)] ++ [Event.tick]) = some w1 ∧
      resumes 0 w1.trace = Resume.next Value.undefined ::
        (resolved [(Value.obj fnShape 7, Value.num 42, none)]).map Resume.next ∧
      callbacks 0 w1.trace = [[Value.null, Value.num 43]] ∧
      w1.trace = tr ++ [Obs.callback 0 [Value.null, Value.num 43],
        Obs.invoked 9 [Value.null, Value.num 43]] ∧
      w1.exc = none ∧ w1.queue = [] :=
  sequential_coroutine envD genFnShape fnShape 1 9 []
    [(Value.obj fnShape 7, Value.num 42, none)] (Value.num 43) rfl rfl rfl rfl rfl
    ⟨1, rfl, Once.thunkNow fnShape 7 rfl rfl rfl rfl rfl rfl, rfl, rfl⟩ 9 (by decide)

/-- C4, amended, at a concrete input: thunk 7 of `envC` reports `(null, 1)` and then
`(null, 2)`, and the second report resumes the coroutine again. -/
theorem thunk_twice_witness :
    _yieldable envC 6 worldC 0 (Value.obj fnShape 7)
      = ((step envC 3 (worldC.emit (Obs.invoked 7 [Value.step 0])) 0
            [Value.null, Value.num 1]).bind
          fun w1 => step envC 3 w1 0 [Value.null, Value.num 2]).map (fun w2 => (w2, true)) ∧
    ∃ tr, worldC2.trace
      = worldC1.trace ++ Obs.resumed 0 (resumeOf [Value.null, Value.num 2]) :: tr :=
  have h := thunk_twice envC 2 worldC 0 fnShape 7 [Value.null, Value.num 1]
    [Value.null, Value.num 2] rfl rfl rfl rfl rfl rfl
  ⟨h.1, (h.2 worldC1 worldC2 rfl (some_getD _ World.empty rfl)).1
    { compC with iter := some (Iter.live (2, Value.num 1)) } (Iter.live (2, Value.num 1))
    rfl rfl⟩
/-- C5 at a concrete input: the coroutine of `envE` calls `next` twice in one
resumption; the second call fires the outer callback with the error, and the pending
tick does not resume the coroutine. -/
theorem next_while_ticking_witness :
    next envE 3 worldE 0 [Value.null, Value.num 2] = some worldE1 ∧
    worldE1.trace = worldE.trace ++ [Obs.callback 0 [multipleCallbacks],
      Obs.invoked 9 [multipleCallbacks]] ∧
    resumes 0 worldE2.trace = resumes 0 worldE.trace ∧
    callbacks 0 worldE2.trace = callbacks 0 worldE.trace ++ [[multipleCallbacks]] := by
  have h := next_while_ticking envE 0 worldE 0 compE (Iter.live 1)
    [Value.null, Value.num 2] rfl (by decide) rfl rfl rfl rfl
  have hw : next envE 3 worldE 0 [Value.null, Value.num 2] = some worldE1 :=
    some_getD _ World.empty rfl
  obtain ⟨w1, h1, h2, -, -⟩ := h.2.2 fnShape 9 rfl rfl rfl
  cases h1.symm.trans hw
  have h6 := h.2.1 worldE1 hw 5 [Event.tick] worldE2 (some_getD _ World.empty rfl)
  exact ⟨hw, h2, h6.1, h6.2.1⟩

/-- C7 at a concrete input: a callable thenable is resolved through `then` and is not
invoked as a thunk. -/
theorem yieldable_first_match_witness :
    _yieldable envA 1 worldA 0 callableThenable
      = resolveBy envA 0 worldA 0 callableThenable Strategy.deferred ∧
    _yieldable envA 1 worldA 0 callableThenable
      = some (worldA.emit (Obs.thenCalled 5 0), true) :=
  have h := yieldable_first_match envA 0 worldA 0 callableThenable rfl
  ⟨h.1, h.2.2 _ 5 rfl rfl rfl⟩

/-- C8 at a concrete input: a promise of the coroutine of `envA` rejects with `undefined`
and the thenable 6 rejects with `undefined` inside `then`; both times the coroutine is
resumed by `iter.throw` with a fresh error. -/
theorem rejection_normalised_witness :
    orError Value.undefined = Value.error "" ∧
    (∃ tr, ((call envA 3 worldA (Value.handler Handler.rejected 0)
        [Value.undefined]).getD World.empty).trace
      = worldA.trace ++ Obs.resumed 0 (Resume.throw (orError Value.undefined)) :: tr) ∧
    (∃ tr, ((_yieldable envA 4 worldA 0 (Value.obj promiseShape 6)).getD
        (World.empty, false)).1.trace
      = worldA.trace ++ Obs.thenCalled 6 0 ::
        Obs.resumed 0 (Resume.throw (orError Value.undefined)) :: tr) :=
  have h := rejection_normalised envA 2 worldA 0 compA (Iter.live 1) Value.undefined
    rfl rfl rfl
  ⟨h.2.2.1 rfl, h.2.2.2.1 Handler.rejected _ (Or.inl rfl) (some_getD _ World.empty rfl),
    h.2.2.2.2 promiseShape 6 _ rfl rfl (some_getD _ (World.empty, false) rfl)⟩

/-- C9, amended, at a concrete input: in `worldA` a call of `next` only queues a task; in
`worldA1` the queued task resumes the coroutine; and a call of `step` resumes it within
the call. -/
theorem next_defers_step_does_not_witness :
    next envA 1 worldA 0 [Value.null, Value.str "x"]
      = some { worldA.setComp 0 { compA with ticking := true } with
               queue := worldA.queue ++ [(0, [Value.null, Value.str "x"])] } ∧
    (∃ tr, ((tick envA 3 worldA1).getD World.empty).trace
      = worldA1.trace ++ Obs.tick 0 [Value.null, Value.str "x"] ::
        Obs.resumed 0 (resumeOf [Value.null, Value.str "x"]) :: tr) ∧
    (∃ tr, ((call envA 4 worldA (Value.step 0) [Value.null, Value.str "x"]).getD
        World.empty).trace
      = worldA.trace ++ Obs.resumed 0 (resumeOf [Value.null, Value.str "x"]) :: tr) ∧
    resumes 0 ((next envA 3 worldA1 0 [Value.null, Value.str "y"]).getD World.empty).trace
      = resumes 0 worldA1.trace :=
  have h := next_defers_step_does_not envA 0 worldA 0 compA [Value.null, Value.str "x"]
    rfl (by decide) rfl
  have h3 := next_defers_step_does_not envA 3 worldA 0 compA [Value.null, Value.str "x"]
    rfl (by decide) rfl
  have h1 := next_defers_step_does_not envA 3 worldA1 0 { compA with ticking := true }
    [Value.null, Value.str "x"] rfl (by decide) rfl
  have h2 := next_defers_step_does_not envA 3 worldA1 0 { compA with ticking := true }
    [Value.null, Value.str "y"] rfl (by decide) rfl
  ⟨h.2.1 rfl, h1.2.2.1 [] (Iter.live 1) _ rfl rfl (some_getD _ World.empty rfl),
    h3.2.2.2.1 (Iter.live 1) _ rfl (some_getD _ World.empty rfl),
    h2.1 _ (some_getD _ World.empty rfl)⟩

/-- C10 at a concrete input: the coroutines of `envH` call `next.all()`, respectively
`next.any()`, and yield; the queued task resumes them with `[]`, respectively `null`. -/
theorem all_any_without_group_witness :
    (∃ w1, step envH 3 (worldH 0) 0 [] = some w1 ∧
      w1.queue = [(0, [Value.null, Value.arr []])] ∧
      ∃ tr, ((tick envH 3 w1).getD World.empty).trace
        = w1.trace ++ Obs.tick 0 [Value.null, Value.arr []] ::
          Obs.resumed 0 (Resume.next (Value.arr [])) :: tr) ∧
    (∃ w1, step envH 3 (worldH 5) 0 [] = some w1 ∧
      w1.queue = [(0, [Value.null, Value.null])] ∧
      ∃ tr, ((tick envH 3 w1).getD World.empty).trace
        = w1.trace ++ Obs.tick 0 [Value.null, Value.null] ::
          Obs.resumed 0 (Resume.next Value.null) :: tr) := by
  have ha := (all_any_without_group envH 0 (worldH 0) 0 (compH 0) Act.all (Value.arr [])
    (Or.inl ⟨rfl, rfl⟩) rfl rfl rfl rfl).2 0 1 [] Value.undefined rfl rfl rfl rfl rfl rfl rfl
    rfl rfl
  have hb := (all_any_without_group envH 0 (worldH 5) 0 (compH 5) Act.any Value.null
    (Or.inr ⟨rfl, rfl⟩) rfl rfl rfl rfl).2 5 1 [] Value.undefined rfl rfl rfl rfl rfl rfl rfl
    rfl rfl
  obtain ⟨w1, a1, -, a3, -, -, -, a7⟩ := ha
  obtain ⟨w2, b1, -, b3, -, -, -, b7⟩ := hb
  have e1 : step envH 3 (worldH 0) 0 [] = some ((step envH 3 (worldH 0) 0 []).getD
    World.empty) := some_getD _ World.empty rfl
  have e2 : step envH 3 (worldH 5) 0 [] = some ((step envH 3 (worldH 5) 0 []).getD
    World.empty) := some_getD _ World.empty rfl
  cases a1.symm.trans e1
  cases b1.symm.trans e2
  exact ⟨⟨_, e1, a3, a7 3 _ (some_getD _ World.empty rfl)⟩,
    ⟨_, e2, b3, b7 3 _ (some_getD _ World.empty rfl)⟩⟩
/-- The composition of nested coroutines at a concrete input: in `envG` the nested
coroutine that returns 5 makes the outer coroutine resume with 5, and the nested
coroutine that raises `boom` makes `boom` be injected into the outer coroutine. -/
theorem nested_coroutine_witness :
    _yieldable envG 5 worldG0 0 (Value.obj genFnShape 2)
      = (step envG 2
          ({ worldG0 with fresh := worldG0.fresh + 1 }.setComp worldG0.fresh
            { iter := some (if isGenerator (Value.obj genFnShape 2) then
                  envG.inst (Value.obj genFnShape 2).ident
                else Iter.live (envG.start (Value.obj genFnShape 2).ident
                  [Value.next worldG0.fresh]))
              done := false, trycatch := true, ticking := false, parallel := none
              callback := Value.step 0 })
          worldG0.fresh []).map (fun w1 => (w1, true)) ∧
    (∃ tr, ((tick envG 4 ((step envG 4 (worldG 10) 1 []).getD World.empty)).getD
        World.empty).trace
      = (worldG 10).trace ++ Obs.resumed 1 (resumeOf []) ::
        (hookObs envG 1 (Value.num 5) ++ Obs.tick 1 [Value.null, Value.num 5] ::
          Obs.callback 1 [Value.null, Value.num 5] ::
          Obs.resumed 0 (Resume.next (Value.num 5)) :: tr)) ∧
    (∃ tr, ((step envG 4 (worldG 20) 1 []).getD World.empty).trace
      = (worldG 20).trace ++ Obs.resumed 1 (resumeOf []) ::
        Obs.callback 1 [boom] :: Obs.resumed 0 (Resume.throw boom) :: tr) := by
  have h := nested_coroutine envG 2 worldG0 0 (Value.obj genFnShape 2) rfl rfl rfl
  have ha := (h.2 (worldG 10) 1 compG (compG1 10) (Iter.live 1) 10 [] rfl (by decide) rfl rfl
    rfl rfl rfl rfl).1 (Value.num 5) rfl rfl rfl rfl rfl
  have hb := (h.2 (worldG 20) 1 compG (compG1 20) (Iter.live 1) 20 [] rfl (by decide) rfl rfl
    rfl rfl rfl rfl).2 boom _ rfl rfl (some_getD _ World.empty rfl)
  obtain ⟨w3, a1, a2⟩ := ha
  have e1 : step envG 4 (worldG 10) 1 [] = some ((step envG 4 (worldG 10) 1 []).getD
    World.empty) := some_getD _ World.empty rfl
  cases a1.symm.trans e1
  exact ⟨h.1, a2 4 _ (some_getD _ World.empty rfl), hb⟩

/-- C19. A resumed coroutine yields (does not return) a value `y` that `_yieldable`
rejects: `step` does nothing after the resumption (and the consultation of the custom
hook, if one is configured): nothing is queued, the outer callback is not invoked and the
computation keeps waiting with its coroutine suspended. When `next` is then invoked with
`a` and the queued task runs, the coroutine is resumed from `a` alone: the error is
injected if it is truthy, otherwise the value is provided. -/
theorem rejected_yield_waits_for_next (env : Env σ) (n : Nat) (w : World σ) (c : Nat)
    (k : Comp σ) (s s1 : σ) (args : Args) (y : Value)
    (hexc : w.exc = none) (hc : w.comps c = some k) (hi : k.iter = some (Iter.live s))
    (hres : env.resume s (resumeOf args) = ([], Outcome.yield y s1))
    (hy : notYieldable env y = true) :
    ∃ w1, step env (n + 2) w c args = some w1 ∧
      w1 = { w with
        comps := Function.update w.comps c (some { k with iter := some (Iter.live s1) })
        trace := w.trace ++ Obs.resumed c (resumeOf args) :: hookObs env c y } ∧
      w1.queue = w.queue ∧ callbacks c w1.trace = callbacks c w.trace ∧
      resumes c w1.trace = resumes c w.trace ++ [resumeOf args] ∧
      (∀ a, k.ticking = false → w.queue = [] →
        ∃ w2, call env (n + 2) w1 (Value.next c) a = some w2 ∧
          w2.queue = [(c, a)] ∧ w2.trace = w1.trace ∧
          ∀ m w3, tick env m w2 = some w3 →
            ∃ tr, w3.trace = w1.trace ++ Obs.tick c a :: Obs.resumed c (resumeOf a) :: tr) := by
  have hres' : env.resume s (if truthy (arg args 0) = true then Resume.throw (arg args 0)
      else Resume.next (arg args 1)) = ([], Outcome.yield y s1) := hres
  have hstep : step env (n + 2) w c args = some { w with
        comps := Function.update w.comps c (some { k with iter := some (Iter.live s1) })
        trace := w.trace ++ Obs.resumed c (resumeOf args) :: hookObs env c y } := by
    unfold step
    simp only [hexc, hc, hi, Iter.resume, hres', Option.isSome_none, Bool.false_eq_true,
      if_false, List.foldlM_nil, Option.pure_def, World.emit, World.setComp]
    simp [yieldable_rejects, hy, resumeOf]
  refine ⟨_, hstep, rfl, rfl, ?_, ?_, ?_⟩
  · simp only [callbacks_append]
    rw [show Obs.resumed c (resumeOf args) :: hookObs env c y
      = [Obs.resumed c (resumeOf args)] ++ hookObs env c y from rfl, callbacks_append,
      callbacks_hookObs]
    simp [callbacks]
  · rw [show Obs.resumed c (resumeOf args) :: hookObs env c y
      = [Obs.resumed c (resumeOf args)] ++ hookObs env c y from rfl, resumes_append,
      resumes_append, resumes_hookObs]
    simp [resumes]
  · intro a ht hq
    have hcall : call env (n + 2) { w with
        comps := Function.update w.comps c (some { k with iter := some (Iter.live s1) })
        trace := w.trace ++ Obs.resumed c (resumeOf args) :: hookObs env c y } (Value.next c) a
        = some { w with
          comps := Function.update w.comps c
            (some { k with iter := some (Iter.live s1), ticking := true })
          queue := [(c, a)]
          trace := w.trace ++ Obs.resumed c (resumeOf args) :: hookObs env c y } := by
      simp [call, next, hexc, ht, World.setComp, hq]
    refine ⟨_, hcall, rfl, rfl, ?_⟩
    intro m w3 h3
    unfold tick at h3
    simp only [Function.update_same] at h3
    have hlive := fun hx hy =>
      step_live_resumes env m _ w3 c
        { k with iter := some (Iter.live s1), ticking := false } (Iter.live s1) a hx hy rfl h3
    obtain ⟨tr, htr⟩ := hlive hexc (by simp [World.emit, World.setComp])
    exact ⟨tr, by simpa [World.emit, World.setComp] using htr⟩
/-- C19 at a concrete input: the coroutine `function* () { return yield 7 }` of `envK`
yields 7 and waits; after `next(null, 'x')` and the tick it is resumed with `'x'`. -/
theorem rejected_yield_waits_for_next_witness :
    ∃ w1, step envK 2 (worldH 0) 0 [] = some w1 ∧
      w1 = { worldH 0 with
        comps := Function.update (worldH 0).comps 0
          (some { compH 0 with iter := some (Iter.live 1) })
        trace := (worldH 0).trace ++ Obs.resumed 0 (resumeOf []) :: hookObs envK 0 (Value.num 7) } ∧
      w1.queue = (worldH 0).queue ∧ callbacks 0 w1.trace = callbacks 0 (worldH 0).trace ∧
      resumes 0 w1.trace = resumes 0 (worldH 0).trace ++ [resumeOf []] ∧
      (∀ a, (compH 0).ticking = false → (worldH 0).queue = [] →
        ∃ w2, call envK 2 w1 (Value.next 0) a = some w2 ∧
          w2.queue = [(0, a)] ∧ w2.trace = w1.trace ∧
          ∀ m w3, tick envK m w2 = some w3 →
            ∃ tr, w3.trace = w1.trace ++ Obs.tick 0 a :: Obs.resumed 0 (resumeOf a) :: tr) :=
  rejected_yield_waits_for_next envK 0 (worldH 0) 0 (compH 0) 0 1 [] (Value.num 7)
    rfl rfl rfl rfl rfl

/-- C17. With no tick pending, a coroutine that during one resumption invokes `next(a)`
once and then returns a value `r` that is not yieldable, without yielding in between: the
task of `next(a)` is the only one queued (the call `next(null, r)` that `step` makes for
the return finds the tick pending and the coroutine cleared, and is dropped); when that
task runs, the outer callback is invoked with `a`; and whatever happens afterwards, it
has been invoked exactly once, with `a`: never with `r`, never with the
multiple-callback error. -/
theorem callback_wins_over_return (env : Env σ) (n : Nat) (w : World σ) (c : Nat)
    (k : Comp σ) (s : σ) (args a : Args) (r : Value) (sh : Shape) (id : Nat)
    (hexc : w.exc = none) (hlt : c < w.fresh) (hc : w.comps c = some k)
    (hi : k.iter = some (Iter.live s)) (ht : k.ticking = false) (hd : k.done = false)
    (hq : w.queue = [])
    (hres : env.resume s (resumeOf args) = ([Act.next a], Outcome.ret r))
    (hr : notYieldable env r = true)
    (hcb : k.callback = Value.obj sh id) (hfn : sh.fn = true) (hsync : env.fnSync id = []) :
    ∃ w1 w2, step env (n + 3) w c args = some w1 ∧
      w1.queue = [(c, a)] ∧
      w1.trace = w.trace ++ Obs.resumed c (resumeOf args) :: hookObs env c r ∧
      tick env (n + 2) w1 = some w2 ∧
      w2.trace = w1.trace ++ [Obs.tick c a, Obs.callback c a, Obs.invoked id a] ∧
      w2.queue = [] ∧ w2.exc = none ∧
      ∀ m evs w3, run env m w2 evs = some w3 →
        callbacks c w3.trace = callbacks c w.trace ++ [a] ∧
        resumes c w3.trace = resumes c w.trace ++ [resumeOf args] := by
  have hres' : env.resume s (if truthy (arg args 0) = true then Resume.throw (arg args 0)
      else Resume.next (arg args 1)) = ([Act.next a], Outcome.ret r) := hres
  have hstep : step env (n + 3) w c args = some { w with
        comps := Function.update w.comps c (some { k with iter := none, ticking := true })
        queue := [(c, a)]
        trace := w.trace ++ Obs.resumed c (resumeOf args) :: hookObs env c r } := by
    unfold step
    simp only [hexc, hc, hi, Iter.resume, hres', Option.isSome_none, Bool.false_eq_true,
      if_false, List.foldlM_cons, List.foldlM_nil, Option.pure_def, World.emit, World.setComp]
    simp [act, next, hexc, ht, World.setComp, yieldable_rejects, hr, resumeOf, hq]
  have htick := fun hx hy hz => tick_delivers env (n + 1) { w with
        comps := Function.update w.comps c (some { k with iter := none, ticking := true })
        queue := [(c, a)]
        trace := w.trace ++ Obs.resumed c (resumeOf args) :: hookObs env c r } c
        { k with iter := none, ticking := true } a [] hx hy hz rfl hd
  have htick2 := htick hexc rfl (by simp)
  have hcall : tick env (n + 2) { w with
        comps := Function.update w.comps c (some { k with iter := none, ticking := true })
        queue := [(c, a)]
        trace := w.trace ++ Obs.resumed c (resumeOf args) :: hookObs env c r }
      = some { w with
        comps := Function.update w.comps c
          (some { k with iter := none, ticking := false, done := true })
        queue := []
        trace := (w.trace ++ Obs.resumed c (resumeOf args) :: hookObs env c r) ++
          [Obs.tick c a, Obs.callback c a, Obs.invoked id a] } := by
    rw [htick2]
    simp [call, hexc, hcb, hfn, hsync, World.emit]
  refine ⟨_, _, hstep, rfl, rfl, hcall, rfl, rfl, hexc, ?_⟩
  intro m evs w3 h3
  have hsame := run_same env c m evs _ w3 h3
    ⟨hlt, _, Function.update_same _ _ _, rfl, rfl⟩
  obtain ⟨_, hr3, hc3⟩ := hsame
  rw [hr3, hc3]
  constructor
  · simp only [callbacks_append, callbacks_resumed, callbacks_hookObs]
    simp [callbacks]
  · simp only [resumes_append, resumes_resumed_self, resumes_hookObs]
    simp [resumes]
/-- C17 at a concrete input: the coroutine `function* (next) { next(null, 'cb'); return
'ret' }` of `envK`; the outer callback receives `(null, 'cb')`, once. -/
theorem callback_wins_over_return_witness :
    ∃ w1 w2, step envK 3 (worldH 10) 0 [] = some w1 ∧
      w1.queue = [(0, [Value.null, Value.str "cb"])] ∧
      w1.trace = (worldH 10).trace ++
        Obs.resumed 0 (resumeOf []) :: hookObs envK 0 (Value.str "ret") ∧
      tick envK 2 w1 = some w2 ∧
      w2.trace = w1.trace ++ [Obs.tick 0 [Value.null, Value.str "cb"],
        Obs.callback 0 [Value.null, Value.str "cb"],
        Obs.invoked 9 [Value.null, Value.str "cb"]] ∧
      w2.queue = [] ∧ w2.exc = none ∧
      ∀ m evs w3, run envK m w2 evs = some w3 →
        callbacks 0 w3.trace = callbacks 0 (worldH 10).trace ++ [[Value.null, Value.str "cb"]] ∧
        resumes 0 w3.trace = resumes 0 (worldH 10).trace ++ [resumeOf []] :=
  callback_wins_over_return envK 0 (worldH 10) 0 (compH 10) 10 [] [Value.null, Value.str "cb"]
    (Value.str "ret") fnShape 9 rfl (by decide) rfl rfl rfl rfl rfl rfl rfl rfl rfl rfl

/-- C16, evaluated. The coroutine `function* () { yield thunk7; return 1 }` of `envA` in
callback mode: thunk 7 reports `(null, 5)`, the coroutine returns 1, and then, before the
tick, `next(null, 'late')` is invoked. That call runs the last branch of `next` (lines
154-157, commented `callback and return, pick callback value`), which does nothing: the
outer callback receives the return value, `(null, 1)`, and not `(null, 'late')`; the run
has reached `worldA2` before the late call and after it. -/
theorem late_next_is_dropped :
    (run envA 6 World.empty [Event.raco gen [cb], Event.call (Value.step 0)
          [Value.null, Value.num 5], Event.call (Value.next 0) [Value.null, Value.str "late"],
          Event.tick]).map
        (fun w => (callbacks 0 w.trace, w.queue))
      = some ([[Value.null, Value.num 1]], []) ∧
    (run envA 6 World.empty [Event.raco gen [cb], Event.call (Value.step 0)
          [Value.null, Value.num 5]]).map
        (fun w => (w.trace, w.comps 0, w.fresh, w.queue, w.exc))
      = some (worldA2.trace, worldA2.comps 0, worldA2.fresh, worldA2.queue, worldA2.exc) ∧
    (run envA 6 World.empty [Event.raco gen [cb], Event.call (Value.step 0)
          [Value.null, Value.num 5],
          Event.call (Value.next 0) [Value.null, Value.str "late"]]).map
        (fun w => (w.trace, w.comps 0, w.fresh, w.queue, w.exc))
      = some (worldA2.trace, worldA2.comps 0, worldA2.fresh, worldA2.queue, worldA2.exc) := by
  refine ⟨?_, ?_, ?_⟩ <;> rfl

/-- What `next` does on a computation whose coroutine is cleared and whose outer callback
has not fired. While a tick is pending (in particular the one that `step` queued for a
non-yieldable return value), the invocation `next(a)` is dropped: the world is left as it
is, and the pending task delivers its own arguments `b` to the outer callback. When no
tick is pending (the coroutine returned a yieldable that has not reported yet), `a` is
queued and delivered; the outer callback is then invoked once, with `a`. -/
theorem late_next_first_writer_wins (env : Env σ) (n : Nat) (w : World σ) (c : Nat)
    (k : Comp σ) (a : Args) (sh : Shape) (id : Nat)
    (hexc : w.exc = none) (hlt : c < w.fresh) (hc : w.comps c = some k) (hi : k.iter = none)
    (hd : k.done = false)
    (hcb : k.callback = Value.obj sh id) (hfn : sh.fn = true) (hsync : env.fnSync id = []) :
    (k.ticking = true →
      next env (n + 1) w c a = some w ∧
      ∀ b rest, w.queue = (c, b) :: rest →
        ∃ w2, (next env (n + 1) w c a).bind (tick env (n + 2)) = some w2 ∧
          w2.trace = w.trace ++ [Obs.tick c b, Obs.callback c b, Obs.invoked id b] ∧
          ∀ m evs w3, run env m w2 evs = some w3 →
            callbacks c w3.trace = callbacks c w.trace ++ [b]) ∧
    (k.ticking = false → w.queue = [] →
      ∃ w1 w2, next env (n + 1) w c a = some w1 ∧ w1.queue = [(c, a)] ∧
        w1.trace = w.trace ∧ tick env (n + 2) w1 = some w2 ∧
        w2.trace = w.trace ++ [Obs.tick c a, Obs.callback c a, Obs.invoked id a] ∧
        ∀ m evs w3, run env m w2 evs = some w3 →
          callbacks c w3.trace = callbacks c w.trace ++ [a]) := by
  constructor
  · intro ht
    have hnext : next env (n + 1) w c a = some w := by
      have hk1 : ({ iter := none, done := k.done, trycatch := k.trycatch, ticking := true
                    parallel := k.parallel, callback := k.callback } : Comp σ) = k := by
        cases k; simp_all
      unfold next
      simp only [hexc, hc, ht, hi, Option.isSome_none, Bool.false_eq_true, if_false,
        Bool.not_true, World.setComp, hk1]
      rw [← hc, Function.update_eq_self]
      cases w; simp_all
    refine ⟨hnext, ?_⟩
    intro b rest hq
    have hcall : tick env (n + 2) w = some { w with
        comps := Function.update w.comps c (some { k with ticking := false, done := true })
        queue := rest
        trace := w.trace ++ [Obs.tick c b, Obs.callback c b, Obs.invoked id b] } := by
      rw [tick_delivers env (n + 1) w c k b rest hexc hq hc hi hd]
      simp [call, hexc, hcb, hfn, hsync, World.emit]
    rw [hnext, Option.some_bind]
    refine ⟨_, hcall, rfl, ?_⟩
    intro m evs w3 h3
    obtain ⟨_, _, hc3⟩ := run_same env c m evs _ w3 h3
      ⟨hlt, _, Function.update_same _ _ _, hi, rfl⟩
    rw [hc3]
    simp [callbacks_append, callbacks]
  · intro ht hq
    have hnext : next env (n + 1) w c a = some { w with
        comps := Function.update w.comps c (some { k with ticking := true })
        queue := [(c, a)] } := by
      simp [next, hexc, hc, ht, World.setComp, hq]
    have htick := fun hx hy hz => tick_delivers env (n + 1) { w with
        comps := Function.update w.comps c (some { k with ticking := true })
        queue := [(c, a)] } c { k with ticking := true } a [] hx hy hz hi hd
    have hcall : tick env (n + 2) { w with
        comps := Function.update w.comps c (some { k with ticking := true })
        queue := [(c, a)] }
      = some { w with
        comps := Function.update w.comps c (some { k with ticking := false, done := true })
        queue := []
        trace := w.trace ++ [Obs.tick c a, Obs.callback c a, Obs.invoked id a] } := by
      rw [htick hexc rfl (by simp)]
      simp [call, hexc, hcb, hfn, hsync, World.emit]
    refine ⟨_, _, hnext, rfl, rfl, hcall, rfl, ?_⟩
    intro m evs w3 h3
    obtain ⟨_, _, hc3⟩ := run_same env c m evs _ w3 h3
      ⟨hlt, _, Function.update_same _ _ _, hi, rfl⟩
    rw [hc3]
    simp [callbacks_append, callbacks]
/-- A late call of `next` at a concrete input: in `worldA2` the task that delivers
`(null, 1)` is pending, `next(null, 'late')` changes nothing, and the outer callback
receives `(null, 1)`. -/
theorem late_next_first_writer_wins_witness :
    ({ compA with iter := none, ticking := true } : Comp Nat).ticking = true ∧
    next envA 1 worldA2 0 [Value.null, Value.str "late"] = some worldA2 ∧
    ∃ w2, (next envA 1 worldA2 0 [Value.null, Value.str "late"]).bind (tick envA 2) = some w2 ∧
      w2.trace = worldA2.trace ++ [Obs.tick 0 [Value.null, Value.num 1],
        Obs.callback 0 [Value.null, Value.num 1], Obs.invoked 9 [Value.null, Value.num 1]] ∧
      ∀ m evs w3, run envA m w2 evs = some w3 →
        callbacks 0 w3.trace = callbacks 0 worldA2.trace ++ [[Value.null, Value.num 1]] :=
  ⟨rfl,
    ((late_next_first_writer_wins envA 0 worldA2 0 { compA with iter := none, ticking := true }
      [Value.null, Value.str "late"] fnShape 9 rfl (by decide) rfl rfl rfl rfl rfl rfl).1 rfl).1,
    ((late_next_first_writer_wins envA 0 worldA2 0 { compA with iter := none, ticking := true }
      [Value.null, Value.str "late"] fnShape 9 rfl (by decide) rfl rfl rfl rfl rfl rfl).1 rfl).2
      [Value.null, Value.num 1] [] rfl⟩

/-- C18. A coroutine that returns `r`: `step` clears the coroutine and hands `r` to
`_yieldable`, with `step` as continuation. When `r` is accepted, nothing is queued for
`r` itself and what `step` does further is the resolution of `r`; a report of the
resolver (a call of `step` with `a`, or of the promise handlers) finds the coroutine
cleared and fires the outer callback with exactly what was reported: `a`, `(null, v)`
for a fulfilment with `v`, the normalised reason for a rejection. So a returned thunk
that reports `a` within the call makes the outer callback receive `a`, and a returned
promise makes it receive the promise's outcome. Only when `r` is rejected by
`_yieldable` is `(null, r)` queued for delivery. -/
theorem terminal_value_is_resolved (env : Env σ) (m : Nat) (w : World σ) (c : Nat)
    (k : Comp σ) (s : σ) (args : Args) (r : Value) (shc : Shape) (idc : Nat)
    (hexc : w.exc = none) (hc : w.comps c = some k) (hi : k.iter = some (Iter.live s))
    (hd : k.done = false)
    (hres : env.resume s (resumeOf args) = ([], Outcome.ret r))
    (hcb : k.callback = Value.obj shc idc) (hcfn : shc.fn = true)
    (hcsync : env.fnSync idc = []) :
    (∀ x, _yieldable env m { w with
          comps := Function.update w.comps c (some { k with iter := none })
          trace := w.trace ++ [Obs.resumed c (resumeOf args)] } c r
        = x.map (fun w1 => (w1, true)) →
      step env (m + 1) w c args = x) ∧
    (∀ w1 k1 a, w1.exc = none → w1.comps c = some k1 → k1.iter = none → k1.done = false →
      k1.callback = Value.obj shc idc →
      call env (m + 3) w1 (Value.step c) a
        = some { w1 with
            comps := Function.update w1.comps c (some { k1 with done := true })
            trace := w1.trace ++ [Obs.callback c a, Obs.invoked idc a] } ∧
      call env (m + 3) w1 (Value.handler Handler.fulfilled c) a
        = some { w1 with
            comps := Function.update w1.comps c (some { k1 with done := true })
            trace := w1.trace ++ [Obs.callback c [Value.null, arg a 0],
              Obs.invoked idc [Value.null, arg a 0]] } ∧
      call env (m + 3) w1 (Value.handler Handler.rejected c) a
        = some { w1 with
            comps := Function.update w1.comps c (some { k1 with done := true })
            trace := w1.trace ++ [Obs.callback c [orError (arg a 0)],
              Obs.invoked idc [orError (arg a 0)]] }) ∧
    (∀ sh id a, r = Value.obj sh id → sh.thenFn = false → sh.genFn = false →
      (sh.nextFn && sh.throwFn) = false → sh.fn = true → env.fnSync id = [a] →
      step env (m + 6) w c args
        = some { w with
            comps := Function.update w.comps c (some { k with iter := none, done := true })
            trace := w.trace ++ [Obs.resumed c (resumeOf args), Obs.invoked id [Value.step c],
              Obs.callback c a, Obs.invoked idc a] }) ∧
    (∀ sh id, r = Value.obj sh id → sh.thenFn = true → env.thenSync id = [] →
      step env (m + 2) w c args
        = some { w with
            comps := Function.update w.comps c (some { k with iter := none })
            trace := w.trace ++ [Obs.resumed c (resumeOf args), Obs.thenCalled id c] }) ∧
    (notYieldable env r = true → k.ticking = false →
      step env (m + 2) w c args
        = some { w with
            comps := Function.update w.comps c (some { k with iter := none, ticking := true })
            queue := w.queue ++ [(c, [Value.null, r])]
            trace := w.trace ++ Obs.resumed c (resumeOf args) :: hookObs env c r }) := by
  have hfire : ∀ (w1 : World σ) (k1 : Comp σ) (a : Args), w1.exc = none →
      w1.comps c = some k1 → k1.iter = none → k1.done = false →
      k1.callback = Value.obj shc idc →
      step env (m + 2) w1 c a
        = some { w1 with
            comps := Function.update w1.comps c (some { k1 with done := true })
            trace := w1.trace ++ [Obs.callback c a, Obs.invoked idc a] } := by
    intro w1 k1 a h1 h2 h3 h4 h5
    unfold step
    simp [h1, h2, h3, h4, h5, call, hcfn, hcsync, World.emit, World.setComp]
  refine ⟨?_, ?_, ?_, ?_, ?_⟩
  · intro x hy
    exact step_returns_yieldable env m w c k s args r x hexc hc hi hres hy
  · intro w1 k1 a h1 h2 h3 h4 h5
    refine ⟨?_, ?_, ?_⟩
    · rw [← hfire w1 k1 a h1 h2 h3 h4 h5]
      simp [call, h1]
    · rw [← hfire w1 k1 [Value.null, arg a 0] h1 h2 h3 h4 h5]
      simp [call, h1]
    · rw [← hfire w1 k1 [orError (arg a 0)] h1 h2 h3 h4 h5]
      simp [call, h1]
  · intro sh id a hr hthen hgen hit hfn hsync
    apply step_returns_yieldable env (m + 5) w c k s args r _ hexc hc hi hres
    subst hr
    unfold _yieldable
    simp only [hexc, isPromise, hthen, isGeneratorFunction, hgen, isGenerator, hit, isFunction,
      hfn, Option.isSome_none, Bool.false_eq_true, if_false, Bool.and_false, Bool.or_false,
      if_true]
    unfold call
    simp only [hexc, hfn, hsync, Option.isSome_none, Bool.false_eq_true, if_false, if_true,
      List.foldlM_cons, List.foldlM_nil, arg, List.getD_cons_zero, Option.pure_def,
      Option.bind_eq_bind]
    unfold call
    simp only [World.emit, hexc, Option.isSome_none, Bool.false_eq_true, if_false]
    rw [hfire _ { k with iter := none } a ?_ ?_ rfl hd hcb]
    · simp
    · rfl
    · simp
  · intro sh id hr hthen hsync
    apply step_returns_yieldable env (m + 1) w c k s args r _ hexc hc hi hres
    subst hr
    unfold _yieldable
    simp [hexc, isPromise, hthen, hsync, World.emit, Value.ident]
  · intro hr ht
    exact step_returns env m w c k s args r hexc hc hi ht hres hr
/-- C18 at a concrete input: the coroutine `function* () { return thunk8 }` of `envK`
with `thunk8 = function (cb) { cb(boom, 8) }`; the outer callback receives `(boom, 8)`,
within the call of `step`, and not the thunk. -/
theorem terminal_value_is_resolved_witness :
    step envK 6 (worldH 20) 0 []
      = some { worldH 20 with
          comps := Function.update (worldH 20).comps 0
            (some { compH 20 with iter := none, done := true })
          trace := (worldH 20).trace ++ [Obs.resumed 0 (resumeOf []),
            Obs.invoked 8 [Value.step 0], Obs.callback 0 [boom, Value.num 8],
            Obs.invoked 9 [boom, Value.num 8]] } :=
  (terminal_value_is_resolved envK 0 (worldH 20) 0 (compH 20) 20 [] (Value.obj fnShape 8)
    fnShape 9 rfl rfl rfl rfl rfl rfl rfl rfl).2.2.1 fnShape 8 [boom, Value.num 8]
    rfl rfl rfl rfl rfl rfl

/-- C13. The argument handling of the entry `_raco(genFn, args)`. With a coroutine
function: when the last argument `f` is a function the computation runs in callback mode
with `f` as outer callback and the coroutine function is started with the arguments
before `f`, in their order, and the continuation handle `next` added (after them, or
before them under `prependNextArg`); when the last argument is not a function (or there
is none) the whole list is kept and `next` is added the same way, the computation
running in promise mode or, without a promise constructor, in fire-and-forget mode.
With a generator object the arguments are split the same way, but the object itself is
driven: the coroutine is `env.inst id`, and `env.start` is not used. In every case the
first call of `step` is made before the entry returns. -/
theorem entry_arguments (env : Env σ) (n : Nat) (w : World σ) (sh : Shape) (id : Nat)
    (as args0 : Args) (f : Value)
    (hexc : w.exc = none) (hf : isFunction f = true)
    (hlast : isFunction (args0.getLast?.getD Value.undefined) = false) :
    (sh.fn = true → (sh.nextFn && sh.throwFn) = false →
      _raco env (n + 1) w (Value.obj sh id) (as ++ [f])
        = step env n
            (entered w (Iter.live (env.start id (withNext env w.fresh as))) true f)
            w.fresh [] ∧
      (env.opts.hasPromise = true →
        _raco env (n + 1) w (Value.obj sh id) args0
          = (step env n
              (entered w (Iter.live (env.start id (withNext env w.fresh args0))) true
                (Value.settle w.fresh))
              w.fresh []).map (rejectRaised w.fresh)) ∧
      (env.opts.hasPromise = false →
        _raco env (n + 1) w (Value.obj sh id) args0
          = step env n
              (entered w (Iter.live (env.start id (withNext env w.fresh args0))) false
                Value.noop)
              w.fresh [])) ∧
    ((sh.nextFn && sh.throwFn) = true →
      _raco env (n + 1) w (Value.obj sh id) (as ++ [f])
        = step env n (entered w (env.inst id) true f) w.fresh [] ∧
      (env.opts.hasPromise = true →
        _raco env (n + 1) w (Value.obj sh id) args0
          = (step env n (entered w (env.inst id) true (Value.settle w.fresh)) w.fresh []).map
              (rejectRaised w.fresh)) ∧
      (env.opts.hasPromise = false →
        _raco env (n + 1) w (Value.obj sh id) args0
          = step env n (entered w (env.inst id) false Value.noop) w.fresh [])) := by
  constructor
  · intro hfn hit
    have hig : isGenerator (Value.obj sh id) = false := hit
    have hif : isFunction (Value.obj sh id) = true := hfn
    refine ⟨?_, ?_, ?_⟩
    · unfold _raco
      simp only [hexc, Option.isSome_none, Bool.false_eq_true, if_false, List.getLast?_concat,
        Option.getD_some, hf, if_true, List.dropLast_concat, hig, hif, Bool.not_true,
        Bool.and_false, Bool.not_false, entered, withNext, Value.ident]
    · intro hp
      unfold _raco
      simp only [hexc, Option.isSome_none, Bool.false_eq_true, if_false, hlast, hp, if_true,
        hig, hif, Bool.not_true, Bool.and_false, Bool.not_false, entered, withNext,
        Value.ident]
      rfl
    · intro hp
      unfold _raco
      simp only [hexc, Option.isSome_none, Bool.false_eq_true, if_false, hlast, hp,
        hig, hif, Bool.not_true, Bool.and_false, Bool.not_false, entered, withNext,
        Value.ident]
  · intro hit
    have hig : isGenerator (Value.obj sh id) = true := hit
    refine ⟨?_, ?_, ?_⟩
    · unfold _raco
      simp only [hexc, Option.isSome_none, Bool.false_eq_true, if_false, List.getLast?_concat,
        Option.getD_some, hf, if_true, List.dropLast_concat, hig, Bool.not_true,
        Bool.false_and, entered, Value.ident]
    · intro hp
      unfold _raco
      simp only [hexc, Option.isSome_none, Bool.false_eq_true, if_false, hlast, hp, if_true,
        hig, Bool.not_true, Bool.false_and, entered, Value.ident]
      rfl
    · intro hp
      unfold _raco
      simp only [hexc, Option.isSome_none, Bool.false_eq_true, if_false, hlast, hp, if_true,
        hig, Bool.not_true, Bool.false_and, entered, Value.ident]
/-- C13 at a concrete input: `_raco(gen, [1, 2, cb])` in `envD` starts the coroutine
function with `(1, 2, next)` and has `cb` as outer callback. -/
theorem entry_arguments_witness :
    _raco envD 6 World.empty (Value.obj genFnShape 1) ([Value.num 1, Value.num 2] ++ [cb])
      = step envD 5
          (entered World.empty
            (Iter.live (envD.start 1 (withNext envD 0 [Value.num 1, Value.num 2]))) true cb)
          0 [] :=
  ((entry_arguments envD 5 World.empty genFnShape 1 [Value.num 1, Value.num 2]
    [Value.num 1, Value.num 2] cb rfl rfl rfl).1 rfl rfl).1

/-- C14 refuted. Fire-and-forget mode in `envJ` (no callback, no promise constructor).
The coroutine `function* () { throw new Error('boom') }` raises in the first resume and
the exception leaves the entry call. The coroutine `function* () { yield thunk7;
return 1 }` does not handle the error that thunk 7 reports, and the exception leaves the
call by which the thunk reported. -/
theorem fire_and_forget_throws :
    (run envJ 5 World.empty [Event.raco (Value.obj genFnShape 2) []]).map
        (fun w => w.trace)
      = some [Obs.resumed 0 (Resume.next Value.undefined), Obs.threw boom] ∧
    (run envJ 6 World.empty [Event.raco gen [], Event.call (Value.step 0) [boom]]).map
        (fun w => w.trace)
      = some [Obs.resumed 0 (Resume.next Value.undefined), Obs.invoked 7 [Value.step 0],
          Obs.resumed 0 (Resume.throw boom), Obs.threw boom] := by
  constructor <;> rfl

/-- C14, amended. In fire-and-forget mode `step` resumes the coroutine without catching:
what the coroutine raises during a resume leaves `step` as an exception, to the caller of
the entry for the first resume and to whoever called `step` (the resolver that reports,
or the tick) for a later one; an error reported by a yieldable is injected into the
coroutine first and leaves `step` the same way when the coroutine does not handle it.
Only what is handed to the outer callback is discarded: the callback is `noop`, so the
delivery of a final result or error does nothing more than mark the computation done. -/
theorem fire_and_forget_does_not_catch (env : Env σ) (n : Nat) (w : World σ) (sh : Shape)
    (id : Nat) (args0 : Args)
    (hexc : w.exc = none) (hp : env.opts.hasPromise = false)
    (hlast : isFunction (args0.getLast?.getD Value.undefined) = false)
    (hfn : sh.fn = true) (hgen : sh.genFn = true) (hit : (sh.nextFn && sh.throwFn) = false) :
    raco env (n + 2) w (Value.obj sh id) args0
      = step env n
          (entered w (Iter.live (env.start id (withNext env w.fresh args0))) false Value.noop)
          w.fresh [] ∧
    (∀ e, env.resume (env.start id (withNext env w.fresh args0)) (Resume.next Value.undefined)
        = ([], Outcome.raise e) →
      handle env (n + 3) w (Event.raco (Value.obj sh id) args0)
        = some { entered w Iter.finished false Value.noop with
            trace := w.trace ++ [Obs.resumed w.fresh (Resume.next Value.undefined),
              Obs.threw e] }) ∧
    (∀ (w1 : World σ) c k s args e, w1.exc = none → w1.comps c = some k →
      k.iter = some (Iter.live s) → k.trycatch = false →
      env.resume s (resumeOf args) = ([], Outcome.raise e) →
      step env (n + 1) w1 c args
        = some { w1 with
            comps := Function.update w1.comps c (some { k with iter := some Iter.finished })
            trace := w1.trace ++ [Obs.resumed c (resumeOf args)]
            exc := some e } ∧
      handle env (n + 2) w1 (Event.call (Value.step c) args)
        = some { w1 with
            comps := Function.update w1.comps c (some { k with iter := some Iter.finished })
            trace := w1.trace ++ [Obs.resumed c (resumeOf args), Obs.threw e] }) ∧
    (∀ (w1 : World σ) c k args, w1.exc = none → w1.comps c = some k → k.iter = none →
      k.done = false → k.callback = Value.noop →
      step env (n + 2) w1 c args
        = some { w1 with
            comps := Function.update w1.comps c (some { k with done := true })
            trace := w1.trace ++ [Obs.callback c args] }) := by
  have hstep : ∀ (m : Nat) (w1 : World σ) c k s args e, w1.exc = none → w1.comps c = some k →
      k.iter = some (Iter.live s) → k.trycatch = false →
      env.resume s (resumeOf args) = ([], Outcome.raise e) →
      step env (m + 1) w1 c args
        = some { w1 with
            comps := Function.update w1.comps c (some { k with iter := some Iter.finished })
            trace := w1.trace ++ [Obs.resumed c (resumeOf args)]
            exc := some e } := by
    intro m w1 c k s args e h1 h2 h3 h4 h5
    have h5' : env.resume s (if truthy (arg args 0) = true then Resume.throw (arg args 0)
        else Resume.next (arg args 1)) = ([], Outcome.raise e) := h5
    unfold step
    simp [h1, h2, h3, h4, Iter.resume, h5', World.emit, World.setComp, World.raise, resumeOf,
      World.finishIter_of_none]
  have hentry : raco env (n + 2) w (Value.obj sh id) args0
      = step env n
          (entered w (Iter.live (env.start id (withNext env w.fresh args0))) false Value.noop)
          w.fresh [] := by
    have hgf : isGeneratorFunction (Value.obj sh id) = true := by
      simp [isGeneratorFunction, hfn, hgen]
    have hig : isGenerator (Value.obj sh id) = false := hit
    have hif : isFunction (Value.obj sh id) = true := hfn
    unfold raco
    simp only [hexc, Option.isSome_none, Bool.false_eq_true, if_false, hgf, Bool.not_true,
      Bool.false_and]
    unfold _raco
    simp only [hexc, Option.isSome_none, Bool.false_eq_true, if_false, hlast, hp,
      hig, hif, Bool.not_true, Bool.and_false, Bool.not_false, entered, withNext,
      Value.ident]
  refine ⟨hentry, ?_, ?_, ?_⟩
  · intro e hres
    have hh : raco env (n + 3) w (Value.obj sh id) args0
      = step env (n + 1)
          (entered w (Iter.live (env.start id (withNext env w.fresh args0))) false Value.noop)
          w.fresh [] := by
      have hgf : isGeneratorFunction (Value.obj sh id) = true := by
        simp [isGeneratorFunction, hfn, hgen]
      have hig : isGenerator (Value.obj sh id) = false := hit
      have hif : isFunction (Value.obj sh id) = true := hfn
      unfold raco
      simp only [hexc, Option.isSome_none, Bool.false_eq_true, if_false, hgf, Bool.not_true,
        Bool.false_and]
      unfold _raco
      simp only [hexc, Option.isSome_none, Bool.false_eq_true, if_false, hlast, hp,
        hig, hif, Bool.not_true, Bool.and_false, Bool.not_false, entered, withNext,
        Value.ident]
    simp only [handle]
    rw [hh, hstep n _ w.fresh
      ⟨some (Iter.live (env.start id (withNext env w.fresh args0))), false, false, false, none,
        Value.noop⟩
      (env.start id (withNext env w.fresh args0)) [] e ?_ ?_ rfl rfl hres]
    · simp [surface, World.emit, entered, World.setComp, resumeOf, arg, truthy, hexc]
    · exact hexc
    · simp [entered, World.setComp]
  · intro w1 c k s args e h1 h2 h3 h4 h5
    refine ⟨hstep n w1 c k s args e h1 h2 h3 h4 h5, ?_⟩
    simp only [handle]
    unfold call
    simp only [h1, Option.isSome_none, Bool.false_eq_true, if_false]
    rw [hstep n w1 c k s args e h1 h2 h3 h4 h5]
    simp [surface, World.emit]
  · intro w1 c k args h1 h2 h3 h4 h5
    unfold step
    simp [h1, h2, h3, h4, h5, call, World.emit, World.setComp]
/-- C14, amended, at a concrete input: `raco(function* () { throw new Error('boom') })` in
`envJ`; the exception leaves the entry call. -/
theorem fire_and_forget_does_not_catch_witness :
    handle envJ 3 World.empty (Event.raco (Value.obj genFnShape 2) [])
      = some { entered World.empty Iter.finished false Value.noop with
          trace := (World.empty : World Nat).trace ++
            [Obs.resumed (World.empty : World Nat).fresh (Resume.next Value.undefined),
              Obs.threw boom] } :=
  (fire_and_forget_does_not_catch envJ 0 World.empty genFnShape 2 [] rfl rfl rfl rfl rfl
    rfl).2.1 boom rfl

/-- C15, where the code departs from it. `obj.hasOwnProperty(key)` looks the method up on
the object itself. On `bareObj`, a mapping without a prototype whose property `g` is a
generator function, nothing is found and `wrapAll` throws instead of returning the
object. On `shadowObj`, whose own property `hasOwnProperty` is a user function that
answers `false`, `wrapAll` returns the object with the generator function `g` not
wrapped. On the ordinary object `plainObj` it does what the claim says: `g` is wrapped,
`a` and `h` keep their values and the inherited `p` is left alone. -/
theorem wrapAll_calls_own_hasOwnProperty :
    wrapAll (fun _ _ => some false) (fun i => if i = 0 then some bareObj else none) 0 = none ∧
    ((wrapAll (fun _ _ => some false) (fun i => if i = 0 then some shadowObj else none) 0).map
        fun r => (r.1 0, r.2)) = some (some shadowObj, 0) ∧
    ((wrapAll (fun _ _ => some false) (fun i => if i = 0 then some plainObj else none) 0).map
        fun r => (r.1 0, r.2))
      = some (some { plainObj with
          own := [("a", Value.num 1), ("g", Value.wrap (Value.obj genFnShape 1)),
            ("h", Value.obj fnShape 7)] }, 0) := by
  refine ⟨?_, ?_, ?_⟩ <;> rfl

/-- C12. The life of the parallel group of a computation. The computation that `_raco`
creates and steps has no group. `next.push()` without a group creates a new one, and
`j + 1` pushes in a row leave one new group with `j + 1` slots; with a group, it appends
a slot to that group and leaves `parallel` as it is. `next.clear()` only makes the group
absent: nothing is queued, recorded or invoked. After `next.all()` and `next.any()` on a
group the group is absent. Without a group, `next.all()` hands `(null, [])` to `next`
(and `next.any()` hands it `(null, null)`), which queues it when no tick is pending: so
does a second `all()` that follows a reset without a push in between. After a reset,
pushes followed by `all()` register the continuation on the new group, which holds only
the slots pushed since; the other groups are as they were, and a slot of a group that
was cleared only records what it receives. -/
theorem parallel_lifecycle (env : Env σ) (n : Nat) (w : World σ) (c : Nat) (k : Comp σ)
    (hexc : w.exc = none) (hc : w.comps c = some k) :
    (∀ sh id args0, (isGenerator (Value.obj sh id) || isFunction (Value.obj sh id)) = true →
      ∃ it tc cbv post,
        _raco env (n + 1) w (Value.obj sh id) args0
          = (step env n (entered w it tc cbv) w.fresh []).map post ∧
        ∀ k0, (entered w it tc cbv).comps w.fresh = some k0 → k0.parallel = none) ∧
    (k.parallel = none → ∀ j,
      (List.replicate (j + 1) Act.push).foldlM (fun w2 a => act env (n + 1) w2 c a) w
        = some { w with
            comps := Function.update w.comps c (some { k with parallel := some w.freshGroup })
            groups := Function.update w.groups w.freshGroup (some (freshSlots (j + 1)))
            freshGroup := w.freshGroup + 1 }) ∧
    (∀ g grp, k.parallel = some g → w.groups g = some grp →
      act env (n + 1) w c Act.push
        = some { w with
            groups := Function.update w.groups g
              (some { grp with slots := grp.slots ++ [none] }) }) ∧
    act env (n + 1) w c Act.clear
      = some { w with comps := Function.update w.comps c (some { k with parallel := none }) } ∧
    (∀ a m w1 k1, a = Act.all ∨ a = Act.any → k.parallel.isSome = true →
      act env m w c a = some w1 → w1.exc = none → w1.comps c = some k1 →
      k1.parallel = none) ∧
    (k.parallel = none →
      act env (n + 1) w c Act.all = next env n w c [Value.null, Value.arr []] ∧
      act env (n + 1) w c Act.any = next env n w c [Value.null, Value.null] ∧
      (k.ticking = false →
        act env (n + 2) w c Act.all
          = some { w with
              comps := Function.update w.comps c (some { k with ticking := true })
              queue := w.queue ++ [(c, [Value.null, Value.arr []])] })) ∧
    (k.parallel = none → ∀ j,
      (List.replicate (j + 1) Act.push ++ [Act.all]).foldlM
          (fun w2 a => act env (n + 2) w2 c a) w
        = some { w with
            groups := Function.update w.groups w.freshGroup
              (some { freshSlots (j + 1) with waiter := some (true, Value.next c) })
            freshGroup := w.freshGroup + 1 }) ∧
    (∀ g grp i args, w.groups g = some grp → grp.waiter = none →
      call env (n + 2) w (Value.slot g i) args
        = some { w with groups := Function.update w.groups g (some (grp.settle i args)) }) := by
  refine ⟨?_, ?_, ?_, ?_, ?_, ?_, ?_, ?_⟩
  · intro sh id args0 hok
    have hok' : (!isGenerator (Value.obj sh id) && !isFunction (Value.obj sh id)) = false := by
      cases h1 : isGenerator (Value.obj sh id) <;> cases h2 : isFunction (Value.obj sh id) <;>
        simp_all
    have hpar : ∀ (it : Iter σ) (tc : Bool) (cbv : Value) (k0 : Comp σ),
        (entered w it tc cbv).comps w.fresh = some k0 → k0.parallel = none := by
      intro it tc cbv k0 h0
      simp only [entered, World.setComp, Function.update_same, Option.some.injEq] at h0
      rw [← h0]
    unfold _raco
    simp only [hexc, Option.isSome_none, Bool.false_eq_true, if_false, hok']
    by_cases hcb : isFunction (args0.getLast?.getD Value.undefined) = true
    · refine ⟨if isGenerator (Value.obj sh id) = true then env.inst id
        else Iter.live (env.start id (withNext env w.fresh args0.dropLast)), true,
        args0.getLast?.getD Value.undefined, fun x => x, ?_, hpar _ _ _⟩
      simp only [hcb, if_true, Option.map_id', entered, withNext, Value.ident, hexc]
    · by_cases hp : env.opts.hasPromise = true
      · refine ⟨if isGenerator (Value.obj sh id) = true then env.inst id
          else Iter.live (env.start id (withNext env w.fresh args0)), true,
          Value.settle w.fresh, rejectRaised w.fresh, ?_, hpar _ _ _⟩
        simp only [hcb, hp, if_true, Bool.false_eq_true, if_false, entered, withNext,
          Value.ident, hexc]
        rfl
      · refine ⟨if isGenerator (Value.obj sh id) = true then env.inst id
          else Iter.live (env.start id (withNext env w.fresh args0)), false,
          Value.noop, fun x => x, ?_, hpar _ _ _⟩
        simp only [hcb, hp, Bool.false_eq_true, if_false, Option.map_id', entered, withNext,
          Value.ident, hexc]
  · intro hp j
    exact push_many env n w c k hexc hc hp j
  · intro g grp hp hg
    exact push_more env n w c k g grp hexc hc hp hg
  · simp [act, hexc, hc, World.setComp]
  · intro a m w1 k1 ha hp h hexc1 hk1
    obtain ⟨g, hg⟩ := Option.isSome_iff_exists.1 hp
    cases m with
    | zero => simp [act] at h
    | succ m =>
      unfold act at h
      simp only [hexc, hc, hg, Option.isSome_none, Bool.false_eq_true, if_false] at h
      rcases ha with rfl | rfl
      · simp only [Option.map_eq_some'] at h
        obtain ⟨w2, _, rfl⟩ := h
        cases hx : w2.exc with
        | some e => simp [hx] at hexc1
        | none =>
          cases hw : w2.comps c with
          | none => simp [hx, hw] at hk1
          | some k2 =>
            simp only [hx, hw, World.setComp, Function.update_same, Option.some.injEq,
              Option.isSome_none, Bool.false_eq_true, if_false] at hk1
            rw [← hk1]
      · simp only [Option.map_eq_some'] at h
        obtain ⟨w2, _, rfl⟩ := h
        cases hx : w2.exc with
        | some e => simp [hx] at hexc1
        | none =>
          cases hw : w2.comps c with
          | none => simp [hx, hw] at hk1
          | some k2 =>
            simp only [hx, hw, World.setComp, Function.update_same, Option.some.injEq,
              Option.isSome_none, Bool.false_eq_true, if_false] at hk1
            rw [← hk1]
  · intro hp
    refine ⟨?_, ?_, ?_⟩
    · simp [act, hexc, hc, hp]
    · simp [act, hexc, hc, hp]
    · intro ht
      simp [act, next, hexc, hc, hp, ht, World.setComp]
  · intro hp j
    rw [List.foldlM_append, push_many env (n + 1) w c k hexc hc hp j]
    simp only [Option.bind_eq_bind, Option.some_bind, foldlM_one]
    unfold act
    simp only [hexc, Function.update_same, Option.isSome_none, Bool.false_eq_true, if_false]
    unfold settleGroup
    simp [freshSlots, Group.report, World.setGroup, World.setComp, hexc]
    rw [hc]
    cases k
    simp_all
  · intro g grp i args hg hw
    unfold call
    simp only [hexc, Option.isSome_none, Bool.false_eq_true, if_false]
    unfold settleGroup
    have hw1 : (grp.settle i args).waiter = none := by
      unfold Group.settle
      split <;> simp [hw]
    simp [hg, hw1, World.setGroup, hexc]
/-- C12 at a concrete input: in `worldH 0`, where the computation has no group, two pushes
and `all()` leave the continuation registered on the new group 0 with two slots. -/
theorem parallel_lifecycle_witness :
    (List.replicate (1 + 1) Act.push ++ [Act.all]).foldlM
        (fun w2 a => act envH (0 + 2) w2 0 a) (worldH 0)
      = some { worldH 0 with
          groups := Function.update (worldH 0).groups (worldH 0).freshGroup
            (some { freshSlots (1 + 1) with waiter := some (true, Value.next 0) })
          freshGroup := (worldH 0).freshGroup + 1 } :=
  (parallel_lifecycle envH 0 (worldH 0) 0 (compH 0) rfl rfl).2.2.2.2.2.2.1 rfl 1

/-- C11. A computation without a group and with no tick pending makes `k ≥ 1` calls of
`next.push()`; the `k` slots are invoked with `(null, v_i)`, each once, in any order,
some (`S1`) before and the others (`S2`) after the call of `next.all()`. Then `next` is
invoked once, with `(null, [v_0, ..., v_(k-1)])`, the values in push order whatever the
order of settlement: the task is queued, and when it runs the coroutine is resumed with
that list. -/
theorem all_reports_in_push_order (env : Env σ) (n : Nat) (w : World σ) (c : Nat)
    (kc : Comp σ) (vals : List Value) (S1 S2 : List Nat)
    (hexc : w.exc = none) (hc : w.comps c = some kc) (hp : kc.parallel = none)
    (ht : kc.ticking = false) (hne : vals ≠ [])
    (hperm : (S1 ++ S2).Perm (List.range vals.length)) :
    ∃ w1, (List.replicate vals.length GroupOp.push ++ S1.map GroupOp.settle ++ [GroupOp.all] ++
          S2.map GroupOp.settle).foldlM (perform env (n + 4) c w.freshGroup vals) w = some w1 ∧
      w1.queue = w.queue ++ [(c, [Value.null, Value.arr vals])] ∧
      w1.comps c = some { kc with ticking := true } ∧ w1.trace = w.trace ∧ w1.exc = none ∧
      ∀ it m w2, kc.iter = some it → w.queue = [] → tick env m w1 = some w2 →
        ∃ tr, w2.trace = w.trace ++ Obs.tick c [Value.null, Value.arr vals] ::
          Obs.resumed c (Resume.next (Value.arr vals)) :: tr := by
  obtain ⟨j, hj⟩ : ∃ j, vals.length = j + 1 :=
    ⟨vals.length - 1, by
      have : 0 < vals.length := List.length_pos.2 hne
      omega⟩
  have hnd : (S1 ++ S2).Nodup := hperm.nodup_iff.2 (List.nodup_range _)
  have hmem : ∀ i, i ∈ S1 ++ S2 ↔ i < vals.length := fun i => by
    rw [hperm.mem_iff, List.mem_range]
  have hkc : ({ kc with parallel := none } : Comp σ) = kc := by
    cases kc; simp_all
  -- the facts about the final world from which the statement follows
  suffices hmain : ∃ w1, (List.replicate vals.length GroupOp.push ++ S1.map GroupOp.settle ++
        [GroupOp.all] ++ S2.map GroupOp.settle).foldlM
          (perform env (n + 4) c w.freshGroup vals) w = some w1 ∧
      w1.queue = w.queue ++ [(c, [Value.null, Value.arr vals])] ∧
      w1.comps c = some { kc with ticking := true } ∧ w1.trace = w.trace ∧ w1.exc = none by
    obtain ⟨w1, h1, h2, h3, h4, h5⟩ := hmain
    refine ⟨w1, h1, h2, h3, h4, h5, ?_⟩
    intro it m w2 hit hq h
    rw [hq, List.nil_append] at h2
    obtain ⟨tr, htr⟩ := tick_resumes env m w1 w2 c { kc with ticking := true } it
      [Value.null, Value.arr vals] [] h5 h2 h3 hit h
    exact ⟨tr, by simpa [h4, resumeOf, arg, truthy] using htr⟩
  -- the pushes
  have hfresh : Settled vals [] none (freshSlots (j + 1)) :=
    ⟨by rw [settledSlots_nil, hj]; rfl, rfl, rfl, rfl⟩
  obtain ⟨w1, hw1⟩ : ∃ w1 : World σ, w1 = { w with
      comps := Function.update w.comps c (some { kc with parallel := some w.freshGroup })
      groups := Function.update w.groups w.freshGroup (some (freshSlots (j + 1)))
      freshGroup := w.freshGroup + 1 } := ⟨_, rfl⟩
  have hpush : (List.replicate vals.length GroupOp.push).foldlM
      (perform env (n + 4) c w.freshGroup vals) w = some w1 := by
    rw [perform_pushes, hj, hw1]
    exact push_many env (n + 3) w c kc hexc hc hp j
  have h1exc : w1.exc = none := by rw [hw1]; exact hexc
  have h1g : w1.groups w.freshGroup = some (freshSlots (j + 1)) := by rw [hw1]; simp
  -- the slots that settle before `all`
  obtain ⟨grp2, hq2, hs2⟩ := settle_many_quiet env (n + 2) c w.freshGroup vals S1 [] w1 _
    h1exc h1g hfresh (fun i hi => (hmem i).1 (List.mem_append_left _ hi))
  obtain ⟨w2, hw2⟩ : ∃ w2 : World σ, w2 = { w1 with
      groups := Function.update w1.groups w.freshGroup (some grp2) } := ⟨_, rfl⟩
  rw [← hw2] at hq2
  have h2exc : w2.exc = none := by rw [hw2]; exact h1exc
  have h2c : w2.comps c = some { kc with parallel := some w.freshGroup } := by
    rw [hw2, hw1]; simp
  have h2g : w2.groups w.freshGroup = some grp2 := by rw [hw2]; simp
  have h2q : w2.queue = w.queue := by rw [hw2, hw1]
  have h2t : w2.trace = w.trace := by rw [hw2, hw1]
  rw [List.foldlM_append, List.foldlM_append, List.foldlM_append, hpush]
  simp only [Option.bind_eq_bind, Option.some_bind]
  rw [hq2]
  simp only [Option.some_bind, foldlM_one, perform]
  cases S2 with
  | nil =>
    have hall : ∀ m, m < vals.length → m ∈ S1.reverse ++ [] := by
      intro m hm
      have := (hmem m).2 hm
      simpa using this
    rw [all_fires env n w2 c w.freshGroup _ grp2 vals _ h2exc h2c rfl ht h2g hs2 hall]
    refine ⟨_, rfl, ?_, ?_, h2t, h2exc⟩
    · simp [h2q]
    · simp only [Function.update_same]
      congr 1
      cases kc; simp_all
  | cons i S2 =>
    have hi : i ∈ S1 ++ i :: S2 := List.mem_append_right _ (List.mem_cons_self _ _)
    have hdis : ∀ m, m ∈ i :: S2 → m ∉ S1.reverse ++ [] := by
      intro m hm h
      have h' : m ∈ S1 := by simpa using h
      exact (List.nodup_append.1 hnd).2.2 h' hm
    have hm : ∃ m, m < vals.length ∧ m ∉ S1.reverse ++ [] :=
      ⟨i, (hmem i).1 hi, hdis i (List.mem_cons_self _ _)⟩
    obtain ⟨hreg, hs3⟩ := all_registers env (n + 2) w2 c w.freshGroup _ grp2 vals _ h2exc h2c
      rfl h2g hs2 hm
    rw [hreg]
    simp only [Option.some_bind]
    obtain ⟨grp4, h4⟩ := settle_many_waiting env n c w.freshGroup
      { kc with parallel := none } vals (i :: S2) (S1.reverse ++ [])
      { w2 with
        comps := Function.update w2.comps c
          (some { ({ kc with parallel := some w.freshGroup } : Comp σ) with parallel := none })
        groups := Function.update w2.groups w.freshGroup
          (some { grp2 with waiter := some (true, Value.next c) }) }
      _ h2exc (Function.update_same _ _ _) ht (Function.update_same _ _ _) hs3
      (List.cons_ne_nil _ _) (List.nodup_append.1 hnd).2.1
      (fun m hm1 => ⟨(hmem m).1 (List.mem_append_right _ hm1), hdis m hm1⟩)
      (fun m hm1 => by
        rcases List.mem_append.1 ((hmem m).2 hm1) with h | h
        · exact Or.inr (by simpa using h)
        · exact Or.inl h)
    rw [h4]
    refine ⟨_, rfl, ?_, ?_, h2t, h2exc⟩
    · simp [h2q]
    · simp only [Function.update_same]
      congr 1
      cases kc; simp_all
/-- C11 at a concrete input: three slots settled in the order third (`'c'`), first
(`'a'`), second (`'b'`) after `all()` give `['a', 'b', 'c']`; and in a run of the
coroutine of `envP` from the entry, the same settlements queue the same list. -/
theorem all_reports_in_push_order_witness :
    (∃ w1, (List.replicate [Value.str "a", Value.str "b", Value.str "c"].length GroupOp.push ++
          ([] : List Nat).map GroupOp.settle ++ [GroupOp.all] ++
          [2, 0, 1].map GroupOp.settle).foldlM
          (perform envH (0 + 4) 0 (worldH 0).freshGroup
            [Value.str "a", Value.str "b", Value.str "c"]) (worldH 0) = some w1 ∧
      w1.queue = (worldH 0).queue ++
        [(0, [Value.null, Value.arr [Value.str "a", Value.str "b", Value.str "c"]])] ∧
      w1.comps 0 = some { compH 0 with ticking := true } ∧ w1.trace = (worldH 0).trace ∧
      w1.exc = none ∧
      ∀ it m w2, (compH 0).iter = some it → (worldH 0).queue = [] → tick envH m w1 = some w2 →
        ∃ tr, w2.trace = (worldH 0).trace ++
          Obs.tick 0 [Value.null, Value.arr [Value.str "a", Value.str "b", Value.str "c"]] ::
          Obs.resumed 0 (Resume.next (Value.arr [Value.str "a", Value.str "b", Value.str "c"])) ::
          tr) ∧
    (run envP 5 World.empty [Event.raco gen [cb],
        Event.call (Value.slot 0 2) [Value.null, Value.str "c"],
        Event.call (Value.slot 0 0) [Value.null, Value.str "a"],
        Event.call (Value.slot 0 1) [Value.null, Value.str "b"]]).map
        (fun w => (w.trace, w.queue))
      = some ([Obs.resumed 0 (Resume.next Value.undefined)],
          [(0, [Value.null, Value.arr [Value.str "a", Value.str "b", Value.str "c"]])]) :=
  ⟨all_reports_in_push_order envH 0 (worldH 0) 0 (compH 0)
      [Value.str "a", Value.str "b", Value.str "c"] [] [2, 0, 1] rfl rfl rfl rfl
      (by simp) (by decide),
    rfl⟩

end Raco
